import Mathlib

/-!
# Daemon host parsing and socket-activated listeners

A shallow embedding of `opts/hosts.go` (`ValidateHost`, `ParseHost`,
`parseDaemonHost`, `parseSimpleProtoAddr`, `ParseTCPAddr`) and of
`daemon/listeners/listeners_linux.go` (`Init`, `listenFD`), together with the parts
of the Go standard library they call (`strings`, `strconv.Atoi`,
`net.SplitHostPort`, `net.JoinHostPort`, `url.Parse`).

A Go string is a byte sequence. It is embedded as a `List Char`, one `Char` per
byte; every delimiter the code looks at is ASCII.  Go's `int` is the 64-bit
signed integer and is embedded as an `Int` with explicit wrap-around.
-/

/-- A Go string: its sequence of bytes. -/
abbrev Str := List Char

/-- Equality of Go results (a value or an error) is decidable. -/
instance instDecidableEqExcept {ε α : Type} [DecidableEq ε] [DecidableEq α] :
    DecidableEq (Except ε α)
  | .ok a, .ok b => if h : a = b then isTrue (by rw [h]) else isFalse (by simp [h])
  | .error a, .error b => if h : a = b then isTrue (by rw [h]) else isFalse (by simp [h])
  | .ok _, .error _ => isFalse (by simp)
  | .error _, .ok _ => isFalse (by simp)

/-! ## package strings -/

/-- Go `strings.HasPrefix`. -/
def strings.HasPrefix (s pre : Str) : Bool := pre.isPrefixOf s

/-- Go `strings.HasSuffix`. -/
def strings.HasSuffix (s suf : Str) : Bool := suf.isSuffixOf s

/-- Go `strings.TrimPrefix`: `s` without the leading `pre`, or `s` itself. -/
def strings.TrimPrefix (s pre : Str) : Str :=
  if strings.HasPrefix s pre then s.drop pre.length else s

/-- Go `strings.Index`: the index of the first instance of `substr` in `s`
(`none` for Go's `-1`). -/
def strings.Index : Str → Str → Option Nat
  | [], substr => if substr.isEmpty then some 0 else none
  | c :: cs, substr =>
    if substr.isPrefixOf (c :: cs) then some 0
    else (strings.Index cs substr).map (· + 1)

/-- Go `strings.Contains`. -/
def strings.Contains (s substr : Str) : Bool := (strings.Index s substr).isSome

/-- Go `strings.IndexByte`: index of the first `c` in `s`. -/
def strings.IndexByte : Str → Char → Option Nat
  | [], _ => none
  | x :: xs, c => if x = c then some 0 else (strings.IndexByte xs c).map (· + 1)

/-- Go `strings.LastIndexByte`: index of the last `c` in `s`. -/
def strings.LastIndexByte : Str → Char → Option Nat
  | [], _ => none
  | x :: xs, c =>
    match strings.LastIndexByte xs c with
    | some i => some (i + 1)
    | none => if x = c then some 0 else none

/-- Go `strings.SplitN(s, sep, 2)` for a non-empty `sep`: `[s]` when `sep` does not
occur, else the text before and the text after its first occurrence. -/
def strings.SplitN2 (s sep : Str) : List Str :=
  match strings.Index s sep with
  | none => [s]
  | some m => [s.take m, s.drop (m + sep.length)]

/-- Go `strings.Cut` with a one-byte separator: the text before and after the first
`sep`, or `(s, "")` when there is none. -/
def strings.CutByte (s : Str) (sep : Char) : Str × Str :=
  match strings.IndexByte s sep with
  | none => (s, [])
  | some i => (s.take i, s.drop (i + 1))

/-! ## Errors -/

/-- The errors of package `net/url` that `url.Parse` can return. -/
inductive URLError
  | invalidControlCharacter
  | missingProtocolScheme
  | firstPathSegmentColon
  | missingBracket
  | invalidPort (colonPort : Str)
  | escapeError (s : Str)
  | invalidHostError (s : Str)
  | invalidUserinfo
  deriving DecidableEq, Repr

/-- The error values returned by the functions of `opts/hosts.go`. -/
inductive HostError
  /-- `fmt.Errorf("Invalid proto, expected %s: %s", proto, addr)`. -/
  | invalidProto (proto addr : Str)
  /-- `fmt.Errorf("Invalid bind address format: %s", addr)`. -/
  | invalidBindAddress (addr : Str)
  /-- A `*net.AddrError` with its reason and address. -/
  | addrError (why addr : Str)
  /-- A `*url.Error` from `url.Parse`. -/
  | urlError (e : URLError)
  deriving DecidableEq, Repr

/-! ## package strconv -/

/-- Go's `int` on the 64-bit targets: reduce an integer into `[-2^63, 2^63)`. -/
def wrap64 (x : Int) : Int := (x + 2 ^ 63) % 2 ^ 64 - 2 ^ 63

/-- The two error kinds of `strconv.NumError`. -/
inductive NumErr
  | ErrSyntax
  | ErrRange
  deriving DecidableEq, Repr

/-- The digit loop of `strconv.ParseUint(s, 10, 64)`: `n` is the value so far.
A byte that is not a decimal digit is a syntax error (value 0); a value that does
not fit 64 bits stops the loop at once with the range error (value `2^64 - 1`). -/
def strconv.parseUintLoop : Nat → Str → Nat × Option NumErr
  | n, [] => (n, none)
  | n, c :: cs =>
    if '0' ≤ c ∧ c ≤ '9' then
      let d := c.toNat - '0'.toNat
      if n ≥ (2 ^ 64 - 1) / 10 + 1 then (2 ^ 64 - 1, some .ErrRange)
      else if n * 10 + d > 2 ^ 64 - 1 then (2 ^ 64 - 1, some .ErrRange)
      else strconv.parseUintLoop (n * 10 + d) cs
    else (0, some .ErrSyntax)

/-- Go `strconv.ParseUint(s, 10, 64)`. -/
def strconv.ParseUint (s : Str) : Nat × Option NumErr :=
  if s = [] then (0, some .ErrSyntax) else strconv.parseUintLoop 0 s

/-- Go `strconv.ParseInt(s, 10, 0)` with 64-bit `int`. -/
def strconv.ParseInt (s : Str) : Int × Option NumErr :=
  match s with
  | [] => (0, some .ErrSyntax)
  | c :: cs =>
    let neg := decide (c = '-')
    let s1 := if c = '+' ∨ c = '-' then cs else c :: cs
    match strconv.ParseUint s1 with
    | (_, some .ErrSyntax) => (0, some .ErrSyntax)
    | (un, _) =>
      if !neg ∧ un ≥ 2 ^ 63 then (2 ^ 63 - 1, some .ErrRange)
      else if neg ∧ un > 2 ^ 63 then (-(2 ^ 63), some .ErrRange)
      else (if neg then wrap64 (-(un : Int)) else (un : Int), none)

/-- The digit loop of the fast path of `strconv.Atoi`. -/
def strconv.atoiFast : Int → Str → Option Int
  | n, [] => some n
  | n, c :: cs =>
    if '0' ≤ c ∧ c ≤ '9' then strconv.atoiFast (n * 10 + (c.toNat - '0'.toNat : Nat)) cs
    else none

/-- Go `strconv.Atoi` (64-bit `int`): the value and the error, as Go returns both. -/
def strconv.Atoi (s : Str) : Int × Option NumErr :=
  if 0 < s.length ∧ s.length < 19 then
    match s with
    | [] => (0, some .ErrSyntax)
    | c :: cs =>
      let s1 := if c = '-' ∨ c = '+' then cs else c :: cs
      if s1.length < 1 then (0, some .ErrSyntax)
      else
        match strconv.atoiFast 0 s1 with
        | none => (0, some .ErrSyntax)
        | some n => (if c = '-' then -n else n, none)
  else strconv.ParseInt s

/-! ## package net -/

/-- Go `net.SplitHostPort`; the error is the reason text of the `AddrError`. -/
def net.SplitHostPort (hostport : Str) : Except Str (Str × Str) :=
  match strings.LastIndexByte hostport ':' with
  | none => .error "missing port in address".toList
  | some i =>
    let checkRest (host : Str) (j k : Nat) : Except Str (Str × Str) :=
      if (strings.IndexByte (hostport.drop j) '[').isSome then
        .error "unexpected '[' in address".toList
      else if (strings.IndexByte (hostport.drop k) ']').isSome then
        .error "unexpected ']' in address".toList
      else .ok (host, hostport.drop (i + 1))
    if hostport.head? = some '[' then
      match strings.IndexByte hostport ']' with
      | none => .error "missing ']' in address".toList
      | some e =>
        if e + 1 = hostport.length then .error "missing port in address".toList
        else if e + 1 = i then checkRest ((hostport.take e).drop 1) 1 (e + 1)
        else if hostport.get? (e + 1) = some ':' then
          .error "too many colons in address".toList
        else .error "missing port in address".toList
    else
      let host := hostport.take i
      if (strings.IndexByte host ':').isSome then
        .error "too many colons in address".toList
      else checkRest host 0 0

/-- Go `net.JoinHostPort`. -/
def net.JoinHostPort (host port : Str) : Str :=
  if (strings.IndexByte host ':').isSome then
    "[".toList ++ host ++ "]:".toList ++ port
  else host ++ ":".toList ++ port

/-! ## package net/url

`url.Parse` as of the Go releases this code was built with (Go 1.13 to 1.16; the
same for our inputs up to Go 1.24): the control-byte check is present, and a host is
not checked beyond the bytes it may hold.  Of the parsed `URL` the caller reads
`Host` and `Path`; the other fields are kept because validating them can fail. -/

/-- The escaping modes of `net/url` that `Parse` uses. -/
inductive url.encoding
  | encodePath
  | encodeHost
  | encodeZone
  | encodeUserPassword
  | encodeFragment
  deriving DecidableEq, Repr

/-- Go `url.ishex`. -/
def url.ishex (c : Char) : Bool :=
  ('0' ≤ c && c ≤ '9') || ('a' ≤ c && c ≤ 'f') || ('A' ≤ c && c ≤ 'F')

/-- Go `url.unhex`. -/
def url.unhex (c : Char) : Nat :=
  if '0' ≤ c ∧ c ≤ '9' then c.toNat - '0'.toNat
  else if 'a' ≤ c ∧ c ≤ 'f' then c.toNat - 'a'.toNat + 10
  else if 'A' ≤ c ∧ c ≤ 'F' then c.toNat - 'A'.toNat + 10
  else 0

/-- Go `url.shouldEscape(c, encodeHost)`: letters, digits, the sub-delimiters
`!$&'()*+,;=`, the bytes `:[]<>"` and the marks `-_.~` may stand in a host. -/
def url.shouldEscapeHost (c : Char) : Bool :=
  if ('a' ≤ c && c ≤ 'z') || ('A' ≤ c && c ≤ 'Z') || ('0' ≤ c && c ≤ '9') then false
  else if c ∈ ['!', '$', '&', '\'', '(', ')', '*', '+', ',', ';', '=', ':', '[', ']',
      '<', '>', '"'] then false
  else if c ∈ ['-', '_', '.', '~'] then false
  else true

/-- The byte `unhex(a)<<4 | unhex(b)` that `%ab` stands for. -/
def url.unhexByte (a b : Char) : Char := Char.ofNat (url.unhex a * 16 + url.unhex b)

/-- Go `url.unescape(s, mode)`: the first malformed or forbidden place is an error,
otherwise every `%XX` is replaced by its byte. -/
def url.unescape (mode : url.encoding) : Str → Except URLError Str
  | [] => .ok []
  | c :: rest =>
    if c = '%' then
      match rest with
      | a :: b :: rest2 =>
        if !url.ishex a || !url.ishex b then .error (.escapeError [c, a, b])
        else if mode = .encodeHost ∧ url.unhex a < 8 ∧ [c, a, b] ≠ "%25".toList then
          .error (.escapeError [c, a, b])
        else if mode = .encodeZone ∧ [c, a, b] ≠ "%25".toList ∧ url.unhexByte a b ≠ ' ' ∧
            url.shouldEscapeHost (url.unhexByte a b) then
          .error (.escapeError [c, a, b])
        else
          match url.unescape mode rest2 with
          | .error e => .error e
          | .ok t => .ok (url.unhexByte a b :: t)
      | _ => .error (.escapeError (c :: rest))
    else if c = '+' then
      match url.unescape mode rest with
      | .error e => .error e
      | .ok t => .ok (c :: t)
    else if (mode = .encodeHost ∨ mode = .encodeZone) ∧ c.toNat < 0x80 ∧
        url.shouldEscapeHost c then
      .error (.invalidHostError [c])
    else
      match url.unescape mode rest with
      | .error e => .error e
      | .ok t => .ok (c :: t)

/-- Go `url.stringContainsCTLByte`: a byte below `0x20`, or `0x7f`. -/
def url.stringContainsCTLByte (s : Str) : Bool :=
  s.any (fun b => decide (b.toNat < 0x20) || decide (b.toNat = 0x7f))

/-- The loop of Go `url.getScheme` at index `i`, the bytes from `i` on being `rest`. -/
def url.getSchemeLoop (rawURL : Str) : Nat → Str → Except URLError (Str × Str)
  | _, [] => .ok ([], rawURL)
  | i, c :: rest =>
    if ('a' ≤ c && c ≤ 'z') || ('A' ≤ c && c ≤ 'Z') then url.getSchemeLoop rawURL (i + 1) rest
    else if ('0' ≤ c && c ≤ '9') || c = '+' || c = '-' || c = '.' then
      if i = 0 then .ok ([], rawURL) else url.getSchemeLoop rawURL (i + 1) rest
    else if c = ':' then
      if i = 0 then .error .missingProtocolScheme
      else .ok (rawURL.take i, rawURL.drop (i + 1))
    else .ok ([], rawURL)

/-- Go `url.getScheme`: `(scheme, rest)`. -/
def url.getScheme (rawURL : Str) : Except URLError (Str × Str) :=
  url.getSchemeLoop rawURL 0 rawURL

/-- Go `url.validOptionalPort`: empty, or a colon followed by decimal digits. -/
def url.validOptionalPort (port : Str) : Bool :=
  match port with
  | [] => true
  | c :: ds => c = ':' && ds.all (fun b => '0' ≤ b && b ≤ '9')

/-- Go `url.validUserinfo`. -/
def url.validUserinfo (s : Str) : Bool :=
  s.all (fun r =>
    ('A' ≤ r && r ≤ 'Z') || ('a' ≤ r && r ≤ 'z') || ('0' ≤ r && r ≤ '9') ||
    decide (r ∈ ['-', '.', '_', ':', '~', '!', '$', '&', '\'', '(', ')', '*', '+', ',',
      ';', '=', '%', '@']))

/-- Go `url.parseHost`. -/
def url.parseHost (host : Str) : Except URLError Str :=
  if strings.HasPrefix host "[".toList then
    match strings.LastIndexByte host ']' with
    | none => .error .missingBracket
    | some i =>
      let colonPort := host.drop (i + 1)
      if !url.validOptionalPort colonPort then .error (.invalidPort colonPort)
      else
        match strings.Index (host.take i) "%25".toList with
        | some zone =>
          match url.unescape .encodeHost (host.take zone) with
          | .error e => .error e
          | .ok host1 =>
            match url.unescape .encodeZone ((host.take i).drop zone) with
            | .error e => .error e
            | .ok host2 =>
              match url.unescape .encodeHost (host.drop i) with
              | .error e => .error e
              | .ok host3 => .ok (host1 ++ host2 ++ host3)
        | none => url.unescape .encodeHost host
  else
    match strings.LastIndexByte host ':' with
    | some i =>
      let colonPort := host.drop i
      if !url.validOptionalPort colonPort then .error (.invalidPort colonPort)
      else url.unescape .encodeHost host
    | none => url.unescape .encodeHost host

/-- The user name and optional password of a URL. -/
structure url.Userinfo where
  username : Str
  password : Option Str
  deriving DecidableEq, Repr

/-- Go `url.parseAuthority`: `(user, host)`. -/
def url.parseAuthority (authority : Str) : Except URLError (Option url.Userinfo × Str) :=
  match strings.LastIndexByte authority '@' with
  | none =>
    match url.parseHost authority with
    | .error e => .error e
    | .ok host => .ok (none, host)
  | some i =>
    match url.parseHost (authority.drop (i + 1)) with
    | .error e => .error e
    | .ok host =>
      let userinfo := authority.take i
      if !url.validUserinfo userinfo then .error .invalidUserinfo
      else if !(strings.IndexByte userinfo ':').isSome then
        match url.unescape .encodeUserPassword userinfo with
        | .error e => .error e
        | .ok u => .ok (some ⟨u, none⟩, host)
      else
        let up := strings.CutByte userinfo ':'
        match url.unescape .encodeUserPassword up.1 with
        | .error e => .error e
        | .ok username =>
          match url.unescape .encodeUserPassword up.2 with
          | .error e => .error e
          | .ok password => .ok (some ⟨username, some password⟩, host)

/-- Go `url.URL`, the fields that `Parse` fills from the text. -/
structure url.URL where
  Scheme : Str := []
  Opaque : Str := []
  User : Option url.Userinfo := none
  Host : Str := []
  Path : Str := []
  RawQuery : Str := []
  Fragment : Str := []
  deriving DecidableEq, Repr

/-- Go `strings.ToLower` on the ASCII bytes a scheme can hold. -/
def strings.ToLowerASCII (s : Str) : Str :=
  s.map (fun c => if 'A' ≤ c ∧ c ≤ 'Z' then Char.ofNat (c.toNat + 32) else c)

/-- Go `url.parse(rawURL, viaRequest = false)`. -/
def url.parse (rawURL : Str) : Except URLError url.URL :=
  if url.stringContainsCTLByte rawURL then .error .invalidControlCharacter
  else if rawURL = "*".toList then .ok { Path := "*".toList }
  else
    match url.getScheme rawURL with
    | .error e => .error e
    | .ok (scheme0, rest0) =>
      let scheme := strings.ToLowerASCII scheme0
      let rq := strings.CutByte rest0 '?'
      let rest := rq.1
      let rawQuery := rq.2
      if !strings.HasPrefix rest "/".toList ∧ scheme ≠ [] then
        .ok { Scheme := scheme, RawQuery := rawQuery, Opaque := rest }
      else if !strings.HasPrefix rest "/".toList ∧
          (strings.IndexByte (strings.CutByte rest '/').1 ':').isSome then
        .error .firstPathSegmentColon
      else
        let withPath (user : Option url.Userinfo) (host rest : Str) :
            Except URLError url.URL :=
          match url.unescape .encodePath rest with
          | .error e => .error e
          | .ok path =>
            .ok { Scheme := scheme, RawQuery := rawQuery, User := user, Host := host,
                  Path := path }
        if (scheme ≠ [] ∨ !strings.HasPrefix rest "///".toList) ∧
            strings.HasPrefix rest "//".toList then
          let authority0 := rest.drop 2
          let ar : Str × Str :=
            match strings.IndexByte authority0 '/' with
            | some i => (authority0.take i, authority0.drop i)
            | none => (authority0, [])
          match url.parseAuthority ar.1 with
          | .error e => .error e
          | .ok (user, host) => withPath user host ar.2
        else withPath none [] rest

/-- Go `url.Parse`: cut off the fragment, parse the rest, then unescape the fragment. -/
def url.Parse (rawURL : Str) : Except URLError url.URL :=
  let uf := strings.CutByte rawURL '#'
  match url.parse uf.1 with
  | .error e => .error e
  | .ok u =>
    if uf.2 = [] then .ok u
    else
      match url.unescape .encodeFragment uf.2 with
      | .error e => .error e
      | .ok frag => .ok { u with Fragment := frag }

/-! ## opts/hosts.go -/

/-- The package variable `DefaultHTTPPort` as `%d` prints it. -/
def DefaultHTTPPort : Str := "2375".toList

/-- The package variable `DefaultTLSHTTPPort` as `%d` prints it. -/
def DefaultTLSHTTPPort : Str := "2376".toList

/-- The package variable `DefaultUnixSocket`. -/
def DefaultUnixSocket : Str := "/var/run/docker.sock".toList

/-- The package variable `DefaultTCPHost`, `fmt.Sprintf("tcp://%s:%d", DefaultHTTPHost,
DefaultHTTPPort)`.  `DefaultHTTPHost` is declared in a file of the package that is
not part of the sources at hand, so it is a parameter. -/
def DefaultTCPHost (DefaultHTTPHost : Str) : Str :=
  "tcp://".toList ++ DefaultHTTPHost ++ ":".toList ++ DefaultHTTPPort

/-- The package variable `DefaultTLSHost`. -/
def DefaultTLSHost (DefaultHTTPHost : Str) : Str :=
  "tcp://".toList ++ DefaultHTTPHost ++ ":".toList ++ DefaultTLSHTTPPort

/-- The package variable `DefaultNamedPipe`. -/
def DefaultNamedPipe : Str := "//./pipe/docker_engine".toList

/-- Function `parseSimpleProtoAddr` of `opts/hosts.go`. -/
def parseSimpleProtoAddr (proto addr defaultAddr : Str) : Except HostError Str :=
  let addr := strings.TrimPrefix addr (proto ++ "://".toList)
  if strings.Contains addr "://".toList then .error (.invalidProto proto addr)
  else
    let addr := if addr = [] then defaultAddr else addr
    .ok (proto ++ "://".toList ++ addr)

/-- Lines 161 to 165 of `ParseTCPAddr`: split `u.Host`, and when that fails try once
more with the default port joined on. -/
def splitHostPortRetry (uHost defaultPort : Str) : Except Str (Str × Str) :=
  match net.SplitHostPort uHost with
  | .ok hp => .ok hp
  | .error _ => net.SplitHostPort (net.JoinHostPort uHost defaultPort)

/-- Lines 140 to 175 of `ParseTCPAddr`: the host, the port and the URL path that the
last lines check and print, or the error returned before them. -/
def resolveTCPParts (tryAddr defaultAddr : Str) : Except HostError (Str × Str × Str) :=
  let addr := strings.TrimPrefix tryAddr "tcp://".toList
  if strings.Contains addr "://".toList ∨ addr = [] then .error (.invalidProto "tcp".toList tryAddr)
  else
    let defaultAddr := strings.TrimPrefix defaultAddr "tcp://".toList
    match net.SplitHostPort defaultAddr with
    | .error why => .error (.addrError why defaultAddr)
    | .ok (defaultHost, defaultPort) =>
      let addr := if strings.HasSuffix addr "]:".toList then addr ++ defaultPort else addr
      match url.Parse ("tcp://".toList ++ addr) with
      | .error e => .error (.urlError e)
      | .ok u =>
        match splitHostPortRetry u.Host defaultPort with
        | .error _ => .error (.invalidBindAddress tryAddr)
        | .ok (host, port) =>
          let host := if host = [] then defaultHost else host
          let port := if port = [] then defaultPort else port
          .ok (host, port, u.Path)

/-- Lines 176 to 181 of `ParseTCPAddr`: the port is refused when `Atoi` returns an
error together with the value 0; otherwise the address is printed. -/
def formatTCPParts (tryAddr : Str) (parts : Str × Str × Str) : Except HostError Str :=
  let p := strconv.Atoi parts.2.1
  if p.2.isSome ∧ p.1 = 0 then .error (.invalidBindAddress tryAddr)
  else .ok ("tcp://".toList ++ net.JoinHostPort parts.1 parts.2.1 ++ parts.2.2)

/-- Function `ParseTCPAddr` of `opts/hosts.go`. -/
def ParseTCPAddr (tryAddr defaultAddr : Str) : Except HostError Str :=
  if tryAddr = [] ∨ tryAddr = "tcp://".toList then .ok defaultAddr
  else
    match resolveTCPParts tryAddr defaultAddr with
    | .error e => .error e
    | .ok parts => formatTCPParts tryAddr parts

/-- Function `parseDaemonHost` of `opts/hosts.go`.  After `SplitN(addr, "://", 2)` the
list has one or two elements; `addrParts[1]` is read only where it has two. -/
def parseDaemonHost (DefaultHTTPHost : Str) (addr : Str) : Except HostError Str :=
  let addrParts := strings.SplitN2 addr "://".toList
  let addrParts :=
    match addrParts with
    | [a] => if a ≠ [] then ["tcp".toList, a] else addrParts
    | _ => addrParts
  match addrParts with
  | [p, a] =>
    if p = "tcp".toList then ParseTCPAddr a (DefaultTCPHost DefaultHTTPHost)
    else if p = "unix".toList then parseSimpleProtoAddr "unix".toList a DefaultUnixSocket
    else if p = "npipe".toList then parseSimpleProtoAddr "npipe".toList a DefaultNamedPipe
    else if p = "fd".toList then .ok addr
    else .error (.invalidBindAddress addr)
  | _ => .error (.invalidBindAddress addr)

/-- Go `unicode.IsSpace` on a one-byte rune: `\t`, `\n`, `\v`, `\f`, `\r` and the blank. -/
def strings.isSpace1 (a : Char) : Bool :=
  (decide (0x09 ≤ a.toNat) && decide (a.toNat ≤ 0x0d)) || decide (a.toNat = 0x20)

/-- Go `unicode.IsSpace` on a rune of two bytes `a b`: U+0085 and U+00A0. -/
def strings.isSpace2 (a b : Char) : Bool :=
  decide (a.toNat = 0xc2) && (decide (b.toNat = 0x85) || decide (b.toNat = 0xa0))

/-- Go `unicode.IsSpace` on a rune of three bytes `a b c`: U+1680, U+2000 to U+200A,
U+2028, U+2029, U+202F, U+205F and U+3000. -/
def strings.isSpace3 (a b c : Char) : Bool :=
  (decide (a.toNat = 0xe1) && decide (b.toNat = 0x9a) && decide (c.toNat = 0x80)) ||
  (decide (a.toNat = 0xe2) && decide (b.toNat = 0x80) &&
    ((decide (0x80 ≤ c.toNat) && decide (c.toNat ≤ 0x8a)) || decide (c.toNat = 0xa8) ||
      decide (c.toNat = 0xa9) || decide (c.toNat = 0xaf))) ||
  (decide (a.toNat = 0xe2) && decide (b.toNat = 0x81) && decide (c.toNat = 0x9f)) ||
  (decide (a.toNat = 0xe3) && decide (b.toNat = 0x80) && decide (c.toNat = 0x80))

/-- Go `strings.TrimLeftFunc(s, unicode.IsSpace)`: drop the white-space runes in
front, read as UTF-8. -/
def strings.TrimLeftSpace : Str → Str
  | [] => []
  | a :: rest =>
    if strings.isSpace1 a then strings.TrimLeftSpace rest
    else
      match rest with
      | [] => [a]
      | b :: rest2 =>
        if strings.isSpace2 a b then strings.TrimLeftSpace rest2
        else
          match rest2 with
          | [] => [a, b]
          | c :: rest3 =>
            if strings.isSpace3 a b c then strings.TrimLeftSpace rest3
            else a :: b :: c :: rest3

/-- Go `strings.TrimRightFunc(s, unicode.IsSpace)` on the reversed bytes of `s`: drop
the white-space runes at the end. -/
def strings.TrimRightSpaceRev : Str → Str
  | [] => []
  | a :: rest =>
    if strings.isSpace1 a then strings.TrimRightSpaceRev rest
    else
      match rest with
      | [] => [a]
      | b :: rest2 =>
        if strings.isSpace2 b a then strings.TrimRightSpaceRev rest2
        else
          match rest2 with
          | [] => [a, b]
          | c :: rest3 =>
            if strings.isSpace3 c b a then strings.TrimRightSpaceRev rest3
            else a :: b :: c :: rest3

/-- Go `strings.TrimSpace`: `s` without leading and trailing white space. -/
def strings.TrimSpace (s : Str) : Str :=
  (strings.TrimRightSpaceRev (strings.TrimLeftSpace s).reverse).reverse

/-- What `ParseHost` and `ValidateHost` take from outside `opts/hosts.go`: the package
variables `DefaultHTTPHost` and `DefaultHost`, declared in a file of the package
that is not part of the sources at hand, the result of `homedir.GetRuntimeDir()`,
and `filepath.Join` of the runtime directory and a file name. -/
structure HostsEnv where
  DefaultHTTPHost : Str
  DefaultHost : Str
  GetRuntimeDir : Except Str Str
  Join : Str → Str → Str

/-- The errors that `ParseHost` and `ValidateHost` return. -/
inductive ParseHostError
  /-- The error of `parseDaemonHost`, as it is. -/
  | parse (e : HostError)
  /-- The error of `homedir.GetRuntimeDir`, as it is. -/
  | runtimeDir (err : Str)
  deriving DecidableEq, Repr

/-- Function `ValidateHost` of `opts/hosts.go`: the returned string and the error
(`none` is `nil`). -/
def ValidateHost (env : HostsEnv) (val : Str) : Str × Option ParseHostError :=
  let host := strings.TrimSpace val
  if host ≠ [] then
    match parseDaemonHost env.DefaultHTTPHost host with
    | .error err => (val, some (.parse err))
    | .ok _ => (val, none)
  else (val, none)

/-- Function `ParseHost` of `opts/hosts.go`: the returned string and the error
(`none` is `nil`). -/
def ParseHost (env : HostsEnv) (defaultToTLS defaultToUnixXDG : Bool) (val : Str) :
    Str × Option ParseHostError :=
  let host := strings.TrimSpace val
  if host = [] then
    if defaultToTLS then (DefaultTLSHost env.DefaultHTTPHost, none)
    else if defaultToUnixXDG then
      match env.GetRuntimeDir with
      | .error err => ([], some (.runtimeDir err))
      | .ok runtimeDir =>
        let socket := env.Join runtimeDir "docker.sock".toList
        ("unix://".toList ++ socket, none)
    else (env.DefaultHost, none)
  else
    match parseDaemonHost env.DefaultHTTPHost host with
    | .error err => (val, some (.parse err))
    | .ok host => (host, none)

/-! ## daemon/listeners/listeners_linux.go -/

/-- A listener handle (`net.Listener`), named by a number; a `nil` slot of the
inventory is `none`. -/
abbrev Listener := Nat

/-- The error values that `listenFD` returns. -/
inductive ListenError
  /-- The error of `activation.Listeners` or `activation.TLSListeners`. -/
  | activationFailed (err : Str)
  /-- "no sockets found via socket activation: make sure the service was started by systemd". -/
  | noSocketsFound
  /-- "failed to parse systemd fd address: should be a number: %v". -/
  | notANumber (addr : Str)
  /-- "too few socket activated files passed in by systemd". -/
  | tooFewFiles
  /-- "failed to listen on systemd activated file: fd %d". -/
  | nilListener (fd : Int)
  /-- "failed to close systemd activated file: fd %d: %v". -/
  | closeFailed (fd : Int) (err : Str)
  deriving DecidableEq, Repr

/-- How a call of `listenFD` ends: with a list of listeners, with an error value, or
in the run-time panic of an index out of range. -/
inductive ListenOutcome
  | listeners (ls : List (Option Listener))
  | failed (e : ListenError)
  | indexOutOfRange
  deriving DecidableEq, Repr

/-- The collaborators of `listenFD`: what the supervisor hands over, with and without
TLS, and what `Close` returns for each listener (`none` is the `nil` error). -/
structure Supervisor where
  Listeners : Except Str (List (Option Listener))
  TLSListeners : Except Str (List (Option Listener))
  Close : Listener → Option Str

/-- Go's `xs[i]` for an `int` index: `none` is the index-out-of-range panic. -/
def goIndex {α : Type} (xs : List α) (i : Int) : Option α :=
  if 0 ≤ i ∧ i < (xs.length : Int) then xs.get? i.toNat else none

/-- The loop of lines 107 to 114 of `listenFD` from index `i` on: the error of the
first `Close` that fails, and the listeners `Close` was called on, in order. -/
def closeOthers (Close : Listener → Option Str) (fdOffset : Int) :
    Nat → List (Option Listener) → Option Str × List Listener
  | _, [] => (none, [])
  | i, none :: rest => closeOthers Close fdOffset (i + 1) rest
  | i, some l :: rest =>
    if (i : Int) = fdOffset then closeOthers Close fdOffset (i + 1) rest
    else
      match Close l with
      | some err => (some err, [l])
      | none => ((closeOthers Close fdOffset (i + 1) rest).1,
                 l :: (closeOthers Close fdOffset (i + 1) rest).2)

/-- Function `listenFD` of `daemon/listeners/listeners_linux.go`: how the call ends,
and the listeners it has called `Close` on.  `tlsConfig` says whether the TLS
configuration is non-nil. -/
def listenFD (sup : Supervisor) (addr : Str) (tlsConfig : Bool) :
    ListenOutcome × List Listener :=
  match (if tlsConfig then sup.TLSListeners else sup.Listeners) with
  | .error err => (.failed (.activationFailed err), [])
  | .ok listeners =>
    if listeners.length = 0 then (.failed .noSocketsFound, [])
    else if addr = [] ∨ addr = "*".toList then (.listeners listeners, [])
    else
      let fdNum := strconv.Atoi addr
      if fdNum.2.isSome then (.failed (.notANumber addr), [])
      else
        let fdOffset := wrap64 (fdNum.1 - 3)
        if (listeners.length : Int) < wrap64 (fdOffset + 1) then (.failed .tooFewFiles, [])
        else
          match goIndex listeners fdOffset with
          | none => (.indexOutOfRange, [])
          | some none => (.failed (.nilListener (wrap64 (fdOffset + 3))), [])
          | some (some selected) =>
            match closeOthers sup.Close fdOffset 0 listeners with
            | (some err, closed) =>
              (.failed (.closeFailed (wrap64 (fdOffset + 3)) err), closed)
            | (none, closed) => (.listeners [some selected], closed)

/-- A supervisor that hands over the inventory `L` (with and without TLS) and whose
every `Close` succeeds. -/
def quietSupervisor (L : List (Option Listener)) : Supervisor :=
  { Listeners := .ok L, TLSListeners := .ok L, Close := fun _ => none }

/-- A supervisor that hands over the inventory `L` (with and without TLS) and whose
`Close` fails on the listener `bad` and succeeds on every other one. -/
def failingSupervisor (L : List (Option Listener)) (bad : Listener) : Supervisor :=
  { Listeners := .ok L, TLSListeners := .ok L,
    Close := fun l => if l = bad then some "close failed".toList else none }

/-- The listeners a call hands to its caller: those of the returned list, none when
the call ends in an error or a panic. -/
def ListenOutcome.returned : ListenOutcome → List (Option Listener)
  | .listeners ls => ls
  | .failed _ => []
  | .indexOutOfRange => []

/-- The inventory `L` is fully consumed by a call that ended as `out`: every non-nil
listener of `L` is in the returned list or has had `Close` called on it. -/
def fullyConsumed (L : List (Option Listener)) (out : ListenOutcome × List Listener) : Prop :=
  ∀ l : Listener, some l ∈ L → some l ∈ out.1.returned ∨ l ∈ out.2

/-- The error values that `Init` returns. -/
inductive InitError
  /-- The error of `listenFD`, as it is. -/
  | listenFD (e : ListenError)
  /-- The error of `sockets.NewTCPSocket`, as it is. -/
  | newTCPSocket (err : Str)
  /-- The error of `lookupGID`, as it is. -/
  | lookupGID (err : Str)
  /-- "can't create unix socket %s: %v". -/
  | cantCreateUnixSocket (addr err : Str)
  /-- "invalid protocol format: %q". -/
  | invalidProtocol (proto : Str)
  deriving DecidableEq, Repr

/-- How a call of `Init` ends: with a list of listeners, with an error value, or in
the index-out-of-range panic of `listenFD`. -/
inductive InitOutcome
  | listeners (ls : List (Option Listener))
  | failed (e : InitError)
  | indexOutOfRange
  deriving DecidableEq, Repr

/-- The collaborators of `Init`: the supervisor, the socket constructors of
`go-connections/sockets` (a listener, possibly nil, or an error), the group lookup
`lookupGID` and the constant `defaultSocketGroup` (declared in files of the package
that are not part of the sources at hand), `os.Getgid` and
`homedir.StickRuntimeDirContents`. -/
structure Collaborators where
  supervisor : Supervisor
  NewTCPSocket : Str → Bool → Except Str (Option Listener)
  lookupGID : Str → Except Str Nat
  defaultSocketGroup : Str
  Getgid : Nat
  NewUnixSocket : Str → Nat → Except Str (Option Listener)
  StickRuntimeDirContents : List Str → Except Str (List Str)

/-- Lines 40 to 49 of `Init`: the group id for the unix socket, or the error of the
lookup when a group other than the default one was asked for. -/
def resolveGID (env : Collaborators) (socketGroup : Str) : Except Str Nat :=
  match env.lookupGID socketGroup with
  | .ok gid => .ok gid
  | .error err =>
    if socketGroup ≠ [] ∧ socketGroup ≠ env.defaultSocketGroup then .error err
    else .ok env.Getgid

/-- Function `Init` of `daemon/listeners/listeners_linux.go`: how the call ends, and
the listeners `Close` was called on.  `tlsConfig` says whether the TLS configuration
is non-nil.  The two `logrus` warnings (group fallback, sticky bit) change neither;
the result of `StickRuntimeDirContents` is only logged. -/
def Init (env : Collaborators) (proto addr socketGroup : Str) (tlsConfig : Bool) :
    InitOutcome × List Listener :=
  let ls : List (Option Listener) := []
  if proto = "fd".toList then
    match listenFD env.supervisor addr tlsConfig with
    | (.failed err, closed) => (.failed (.listenFD err), closed)
    | (.indexOutOfRange, closed) => (.indexOutOfRange, closed)
    | (.listeners fds, closed) => (.listeners (ls ++ fds), closed)
  else if proto = "tcp".toList then
    match env.NewTCPSocket addr tlsConfig with
    | .error err => (.failed (.newTCPSocket err), [])
    | .ok l => (.listeners (ls ++ [l]), [])
  else if proto = "unix".toList then
    match resolveGID env socketGroup with
    | .error err => (.failed (.lookupGID err), [])
    | .ok gid =>
      match env.NewUnixSocket addr gid with
      | .error err => (.failed (.cantCreateUnixSocket addr err), [])
      | .ok l =>
        let _stick := env.StickRuntimeDirContents [addr]
        (.listeners (ls ++ [l]), [])
  else (.failed (.invalidProtocol proto), [])

/-- A set of collaborators around the inventory `L`: every `Close` succeeds, the
socket constructors return the listeners 100 and 101, the group lookup fails and
the default group is `docker`. -/
def quietCollaborators (L : List (Option Listener)) : Collaborators :=
  { supervisor := quietSupervisor L
    NewTCPSocket := fun _ _ => .ok (some 100)
    lookupGID := fun _ => .error "group not found".toList
    defaultSocketGroup := "docker".toList
    Getgid := 0
    NewUnixSocket := fun _ _ => .ok (some 101)
    StickRuntimeDirContents := fun _ => .ok [] }

/-! ## Classes of input -/

/-- A byte that `url.Parse` lets stand unescaped in the host of a URL: not `%`, and
either outside ASCII or one of the ASCII bytes a host may hold. -/
def hostByte (c : Char) : Bool :=
  decide (c ≠ '%') && !(decide (c.toNat < 0x80) && url.shouldEscapeHost c)

/-- A plain host name: bytes that may stand in the host of a URL, none of them a
colon or a square bracket. -/
def plainHost (h : Str) : Bool :=
  h.all (fun c => hostByte c && decide (c ≠ ':') && decide (c ≠ '[') && decide (c ≠ ']'))

/-- A decimal number: one or more of the digits `0` to `9`. -/
def decimal (p : Str) : Bool := decide (p ≠ []) && p.all (fun c => '0' ≤ c && c ≤ '9')

/-- The text `tcp://host:port`. -/
def tcpAddr (host port : Str) : Str := "tcp://".toList ++ host ++ ":".toList ++ port

/-- The bytes of an IPv6 address as RFC 3986 writes it between brackets:
hexadecimal digits, colons and (for an embedded IPv4 address) dots, with at least
one colon. -/
def ipv6Literal (L : Str) : Bool :=
  L.all (fun c => url.ishex c || decide (c = ':') || decide (c = '.')) && decide (':' ∈ L)

/-- The string that a function of `opts/hosts.go` returns next to its error value:
every error return of `ParseTCPAddr`, `parseSimpleProtoAddr` and `parseDaemonHost`
is `return "", err`. -/
def returnedString (r : Except HostError Str) : Str :=
  match r with
  | .ok s => s
  | .error _ => []

/-- The scheme `parseDaemonHost` dispatches on, `addrParts[0]` at line 96: the text
before the first `"://"`, and `tcp` for a non-empty address without one. -/
def dispatchedScheme (addr : Str) : Str :=
  match strings.SplitN2 addr "://".toList with
  | [a] => if a ≠ [] then "tcp".toList else a
  | p :: _ => p
  | [] => []

/-- The reference definition of the simple-protocol resolver, after the words of the
specification: `rest` is `addr` with one leading `proto://` removed if present. -/
def simpleProtoRest (proto addr : Str) : Str :=
  ((proto ++ "://".toList).isPrefixOf? addr).getD addr

/-- The reference definition of the simple-protocol resolver, after the words of the
specification: fail if `rest` still contains `"://"` somewhere; otherwise
`proto://rest`, with the default in the place of an empty `rest`. -/
def parseSimpleProtoAddrSpec (proto addr defaultAddr : Str) : Except HostError Str :=
  if "://".toList <:+: simpleProtoRest proto addr then
    .error (.invalidProto proto (simpleProtoRest proto addr))
  else if simpleProtoRest proto addr = [] then .ok (proto ++ "://".toList ++ defaultAddr)
  else .ok (proto ++ "://".toList ++ simpleProtoRest proto addr)

/-! ## Theorems -/

/-- The first `"://"` of `"tcp://" ++ h` is the one written in front. -/
theorem splitN2_tcp (h : Str) :
    strings.SplitN2 ("tcp://".toList ++ h) "://".toList = ["tcp".toList, h] := by
  show strings.SplitN2 ('t' :: 'c' :: 'p' :: ':' :: '/' :: '/' :: h) [':', '/', '/'] = _
  simp [strings.SplitN2, strings.Index, List.isPrefixOf]

/-- A string without `"://"` is not split. -/
theorem splitN2_of_not_contains (h : Str) (hc : strings.Contains h "://".toList = false) :
    strings.SplitN2 h "://".toList = [h] := by
  unfold strings.Contains at hc
  unfold strings.SplitN2
  cases hi : strings.Index h "://".toList with
  | none => rfl
  | some m => rw [hi] at hc; exact absurd hc (by simp)

/-- C1: for every non-empty address `h` without the separator `"://"`,
`parseDaemonHost(h)` and `parseDaemonHost("tcp://" + h)` return the same result,
the same canonical string or the same error. -/
theorem parseDaemonHost_bare_eq_tcp (DefaultHTTPHost h : Str) (hne : h ≠ [])
    (hc : strings.Contains h "://".toList = false) :
    parseDaemonHost DefaultHTTPHost h =
      parseDaemonHost DefaultHTTPHost ("tcp://".toList ++ h) := by
  unfold parseDaemonHost
  rw [splitN2_tcp, splitN2_of_not_contains h hc]
  simp [hne]

/-- C1 at the bare address `localhost:5555`. -/
theorem parseDaemonHost_bare_eq_tcp_witness :
    parseDaemonHost "localhost".toList "localhost:5555".toList =
      parseDaemonHost "localhost".toList ("tcp://".toList ++ "localhost:5555".toList) ∧
    parseDaemonHost "localhost".toList "localhost:5555".toList =
      .ok "tcp://localhost:5555".toList :=
  ⟨parseDaemonHost_bare_eq_tcp "localhost".toList "localhost:5555".toList (by decide)
    (by decide), by decide⟩

/-! ### Integers -/

theorem wrap64_range (x : Int) : -2 ^ 63 ≤ wrap64 x ∧ wrap64 x < 2 ^ 63 := by
  unfold wrap64; omega

theorem wrap64_eq_self (x : Int) (h1 : -2 ^ 63 ≤ x) (h2 : x < 2 ^ 63) : wrap64 x = x := by
  unfold wrap64; omega

theorem char_le_iff (a b : Char) : a ≤ b ↔ a.toNat ≤ b.toNat := Iff.rfl

theorem digit_val_le (c : Char) (h : '0' ≤ c ∧ c ≤ '9') : c.toNat - '0'.toNat ≤ 9 := by
  rw [char_le_iff, char_le_iff] at h
  have h0 : '0'.toNat = 48 := rfl
  have h9 : '9'.toNat = 57 := rfl
  omega

theorem atoiFast_range : ∀ (s : Str) (acc n : Int), 0 ≤ acc →
    strconv.atoiFast acc s = some n → 0 ≤ n ∧ n < (acc + 1) * 10 ^ s.length := by
  intro s
  induction s with
  | nil =>
    intro acc n h0 h
    simp [strconv.atoiFast] at h
    subst h
    simp [h0]
  | cons c cs ih =>
    intro acc n h0 h
    unfold strconv.atoiFast at h
    split at h
    · rename_i hd
      have hd9 := digit_val_le c hd
      have := ih _ n (by positivity) h
      refine ⟨this.1, lt_of_lt_of_le this.2 ?_⟩
      rw [List.length_cons, pow_succ]
      have hp : (0 : Int) < 10 ^ cs.length := by positivity
      have hcast : ((c.toNat - '0'.toNat : Nat) : Int) ≤ 9 := by exact_mod_cast hd9
      nlinarith
    · simp at h
theorem parseInt_range (s : Str) (h : (strconv.ParseInt s).2 = none) :
    -2 ^ 63 ≤ (strconv.ParseInt s).1 ∧ (strconv.ParseInt s).1 < 2 ^ 63 := by
  revert h
  unfold strconv.ParseInt
  cases s with
  | nil => simp
  | cons c cs =>
    simp only
    generalize strconv.ParseUint (if c = '+' ∨ c = '-' then cs else c :: cs) = r
    obtain ⟨un, e⟩ := r
    have key : ∀ (e : Option NumErr), e ≠ some .ErrSyntax →
        (((if (!decide (c = '-')) = true ∧ un ≥ 2 ^ 63 then
            ((2 ^ 63 - 1 : Int), some NumErr.ErrRange)
          else if decide (c = '-') = true ∧ un > 2 ^ 63 then (-2 ^ 63, some NumErr.ErrRange)
          else (if decide (c = '-') = true then wrap64 (-↑un) else ↑un, none)).2 = none) →
        -2 ^ 63 ≤ (if (!decide (c = '-')) = true ∧ un ≥ 2 ^ 63 then
            ((2 ^ 63 - 1 : Int), some NumErr.ErrRange)
          else if decide (c = '-') = true ∧ un > 2 ^ 63 then (-2 ^ 63, some NumErr.ErrRange)
          else (if decide (c = '-') = true then wrap64 (-↑un) else ↑un, none)).1 ∧
        (if (!decide (c = '-')) = true ∧ un ≥ 2 ^ 63 then
            ((2 ^ 63 - 1 : Int), some NumErr.ErrRange)
          else if decide (c = '-') = true ∧ un > 2 ^ 63 then (-2 ^ 63, some NumErr.ErrRange)
          else (if decide (c = '-') = true then wrap64 (-↑un) else ↑un, none)).1 < 2 ^ 63) := by
      intro _ _
      by_cases h1 : (!decide (c = '-')) = true ∧ un ≥ 2 ^ 63
      · simp only [if_pos h1]
        intro h; exact absurd h (by simp)
      · simp only [if_neg h1]
        by_cases h2 : decide (c = '-') = true ∧ un > 2 ^ 63
        · simp only [if_pos h2]
          intro h; exact absurd h (by simp)
        · simp only [if_neg h2]
          intro _
          by_cases hneg : c = '-'
          · have hd : decide (c = '-') = true := by simp [hneg]
            simp only [hd, if_true]
            exact wrap64_range _
          · have hd : decide (c = '-') = false := by simp [hneg]
            simp only [hd, Bool.false_eq_true, if_false]
            simp only [hd, Bool.not_false, true_and, not_le, ge_iff_le] at h1
            constructor
            · have : (0 : Int) ≤ (un : Int) := Int.ofNat_nonneg un
              omega
            · exact_mod_cast h1
    cases e with
    | none => exact key none (by simp)
    | some k =>
      cases k with
      | ErrSyntax => simp
      | ErrRange => exact key (some .ErrRange) (by simp)

theorem atoi_range (s : Str) (h : (strconv.Atoi s).2 = none) :
    -2 ^ 63 ≤ (strconv.Atoi s).1 ∧ (strconv.Atoi s).1 < 2 ^ 63 := by
  revert h
  unfold strconv.Atoi
  by_cases hlen : 0 < s.length ∧ s.length < 19
  · rw [if_pos hlen]
    cases s with
    | nil => simp
    | cons c cs =>
      simp only
      by_cases hl1 : (if c = '-' ∨ c = '+' then cs else c :: cs).length < 1
      · simp [hl1]
      · rw [if_neg hl1]
        cases hn : strconv.atoiFast 0 (if c = '-' ∨ c = '+' then cs else c :: cs) with
        | none => simp
        | some n =>
          simp only
          intro _
          have hr := atoiFast_range _ 0 n (le_refl 0) hn
          have hlen2 : (if c = '-' ∨ c = '+' then cs else c :: cs).length ≤ 18 := by
            split <;> simp at hlen ⊢ <;> omega
          have hp : (10 : Int) ^ (if c = '-' ∨ c = '+' then cs else c :: cs).length ≤ 10 ^ 18 :=
            pow_le_pow_right₀ (by norm_num) hlen2
          have h18 : (10 : Int) ^ 18 < 2 ^ 63 := by norm_num
          simp only [zero_add, one_mul] at hr
          split <;> constructor <;> omega
  · rw [if_neg hlen]
    exact parseInt_range s

/-! ### The activation selector -/

/-- When every `Close` succeeds the loop closes the non-nil listeners of every slot
but the selected one, in order, and reports no error. -/
theorem closeOthers_quiet (Close : Listener → Option Str) (hclose : ∀ l, Close l = none)
    (off : Nat) : ∀ (xs : List (Option Listener)) (i : Nat),
    closeOthers Close (off : Int) i xs =
      (none, (if i ≤ off then xs.eraseIdx (off - i) else xs).filterMap id) := by
  intro xs
  induction xs with
  | nil => intro i; simp [closeOthers]
  | cons x rest ih =>
    intro i
    cases x with
    | none =>
      rw [closeOthers, ih (i + 1)]
      by_cases h1 : i + 1 ≤ off
      · have h2 : i ≤ off := by omega
        have h3 : off - i = (off - (i + 1)) + 1 := by omega
        simp [h1, h2, h3]
      · by_cases h2 : i ≤ off
        · have h3 : off - i = 0 := by omega
          simp [h1, h2, h3]
        · simp [h1, h2]
    | some l =>
      rw [closeOthers]
      by_cases hi : (i : Int) = (off : Int)
      · have hio : i = off := by exact_mod_cast hi
        rw [if_pos hi, ih (i + 1)]
        simp [hio]
      · have hio : i ≠ off := fun h => hi (by rw [h])
        rw [if_neg hi, hclose l, ih (i + 1)]
        by_cases h1 : i + 1 ≤ off
        · have h2 : i ≤ off := by omega
          have h3 : off - i = (off - (i + 1)) + 1 := by omega
          simp [h1, h2, h3]
        · have h2 : ¬ i ≤ off := by omega
          simp [h1, h2]

/-- C4: with a non-empty inventory `L`, a selector that parses as the integer `fd`
with `0 <= fd-3 < len(L)` and `L[fd-3]` non-nil, and every `Close` succeeding,
`listenFD` returns the one-element list `[L[fd-3]]` and has called `Close` on exactly
the non-nil listeners of the other slots, once per slot and in order: the selected
slot is erased from the inventory before the closed listeners are collected. -/
theorem listenFD_selects (sup : Supervisor) (addr : Str) (tlsConfig : Bool)
    (L : List (Option Listener)) (fd : Int) (sel : Listener)
    (hact : (if tlsConfig then sup.TLSListeners else sup.Listeners) = .ok L)
    (hparse : strconv.Atoi addr = (fd, none))
    (hlo : 0 ≤ fd - 3) (hhi : fd - 3 < L.length)
    (hsel : L.get? (fd - 3).toNat = some (some sel))
    (hclose : ∀ l, sup.Close l = none) :
    listenFD sup addr tlsConfig =
      (.listeners [some sel], (L.eraseIdx (fd - 3).toNat).filterMap id) := by
  have hr := atoi_range addr (by rw [hparse])
  rw [hparse] at hr
  simp only at hr
  have hne : addr ≠ [] := by
    intro h; rw [h] at hparse
    have : (strconv.Atoi []).2 = none := by rw [hparse]
    exact absurd this (by decide)
  have hstar : addr ≠ "*".toList := by
    intro h; rw [h] at hparse
    have : (strconv.Atoi "*".toList).2 = none := by rw [hparse]
    exact absurd this (by decide)
  have hlen : L.length ≠ 0 := by
    intro h; rw [h] at hhi; simp at hhi; omega
  have hw1 : wrap64 (fd - 3) = fd - 3 := wrap64_eq_self _ (by omega) (by omega)
  have hw2 : wrap64 (fd - 3 + 1) = fd - 3 + 1 := wrap64_eq_self _ (by omega) (by omega)
  have hidx : goIndex L (fd - 3) = some (some sel) := by
    unfold goIndex
    rw [if_pos ⟨hlo, hhi⟩, hsel]
  have hoff : ((fd - 3).toNat : Int) = fd - 3 := Int.toNat_of_nonneg hlo
  unfold listenFD
  rw [hact]
  simp only [hlen, if_false, hne, hstar, false_or, hparse, Option.isSome_none,
    Bool.false_eq_true, hw1, hw2, hidx]
  rw [if_neg (by omega)]
  rw [← hoff, closeOthers_quiet sup.Close hclose (fd - 3).toNat L 0]
  simp only [Int.toNat_ofNat, Nat.zero_le, if_true, Nat.sub_zero]

/-- C4 on five listeners and the selector `"6"`: the listener of slot 3 is returned
and those of the slots 0, 1, 2 and 4 are closed. -/
theorem listenFD_selects_witness :
    listenFD (quietSupervisor [some 10, some 11, some 12, some 13, some 14]) "6".toList false =
      (.listeners [some 13], [10, 11, 12, 14]) :=
  listenFD_selects (quietSupervisor [some 10, some 11, some 12, some 13, some 14]) "6".toList
    false [some 10, some 11, some 12, some 13, some 14] 6 13 rfl (by decide) (by decide)
    (by decide) (by decide) (fun _ => rfl)

/-- C3: on an inventory of five listeners the selector `"2"` (offset -1) passes the
length check of line 101 and `listeners[fdOffset]` of line 104 is evaluated at the
index -1: the call ends in the index-out-of-range panic, not in an error value. -/
theorem listenFD_negative_offset_panics :
    listenFD (quietSupervisor [some 10, some 11, some 12, some 13, some 14]) "2".toList false =
      (.indexOutOfRange, []) := by
  decide

/-- The part of C3 that the code keeps: for a selector that parses as an integer
`fd >= 3`, an offset `fd-3` at or past the end of the inventory, or a nil slot at
that offset, ends the call in an error value and closes nothing. -/
theorem listenFD_slot_missing (sup : Supervisor) (addr : Str) (tlsConfig : Bool)
    (L : List (Option Listener)) (fd : Int)
    (hact : (if tlsConfig then sup.TLSListeners else sup.Listeners) = .ok L)
    (hL : L ≠ []) (hparse : strconv.Atoi addr = (fd, none)) (hlo : 3 ≤ fd)
    (hmiss : (L.length : Int) ≤ fd - 3 ∨ L.get? (fd - 3).toNat = some none) :
    listenFD sup addr tlsConfig = (.failed .tooFewFiles, []) ∨
    listenFD sup addr tlsConfig = (.failed (.nilListener fd), []) := by
  have hr := atoi_range addr (by rw [hparse])
  rw [hparse] at hr
  simp only at hr
  have hne : addr ≠ [] := by
    intro h; rw [h] at hparse
    have : (strconv.Atoi []).2 = none := by rw [hparse]
    exact absurd this (by decide)
  have hstar : addr ≠ "*".toList := by
    intro h; rw [h] at hparse
    have : (strconv.Atoi "*".toList).2 = none := by rw [hparse]
    exact absurd this (by decide)
  have hlen : L.length ≠ 0 := by
    intro h; exact hL (List.length_eq_zero.mp h)
  have hw1 : wrap64 (fd - 3) = fd - 3 := wrap64_eq_self _ (by omega) (by omega)
  have hw2 : wrap64 (fd - 3 + 1) = fd - 3 + 1 := wrap64_eq_self _ (by omega) (by omega)
  have hw3 : wrap64 (fd - 3 + 3) = fd := by
    rw [wrap64_eq_self _ (by omega) (by omega)]; omega
  unfold listenFD
  rw [hact]
  simp only [hlen, if_false, hne, hstar, false_or, hparse, Option.isSome_none,
    Bool.false_eq_true, hw1, hw2, hw3]
  by_cases hlt : (L.length : Int) < fd - 3 + 1
  · left; rw [if_pos hlt]
  · right
    rw [if_neg hlt]
    have hin : fd - 3 < (L.length : Int) := by omega
    rcases hmiss with h | h
    · omega
    · have hidx : goIndex L (fd - 3) = some none := by
        unfold goIndex
        rw [if_pos ⟨by omega, hin⟩, h]
      rw [hidx]

/-- The loop has called `Close` on every non-nil listener of a slot other than the
selected one, when no `Close` failed. -/
theorem closeOthers_mem (Close : Listener → Option Str) (off : Int) :
    ∀ (xs : List (Option Listener)) (i : Nat), (closeOthers Close off i xs).1 = none →
    ∀ (j : Nat) (l : Listener), xs.get? j = some (some l) → ((i + j : Nat) : Int) ≠ off →
    l ∈ (closeOthers Close off i xs).2 := by
  intro xs
  induction xs with
  | nil => intro i _ j l hj; simp at hj
  | cons x rest ih =>
    intro i hok j l hj hne
    cases x with
    | none =>
      rw [closeOthers] at hok ⊢
      cases j with
      | zero => simp at hj
      | succ j =>
        exact ih (i + 1) hok j l (by simpa using hj) (by rw [show i + 1 + j = i + (j + 1) by omega]; exact hne)
    | some l0 =>
      rw [closeOthers] at hok ⊢
      by_cases hi : (i : Int) = off
      · rw [if_pos hi] at hok ⊢
        cases j with
        | zero => exact absurd (by simpa using hi) hne
        | succ j =>
          exact ih (i + 1) hok j l (by simpa using hj) (by rw [show i + 1 + j = i + (j + 1) by omega]; exact hne)
      · rw [if_neg hi] at hok ⊢
        cases hc : Close l0 with
        | some err => rw [hc] at hok; simp at hok
        | none =>
          rw [hc] at hok
          simp only at hok ⊢
          cases j with
          | zero =>
            simp at hj
            simp [hj]
          | succ j =>
            exact List.mem_cons_of_mem _
              (ih (i + 1) hok j l (by simpa using hj) (by rw [show i + 1 + j = i + (j + 1) by omega]; exact hne))

/-- When `listenFD` returns a list of listeners (no error), the inventory is fully
consumed: every non-nil listener of it is in the returned list or has had `Close`
called on it. -/
theorem listenFD_consumes_on_success (sup : Supervisor) (addr : Str) (tlsConfig : Bool)
    (L res : List (Option Listener)) (closed : List Listener)
    (hact : (if tlsConfig then sup.TLSListeners else sup.Listeners) = .ok L)
    (hret : listenFD sup addr tlsConfig = (.listeners res, closed)) :
    fullyConsumed L (listenFD sup addr tlsConfig) := by
  intro l hl
  revert hret
  unfold listenFD
  rw [hact]
  simp only
  by_cases hlen : L.length = 0
  · simp [hlen]
  rw [if_neg hlen]
  by_cases hw : addr = [] ∨ addr = "*".toList
  · rw [if_pos hw]
    intro _
    left; exact hl
  rw [if_neg hw]
  by_cases hp : (strconv.Atoi addr).2.isSome = true
  · simp [hp]
  rw [if_neg hp]
  by_cases hfew : (L.length : Int) < wrap64 (wrap64 ((strconv.Atoi addr).1 - 3) + 1)
  · simp [hfew]
  rw [if_neg hfew]
  cases hidx : goIndex L (wrap64 ((strconv.Atoi addr).1 - 3)) with
  | none => simp
  | some slot =>
    cases slot with
    | none => simp
    | some sel =>
      simp only
      cases hco : closeOthers sup.Close (wrap64 ((strconv.Atoi addr).1 - 3)) 0 L with
      | mk e cl =>
        cases e with
        | some err => simp
        | none =>
          simp only
          intro _
          obtain ⟨j, hj⟩ := List.mem_iff_get?.mp hl
          by_cases hjo : ((0 + j : Nat) : Int) = wrap64 ((strconv.Atoi addr).1 - 3)
          · left
            unfold goIndex at hidx
            split at hidx
            · rw [← hjo] at hidx
              simp at hidx
              rw [List.get?_eq_getElem?] at hj
              rw [hj] at hidx
              simp at hidx
              simp [ListenOutcome.returned, hidx]
            · simp at hidx
          · right
            have := closeOthers_mem sup.Close _ L 0 (by rw [hco]) j l hj hjo
            rw [hco] at this
            exact this

/-- C5 fails as stated: with the one-listener inventory `[7]` and the selector `"x"`
(not a number) `listenFD` returns an error, and listener 7 is neither returned nor
closed. -/
theorem listenFD_error_leaves_open :
    listenFD (quietSupervisor [some 7]) "x".toList false =
      (.failed (.notANumber "x".toList), []) ∧
    ¬ fullyConsumed [some 7] (listenFD (quietSupervisor [some 7]) "x".toList false) := by
  refine ⟨by decide, ?_⟩
  intro h
  have h7 := h 7 (by simp)
  have he : listenFD (quietSupervisor [some 7]) "x".toList false =
      (.failed (.notANumber "x".toList), []) := by decide
  rw [he] at h7
  simp [ListenOutcome.returned] at h7

/-- The listeners the loop may close, seen from a nil slot at index `i`. -/
theorem others_cons_none (off i : Nat) (rest : List (Option Listener)) :
    (if i ≤ off then (none :: rest).eraseIdx (off - i) else none :: rest).filterMap id =
      (if i + 1 ≤ off then rest.eraseIdx (off - (i + 1)) else rest).filterMap id := by
  by_cases h1 : i + 1 ≤ off
  · have h2 : i ≤ off := by omega
    have h3 : off - i = (off - (i + 1)) + 1 := by omega
    simp [h1, h2, h3]
  · by_cases h2 : i ≤ off
    · have h3 : off - i = 0 := by omega
      simp [h1, h2, h3]
    · simp [h1, h2]

/-- The listeners the loop may close, seen from the selected slot. -/
theorem others_cons_selected (off : Nat) (l : Listener) (rest : List (Option Listener)) :
    (if off ≤ off then (some l :: rest).eraseIdx (off - off) else some l :: rest).filterMap id =
      (if off + 1 ≤ off then rest.eraseIdx (off - (off + 1)) else rest).filterMap id := by
  simp

/-- The listeners the loop may close, seen from a non-nil slot other than the
selected one. -/
theorem others_cons_some (off i : Nat) (hio : i ≠ off) (l : Listener)
    (rest : List (Option Listener)) :
    (if i ≤ off then (some l :: rest).eraseIdx (off - i) else some l :: rest).filterMap id =
      l :: (if i + 1 ≤ off then rest.eraseIdx (off - (i + 1)) else rest).filterMap id := by
  by_cases h1 : i + 1 ≤ off
  · have h2 : i ≤ off := by omega
    have h3 : off - i = (off - (i + 1)) + 1 := by omega
    simp [h1, h2, h3]
  · have h2 : ¬ i ≤ off := by omega
    simp [h1, h2]

/-- When a `Close` fails, the loop has called `Close` on the non-nil listeners of the
slots other than the selected one, in order, up to and including the first one
whose `Close` fails, and on none after it; the error is that of the failing call. -/
theorem closeOthers_failed (Close : Listener → Option Str) (off : Nat) :
    ∀ (xs : List (Option Listener)) (i : Nat) (err : Str) (closed : List Listener),
    closeOthers Close (off : Int) i xs = (some err, closed) →
    ∃ (pre : List Listener) (l : Listener), closed = pre ++ [l] ∧
      pre ++ [l] <+: (if i ≤ off then xs.eraseIdx (off - i) else xs).filterMap id ∧
      (∀ x ∈ pre, Close x = none) ∧ Close l = some err := by
  intro xs
  induction xs with
  | nil => intro i err closed h; simp [closeOthers] at h
  | cons x rest ih =>
    intro i err closed h
    cases x with
    | none =>
      rw [closeOthers] at h
      rw [others_cons_none]
      exact ih (i + 1) err closed h
    | some l0 =>
      rw [closeOthers] at h
      by_cases hi : (i : Int) = (off : Int)
      · have hio : i = off := by exact_mod_cast hi
        rw [if_pos hi] at h
        subst hio
        rw [others_cons_selected]
        exact ih (i + 1) err closed h
      · have hio : i ≠ off := fun e => hi (by rw [e])
        rw [if_neg hi] at h
        rw [others_cons_some off i hio]
        cases hc : Close l0 with
        | some e =>
          rw [hc] at h
          simp only [Prod.mk.injEq, Option.some.injEq] at h
          refine ⟨[], l0, by rw [← h.2]; rfl, ?_, by simp, by rw [hc, h.1]⟩
          exact ⟨_, rfl⟩
        | none =>
          rw [hc] at h
          simp only [Prod.mk.injEq] at h
          obtain ⟨pre, l, h1, h2, h3, h4⟩ :=
            ih (i + 1) err (closeOthers Close (off : Int) (i + 1) rest).2
              (by rw [← h.1])
          refine ⟨l0 :: pre, l, by rw [← h.2, h1]; rfl, ?_, ?_, h4⟩
          · rw [List.cons_append]
            exact (List.prefix_cons_inj l0).mpr h2
          · intro x hx
            rcases List.mem_cons.mp hx with e | e
            · rw [e]; exact hc
            · exact h3 x e

/-- C5, as the code has it.  For an inventory `L`: when `listenFD` returns a list of
listeners (no error), every non-nil listener of `L` is in the returned list or has
had `Close` called on it.  When it returns an error other than a failed `Close` (no
sockets, selector not a number, too few files, nil slot), `Close` has been called on
no listener.  When it returns the error of a failed `Close`, `Close` has been called
on the non-nil listeners of the slots other than the selected one, in order, up to
and including the first whose `Close` fails, and on none after it. -/
theorem listenFD_consumption (sup : Supervisor) (addr : Str) (tlsConfig : Bool)
    (L : List (Option Listener))
    (hact : (if tlsConfig then sup.TLSListeners else sup.Listeners) = .ok L) :
    (∀ res, (listenFD sup addr tlsConfig).1 = .listeners res →
      fullyConsumed L (listenFD sup addr tlsConfig)) ∧
    (∀ e, (listenFD sup addr tlsConfig).1 = .failed e →
      (∀ fd err, e ≠ .closeFailed fd err) → (listenFD sup addr tlsConfig).2 = []) ∧
    (∀ fd err, (listenFD sup addr tlsConfig).1 = .failed (.closeFailed fd err) →
      ∃ (off : Nat) (pre : List Listener) (l : Listener),
        (off : Int) = wrap64 ((strconv.Atoi addr).1 - 3) ∧
        (listenFD sup addr tlsConfig).2 = pre ++ [l] ∧
        pre ++ [l] <+: (L.eraseIdx off).filterMap id ∧
        (∀ x ∈ pre, sup.Close x = none) ∧ sup.Close l = some err) := by
  refine ⟨?_, ?_, ?_⟩
  · intro res hres
    exact listenFD_consumes_on_success sup addr tlsConfig L res (listenFD sup addr tlsConfig).2
      hact (by rw [← hres])
  · intro e
    unfold listenFD
    rw [hact]
    simp only
    by_cases hlen : L.length = 0
    · rw [if_pos hlen]; intro _ _; rfl
    rw [if_neg hlen]
    by_cases hw : addr = [] ∨ addr = "*".toList
    · rw [if_pos hw]; intro _ _; rfl
    rw [if_neg hw]
    by_cases hp : (strconv.Atoi addr).2.isSome = true
    · rw [if_pos hp]; intro _ _; rfl
    rw [if_neg hp]
    by_cases hfew : (L.length : Int) < wrap64 (wrap64 ((strconv.Atoi addr).1 - 3) + 1)
    · rw [if_pos hfew]; intro _ _; rfl
    rw [if_neg hfew]
    cases goIndex L (wrap64 ((strconv.Atoi addr).1 - 3)) with
    | none => intro _ _; rfl
    | some slot =>
      cases slot with
      | none => intro _ _; rfl
      | some sel =>
        simp only
        cases closeOthers sup.Close (wrap64 ((strconv.Atoi addr).1 - 3)) 0 L with
        | mk e2 cl =>
          cases e2 with
          | none => intro h; exact absurd h (by simp)
          | some err =>
            simp only [ListenOutcome.failed.injEq]
            intro he hno
            exact absurd he.symm (hno _ _)
  · intro fd err
    unfold listenFD
    rw [hact]
    simp only
    by_cases hlen : L.length = 0
    · rw [if_pos hlen]; intro h; exact absurd h (by simp)
    rw [if_neg hlen]
    by_cases hw : addr = [] ∨ addr = "*".toList
    · rw [if_pos hw]; intro h; exact absurd h (by simp)
    rw [if_neg hw]
    by_cases hp : (strconv.Atoi addr).2.isSome = true
    · rw [if_pos hp]; intro h; exact absurd h (by simp)
    rw [if_neg hp]
    by_cases hfew : (L.length : Int) < wrap64 (wrap64 ((strconv.Atoi addr).1 - 3) + 1)
    · rw [if_pos hfew]; intro h; exact absurd h (by simp)
    rw [if_neg hfew]
    cases hidx : goIndex L (wrap64 ((strconv.Atoi addr).1 - 3)) with
    | none => intro h; exact absurd h (by simp)
    | some slot =>
      cases slot with
      | none => intro h; exact absurd h (by simp)
      | some sel =>
        simp only
        have hnn : 0 ≤ wrap64 ((strconv.Atoi addr).1 - 3) := by
          unfold goIndex at hidx
          split_ifs at hidx with hr
          exact hr.1
        have hoff : ((wrap64 ((strconv.Atoi addr).1 - 3)).toNat : Int) =
            wrap64 ((strconv.Atoi addr).1 - 3) := Int.toNat_of_nonneg hnn
        cases hco : closeOthers sup.Close (wrap64 ((strconv.Atoi addr).1 - 3)) 0 L with
        | mk e2 cl =>
          cases e2 with
          | none => intro h; exact absurd h (by simp)
          | some err2 =>
            simp only [ListenOutcome.failed.injEq, ListenError.closeFailed.injEq]
            intro he
            rw [← hoff] at hco
            obtain ⟨pre, l, h1, h2, h3, h4⟩ :=
              closeOthers_failed sup.Close _ L 0 err2 cl hco
            simp only [Nat.zero_le, if_true, Nat.sub_zero] at h2
            exact ⟨_, pre, l, hoff, h1, h2, h3, by rw [h4, he.2]⟩

/-- C5 on five listeners with the selector `"6"`, when `Close` fails on listener 12:
the listeners 10, 11 and 12 have had `Close` called, listener 14 has not, and the
selected listener 13 is not returned. -/
theorem listenFD_consumption_witness :
    listenFD (failingSupervisor [some 10, some 11, some 12, some 13, some 14] 12) "6".toList
        false = (.failed (.closeFailed 6 "close failed".toList), [10, 11, 12]) ∧
    ∃ (off : Nat) (pre : List Listener) (l : Listener),
      (off : Int) = wrap64 ((strconv.Atoi "6".toList).1 - 3) ∧
      (listenFD (failingSupervisor [some 10, some 11, some 12, some 13, some 14] 12) "6".toList
        false).2 = pre ++ [l] ∧
      pre ++ [l] <+: ([some 10, some 11, some 12, some 13, some 14].eraseIdx off).filterMap id ∧
      (∀ x ∈ pre,
        (failingSupervisor [some 10, some 11, some 12, some 13, some 14] 12).Close x = none) ∧
      (failingSupervisor [some 10, some 11, some 12, some 13, some 14] 12).Close l =
        some "close failed".toList :=
  ⟨by decide,
   (listenFD_consumption (failingSupervisor [some 10, some 11, some 12, some 13, some 14] 12)
      "6".toList false [some 10, some 11, some 12, some 13, some 14] rfl).2.2 6
      "close failed".toList (by decide)⟩

/-- C6, as the code has it: for every default address `D`,
`parseSimpleProtoAddr("unix", "", D)` and `parseSimpleProtoAddr("unix", "unix://", D)`
both return `"unix://" + D`. -/
theorem parseSimpleProtoAddr_unix_default (D : Str) :
    parseSimpleProtoAddr "unix".toList [] D = .ok ("unix://".toList ++ D) ∧
    parseSimpleProtoAddr "unix".toList "unix://".toList D = .ok ("unix://".toList ++ D) := by
  constructor <;>
  simp [parseSimpleProtoAddr, strings.TrimPrefix, strings.HasPrefix, strings.Contains,
    strings.Index]

/-- C6 fails as stated: with the default `/var/run/docker.sock` the result of
`parseSimpleProtoAddr("unix", "", D)` is `unix:///var/run/docker.sock`, not `D`. -/
theorem parseSimpleProtoAddr_unix_default_not_verbatim :
    parseSimpleProtoAddr "unix".toList [] DefaultUnixSocket =
      .ok "unix:///var/run/docker.sock".toList ∧
    parseSimpleProtoAddr "unix".toList [] DefaultUnixSocket ≠ .ok DefaultUnixSocket ∧
    parseSimpleProtoAddr "unix".toList "unix://".toList DefaultUnixSocket ≠
      .ok DefaultUnixSocket := by
  decide

/-! ### Searching a string -/

theorem indexByte_eq_none (s : Str) (c : Char) (h : c ∉ s) : strings.IndexByte s c = none := by
  induction s with
  | nil => rfl
  | cons x xs ih =>
    have hx : x ≠ c := fun e => h (by simp [e])
    have hxs : c ∉ xs := fun e => h (by simp [e])
    simp [strings.IndexByte, hx, ih hxs]

theorem indexByte_append_cons (a b : Str) (c : Char) (h : c ∉ a) :
    strings.IndexByte (a ++ c :: b) c = some a.length := by
  induction a with
  | nil => simp [strings.IndexByte]
  | cons x xs ih =>
    have hx : x ≠ c := fun e => h (by simp [e])
    have hxs : c ∉ xs := fun e => h (by simp [e])
    simp [strings.IndexByte, hx, ih hxs]

theorem indexByte_isSome (s : Str) (c : Char) : (strings.IndexByte s c).isSome = decide (c ∈ s) := by
  induction s with
  | nil => simp [strings.IndexByte]
  | cons x xs ih =>
    by_cases hx : x = c
    · simp [strings.IndexByte, hx]
    · have hx2 : ¬ c = x := fun e => hx e.symm
      simp [strings.IndexByte, hx, hx2, ih]

theorem lastIndexByte_eq_none (s : Str) (c : Char) (h : c ∉ s) :
    strings.LastIndexByte s c = none := by
  induction s with
  | nil => rfl
  | cons x xs ih =>
    have hx : x ≠ c := fun e => h (by simp [e])
    have hxs : c ∉ xs := fun e => h (by simp [e])
    simp [strings.LastIndexByte, hx, ih hxs]

theorem lastIndexByte_append_cons (a b : Str) (c : Char) (h : c ∉ b) :
    strings.LastIndexByte (a ++ c :: b) c = some a.length := by
  induction a with
  | nil => simp [strings.LastIndexByte, lastIndexByte_eq_none b c h]
  | cons x xs ih => simp [strings.LastIndexByte, ih]

theorem cutByte_not_mem (s : Str) (c : Char) (h : c ∉ s) : strings.CutByte s c = (s, []) := by
  simp [strings.CutByte, indexByte_eq_none s c h]

/-! ### Bytes of hosts, ports and paths -/

theorem char_eq_ofNat_toNat (c : Char) : Char.ofNat c.toNat = c := Char.ofNat_toNat c

theorem ascii_ctl_shouldEscape :
    ∀ n < 128, (n < 32 ∨ n = 127) → url.shouldEscapeHost (Char.ofNat n) = true := by decide

theorem hostByte_not_ctl (c : Char) (h : hostByte c = true) :
    ¬ (c.toNat < 0x20 ∨ c.toNat = 0x7f) := by
  intro hc
  have hlt : c.toNat < 128 := by omega
  have := ascii_ctl_shouldEscape c.toNat hlt hc
  rw [char_eq_ofNat_toNat] at this
  simp [hostByte, this, hlt] at h

theorem digit_hostByte (c : Char) (h : '0' ≤ c ∧ c ≤ '9') : hostByte c = true := by
  have h1 : c ≠ '%' := by
    intro e; rw [e] at h; exact absurd h (by decide)
  simp [hostByte, url.shouldEscapeHost, h.1, h.2, h1]

theorem decimal_ne_nil (p : Str) (h : decimal p = true) : p ≠ [] := by
  simp [decimal] at h; exact h.1

theorem decimal_digit (p : Str) (h : decimal p = true) : ∀ c ∈ p, '0' ≤ c ∧ c ≤ '9' := by
  simp [decimal] at h; exact h.2

theorem decimal_not_mem (p : Str) (h : decimal p = true) (d : Char)
    (hd : ¬ ('0' ≤ d ∧ d ≤ '9')) : d ∉ p := by
  intro hm; exact hd (decimal_digit p h d hm)

theorem plainHost_hostByte (h : Str) (hh : plainHost h = true) : ∀ c ∈ h, hostByte c = true := by
  intro c hc
  simp [plainHost] at hh
  exact (hh c hc).1.1.1

theorem plainHost_not_mem (h : Str) (hh : plainHost h = true) (d : Char)
    (hd : hostByte d = false ∨ d = ':' ∨ d = '[' ∨ d = ']') : d ∉ h := by
  intro hm
  simp [plainHost] at hh
  have := hh d hm
  rcases hd with hd | hd | hd | hd
  · rw [hd] at this; simp at this
  · exact this.1.1.2 hd
  · exact this.1.2 hd
  · exact this.2 hd

/-! ### Unescaping -/

theorem unescape_host_id (s : Str) (h : ∀ c ∈ s, hostByte c = true) :
    url.unescape .encodeHost s = .ok s := by
  induction s with
  | nil => rfl
  | cons c cs ih =>
    have hc := h c (by simp)
    have ih2 := ih (fun d hd => h d (by simp [hd]))
    have h1 : c ≠ '%' := by
      intro e; rw [e] at hc; exact absurd hc (by decide)
    unfold url.unescape
    rw [if_neg h1, ih2]
    by_cases hplus : c = '+'
    · rw [if_pos hplus]
    · rw [if_neg hplus]
      simp only [hostByte, h1, ne_eq, not_false_eq_true, decide_True, Bool.true_and,
        Bool.not_eq_true', Bool.and_eq_false_imp, decide_eq_true_eq] at hc
      rw [if_neg]
      intro hx
      have := hc hx.2.1
      rw [this] at hx
      exact absurd hx.2.2 (by simp)

theorem unescape_path_id (mode : url.encoding) (hm : mode ≠ .encodeHost ∧ mode ≠ .encodeZone)
    (s : Str) (h : '%' ∉ s) : url.unescape mode s = .ok s := by
  induction s with
  | nil => rfl
  | cons c cs ih =>
    have h1 : c ≠ '%' := fun e => h (by simp [e])
    have ih2 := ih (fun hd => h (by simp [hd]))
    unfold url.unescape
    rw [if_neg h1, ih2]
    by_cases hplus : c = '+'
    · rw [if_pos hplus]
    · rw [if_neg hplus, if_neg]
      intro hx
      rcases hx.1 with e | e
      · exact hm.1 e
      · exact hm.2 e

/-! ### `url.Parse` on `tcp://host/path` -/

theorem hostByte_not_mem (H : Str) (hH : ∀ c ∈ H, hostByte c = true) (d : Char)
    (hd : hostByte d = false) : d ∉ H := by
  intro hm; rw [hH d hm] at hd; exact absurd hd (by simp)

theorem ctl_of_bytes (s : Str)
    (h : ∀ c ∈ s, ¬ (c.toNat < 0x20 ∨ c.toNat = 0x7f)) :
    url.stringContainsCTLByte s = false := by
  unfold url.stringContainsCTLByte
  rw [List.any_eq_false]
  intro c hc
  have := h c hc
  simp only [Bool.or_eq_true, decide_eq_true_eq]
  exact this

/-- The parse of `tcp://H` followed by a path `p` that is empty or starts with a
slash: the host is what `parseHost` makes of `H`, the path what `unescape` makes of
`p`.  `H` holds host bytes only; `p` holds no `?`, `#` or control byte. -/
theorem url_parse_tcp (H H2 p q : Str)
    (hH : ∀ c ∈ H, hostByte c = true)
    (hp : ∀ c ∈ p, ¬ (c.toNat < 0x20 ∨ c.toNat = 0x7f) ∧ c ≠ '?' ∧ c ≠ '#')
    (hp0 : p = [] ∨ ∃ p1, p = '/' :: p1)
    (hhost : url.parseHost H = .ok H2)
    (hpath : url.unescape .encodePath p = .ok q) :
    url.Parse ("tcp://".toList ++ (H ++ p)) =
      .ok { Scheme := "tcp".toList, Host := H2, Path := q } := by
  have hHq : '?' ∉ H := hostByte_not_mem H hH '?' (by decide)
  have hHs : '#' ∉ H := hostByte_not_mem H hH '#' (by decide)
  have hHa : '@' ∉ H := hostByte_not_mem H hH '@' (by decide)
  have hHsl : '/' ∉ H := hostByte_not_mem H hH '/' (by decide)
  have hsharp : '#' ∉ "tcp://".toList ++ (H ++ p) := by
    simp only [List.mem_append, not_or]
    exact ⟨by decide, hHs, fun hm => (hp _ hm).2.2 rfl⟩
  have hquest : '?' ∉ "//".toList ++ (H ++ p) := by
    simp only [List.mem_append, not_or]
    exact ⟨by decide, hHq, fun hm => (hp _ hm).2.1 rfl⟩
  have hctl : url.stringContainsCTLByte ("tcp://".toList ++ (H ++ p)) = false := by
    apply ctl_of_bytes
    intro c hc
    simp only [List.mem_append] at hc
    rcases hc with hc | hc | hc
    · revert c; decide
    · exact hostByte_not_ctl c (hH c hc)
    · exact (hp c hc).1
  have hstar : "tcp://".toList ++ (H ++ p) ≠ "*".toList := by
    show 't' :: 'c' :: 'p' :: ':' :: '/' :: '/' :: (H ++ p) ≠ ['*']
    simp
  have hsch : url.getScheme ("tcp://".toList ++ (H ++ p)) =
      .ok ("tcp".toList, "//".toList ++ (H ++ p)) := rfl
  have hauth : url.parseAuthority H = .ok (none, H2) := by
    unfold url.parseAuthority
    rw [lastIndexByte_eq_none H '@' hHa, hhost]
  have hsplit : (match strings.IndexByte (H ++ p) '/' with
      | some i => ((H ++ p).take i, (H ++ p).drop i)
      | none => (H ++ p, [])) = (H, p) := by
    rcases hp0 with h0 | ⟨p1, h1⟩
    · subst h0
      simp [indexByte_eq_none H '/' hHsl]
    · subst h1
      simp [indexByte_append_cons H p1 '/' hHsl]
  have hparse : url.parse ("tcp://".toList ++ (H ++ p)) =
      .ok { Scheme := "tcp".toList, Host := H2, Path := q } := by
    unfold url.parse
    rw [hctl, if_neg (by simp), if_neg hstar, hsch]
    simp only
    rw [cutByte_not_mem _ _ hquest]
    simp only
    have hpre1 : strings.HasPrefix ("//".toList ++ (H ++ p)) "/".toList = true := rfl
    have hpre2 : strings.HasPrefix ("//".toList ++ (H ++ p)) "//".toList = true := by
      show strings.HasPrefix ('/' :: '/' :: (H ++ p)) ['/', '/'] = true
      simp [strings.HasPrefix]
    have hlow : strings.ToLowerASCII "tcp".toList = "tcp".toList := by decide
    have hne : "tcp".toList ≠ ([] : Str) := by decide
    have hdrop : ("//".toList ++ (H ++ p)).drop 2 = H ++ p := rfl
    rw [hpre1, hpre2, hlow, hdrop, hsplit]
    simp only [Bool.not_true, Bool.false_eq_true, false_and, if_false, ne_eq, hne,
      not_false_eq_true, true_or, and_self, if_true, hauth, hpath]
  unfold url.Parse
  rw [cutByte_not_mem _ _ hsharp]
  simp only [hparse, if_true]

/-! ### Splitting and joining host and port -/

theorem splitHostPort_plain (h p : Str) (h1 : ':' ∉ h) (h2 : '[' ∉ h) (h3 : ']' ∉ h)
    (p1 : ':' ∉ p) (p2 : '[' ∉ p) (p3 : ']' ∉ p) :
    net.SplitHostPort (h ++ ':' :: p) = .ok (h, p) := by
  have hhead : (h ++ ':' :: p).head? ≠ some '[' := by
    cases h with
    | nil => simp
    | cons x xs =>
      simp only [List.cons_append, List.head?_cons, ne_eq, Option.some.injEq]
      intro e; exact h2 (by simp [e])
  have hb1 : '[' ∉ h ++ ':' :: p := by simp [h2, p2]
  have hb2 : ']' ∉ h ++ ':' :: p := by simp [h3, p3]
  unfold net.SplitHostPort
  rw [lastIndexByte_append_cons h p ':' p1]
  simp only [hhead, if_false, List.take_left', List.drop_zero, indexByte_eq_none h ':' h1,
    indexByte_eq_none _ '[' hb1, indexByte_eq_none _ ']' hb2, Option.isSome_none,
    Bool.false_eq_true]
  have : (h ++ ':' :: p).drop (h.length + 1) = p := by
    rw [show h ++ ':' :: p = (h ++ [':']) ++ p by simp]
    exact List.drop_left' (by simp)
  rw [this]

theorem splitHostPort_bracket (L p : Str) (h2 : '[' ∉ L) (h3 : ']' ∉ L)
    (p1 : ':' ∉ p) (p2 : '[' ∉ p) (p3 : ']' ∉ p) :
    net.SplitHostPort ('[' :: (L ++ ']' :: ':' :: p)) = .ok (L, p) := by
  have e1 : '[' :: (L ++ ']' :: ':' :: p) = ('[' :: L ++ [']']) ++ ':' :: p := by simp
  have e2 : '[' :: (L ++ ']' :: ':' :: p) = ('[' :: L) ++ ']' :: (':' :: p) := by simp
  have hlast : strings.LastIndexByte ('[' :: (L ++ ']' :: ':' :: p)) ':' =
      some (L.length + 2) := by
    rw [e1, lastIndexByte_append_cons _ p ':' p1]; simp
  have hfirst : strings.IndexByte ('[' :: (L ++ ']' :: ':' :: p)) ']' =
      some (L.length + 1) := by
    rw [e2, indexByte_append_cons _ _ ']' (by simp [h3])]; simp
  have hd1 : ('[' :: (L ++ ']' :: ':' :: p)).drop 1 = L ++ ']' :: ':' :: p := rfl
  have hd2 : ('[' :: (L ++ ']' :: ':' :: p)).drop (L.length + 1 + 1) = ':' :: p := by
    rw [e1]; exact List.drop_left' (by simp)
  have hd3 : ('[' :: (L ++ ']' :: ':' :: p)).drop (L.length + 2 + 1) = p := by
    rw [show '[' :: (L ++ ']' :: ':' :: p) = ('[' :: L ++ [']', ':']) ++ p by simp]
    exact List.drop_left' (by simp)
  have ht : (('[' :: (L ++ ']' :: ':' :: p)).take (L.length + 1)).drop 1 = L := by
    rw [e2, List.take_left' (by simp)]; rfl
  have hb1 : '[' ∉ L ++ ']' :: ':' :: p := by simp [h2, p2]
  have hb2 : ']' ∉ ':' :: p := by simp [p3]
  have hlen : ¬ (L.length + 1 + 1 = ('[' :: (L ++ ']' :: ':' :: p)).length) := by
    simp
  unfold net.SplitHostPort
  rw [hlast, hfirst]
  simp only [List.head?_cons, if_true]
  rw [if_neg hlen, hd1, hd2, hd3, ht, indexByte_eq_none _ '[' hb1,
    indexByte_eq_none _ ']' hb2]
  simp

theorem splitHostPort_no_colon (s : Str) (h : ':' ∉ s) :
    net.SplitHostPort s = .error "missing port in address".toList := by
  unfold net.SplitHostPort
  rw [lastIndexByte_eq_none s ':' h]

theorem joinHostPort_no_colon (h p : Str) (h1 : ':' ∉ h) :
    net.JoinHostPort h p = h ++ ':' :: p := by
  unfold net.JoinHostPort
  rw [indexByte_eq_none h ':' h1]
  simp

theorem joinHostPort_colon (h p : Str) (h1 : ':' ∈ h) :
    net.JoinHostPort h p = '[' :: (h ++ ']' :: ':' :: p) := by
  unfold net.JoinHostPort
  rw [indexByte_isSome]
  simp [h1]

/-! ### `parseHost` on hosts made of host bytes -/

theorem validOptionalPort_digits (p : Str) (hp : ∀ c ∈ p, '0' ≤ c ∧ c ≤ '9') :
    url.validOptionalPort (':' :: p) = true := by
  simp only [url.validOptionalPort, decide_True, Bool.true_and, List.all_eq_true,
    Bool.and_eq_true, decide_eq_true_eq]
  exact hp

theorem hasPrefix_bracket_false (s : Str) (h : s.head? ≠ some '[') :
    strings.HasPrefix s "[".toList = false := by
  cases s with
  | nil => rfl
  | cons x xs =>
    have hx : ¬ '[' = x := by
      intro e; exact h (by simp [← e])
    show strings.HasPrefix (x :: xs) ['['] = false
    simp [strings.HasPrefix, List.isPrefixOf, hx]

theorem index_eq_none_of_not_mem (s t : Str) (c : Char) (h : c ∉ s) :
    strings.Index s (c :: t) = none := by
  induction s with
  | nil => simp [strings.Index]
  | cons x xs ih =>
    have hx : ¬ c = x := fun e => h (by simp [e])
    have hxs : c ∉ xs := fun e => h (by simp [e])
    simp [strings.Index, hx, ih hxs]

/-- A host without a colon or an opening bracket in front, made of host bytes. -/
theorem parseHost_plain (h : Str) (hh : ∀ c ∈ h, hostByte c = true) (h1 : ':' ∉ h)
    (h2 : h.head? ≠ some '[') : url.parseHost h = .ok h := by
  unfold url.parseHost
  rw [hasPrefix_bracket_false h h2, lastIndexByte_eq_none h ':' h1]
  simp only [Bool.false_eq_true, if_false]
  exact unescape_host_id h hh

/-- A host `h:p` with a decimal (or empty) port. -/
theorem parseHost_plain_port (h p : Str) (hh : ∀ c ∈ h, hostByte c = true)
    (h2 : (h ++ ':' :: p).head? ≠ some '[') (hp : ∀ c ∈ p, '0' ≤ c ∧ c ≤ '9') :
    url.parseHost (h ++ ':' :: p) = .ok (h ++ ':' :: p) := by
  have p1 : ':' ∉ p := fun hm => absurd (hp _ hm) (by decide)
  unfold url.parseHost
  rw [hasPrefix_bracket_false _ h2, lastIndexByte_append_cons h p ':' p1]
  simp only [Bool.false_eq_true, if_false, List.drop_left, validOptionalPort_digits p hp,
    Bool.not_true]
  apply unescape_host_id
  intro c hc
  simp only [List.mem_append, List.mem_cons] at hc
  rcases hc with hc | hc | hc
  · exact hh c hc
  · rw [hc]; decide
  · exact digit_hostByte c (hp c hc)

/-- A bracketed host `[L]:p` with a decimal (or empty) port. -/
theorem parseHost_bracket (L p : Str) (hL : ∀ c ∈ L, hostByte c = true)
    (hp : ∀ c ∈ p, '0' ≤ c ∧ c ≤ '9') :
    url.parseHost ('[' :: (L ++ ']' :: ':' :: p)) = .ok ('[' :: (L ++ ']' :: ':' :: p)) := by
  have p3 : ']' ∉ ':' :: p := by
    simp only [List.mem_cons, not_or]
    exact ⟨by decide, fun hm => absurd (hp _ hm) (by decide)⟩
  have hall : ∀ c ∈ '[' :: (L ++ ']' :: ':' :: p), hostByte c = true := by
    intro c hc
    simp only [List.mem_append, List.mem_cons] at hc
    rcases hc with hc | hc | hc | hc | hc
    · rw [hc]; decide
    · exact hL c hc
    · rw [hc]; decide
    · rw [hc]; decide
    · exact digit_hostByte c (hp c hc)
  have hpct : '%' ∉ ('[' :: (L ++ ']' :: ':' :: p)).take (L.length + 1) := by
    intro hm
    have := hall _ (List.mem_of_mem_take hm)
    exact absurd this (by decide)
  have e1 : '[' :: (L ++ ']' :: ':' :: p) = ('[' :: L) ++ ']' :: (':' :: p) := by simp
  have hlast : strings.LastIndexByte ('[' :: (L ++ ']' :: ':' :: p)) ']' =
      some (L.length + 1) := by
    rw [e1, lastIndexByte_append_cons _ _ ']' p3]; simp
  have hdrop : ('[' :: (L ++ ']' :: ':' :: p)).drop (L.length + 1 + 1) = ':' :: p := by
    rw [show '[' :: (L ++ ']' :: ':' :: p) = ('[' :: L ++ [']']) ++ ':' :: p by simp]
    exact List.drop_left' (by simp)
  unfold url.parseHost
  have hpre : strings.HasPrefix ('[' :: (L ++ ']' :: ':' :: p)) "[".toList = true := by
    show strings.HasPrefix ('[' :: (L ++ ']' :: ':' :: p)) ['['] = true
    simp [strings.HasPrefix]
  rw [hpre, hlast]
  simp only [if_true, hdrop, validOptionalPort_digits p hp, Bool.not_true, Bool.false_eq_true,
    if_false]
  rw [show "%25".toList = '%' :: "25".toList from rfl, index_eq_none_of_not_mem _ _ '%' hpct]
  exact unescape_host_id _ hall

/-! ### `strconv.Atoi` on ports -/

theorem parseInt_zero_err_iff (s : Str) :
    ((strconv.ParseInt s).2.isSome = true ∧ (strconv.ParseInt s).1 = 0) ↔
      (strconv.ParseInt s).2 = some .ErrSyntax := by
  unfold strconv.ParseInt
  cases s with
  | nil => simp
  | cons c cs =>
    simp only
    generalize strconv.ParseUint (if c = '+' ∨ c = '-' then cs else c :: cs) = r
    obtain ⟨un, e⟩ := r
    cases e with
    | none => simp only []; split_ifs <;> simp
    | some k =>
      cases k with
      | ErrSyntax => simp
      | ErrRange => simp only []; split_ifs <;> simp

/-- `Atoi` returns an error together with the value 0 exactly when the error is a
syntax error: a range error comes with the largest or the smallest `int`. -/
theorem atoi_zero_err_iff (s : Str) :
    ((strconv.Atoi s).2.isSome = true ∧ (strconv.Atoi s).1 = 0) ↔
      (strconv.Atoi s).2 = some .ErrSyntax := by
  unfold strconv.Atoi
  by_cases hlen : 0 < s.length ∧ s.length < 19
  · rw [if_pos hlen]
    cases s with
    | nil => simp
    | cons c cs =>
      simp only
      split_ifs <;> (try cases strconv.atoiFast 0 cs) <;>
        (try cases strconv.atoiFast 0 (c :: cs)) <;> simp
  · rw [if_neg hlen]
    exact parseInt_zero_err_iff s

theorem atoiFast_digits (s : Str) (h : ∀ c ∈ s, '0' ≤ c ∧ c ≤ '9') :
    ∀ acc : Int, strconv.atoiFast acc s ≠ none := by
  induction s with
  | nil => intro acc; simp [strconv.atoiFast]
  | cons c cs ih =>
    intro acc
    unfold strconv.atoiFast
    rw [if_pos (h c (by simp))]
    exact ih (fun d hd => h d (by simp [hd])) _

theorem parseUintLoop_digits (s : Str) (h : ∀ c ∈ s, '0' ≤ c ∧ c ≤ '9') :
    ∀ n : Nat, (strconv.parseUintLoop n s).2 ≠ some .ErrSyntax := by
  induction s with
  | nil => intro n; simp [strconv.parseUintLoop]
  | cons c cs ih =>
    intro n
    unfold strconv.parseUintLoop
    rw [if_pos (h c (by simp))]
    simp only
    split_ifs
    · simp
    · simp
    · exact ih (fun d hd => h d (by simp [hd])) _

/-- A decimal port never makes `Atoi` report a syntax error, however long it is. -/
theorem atoi_decimal (p : Str) (hp : decimal p = true) :
    (strconv.Atoi p).2 ≠ some .ErrSyntax := by
  have hd := decimal_digit p hp
  have hne := decimal_ne_nil p hp
  cases p with
  | nil => exact absurd rfl hne
  | cons c cs =>
    have hc := hd c (by simp)
    have hm : c ≠ '-' := by intro e; rw [e] at hc; exact absurd hc (by decide)
    have hpl : c ≠ '+' := by intro e; rw [e] at hc; exact absurd hc (by decide)
    unfold strconv.Atoi
    split_ifs
    · simp only [hm, hpl, or_self, if_false, List.length_cons]
      rw [if_neg (by omega)]
      cases hf : strconv.atoiFast 0 (c :: cs) with
      | none => exact absurd hf (atoiFast_digits _ hd 0)
      | some n => simp
    · unfold strconv.ParseInt
      simp only [hm, hpl, or_self, if_false]
      have hu : strconv.ParseUint (c :: cs) = strconv.parseUintLoop 0 (c :: cs) := by
        simp [strconv.ParseUint]
      have hl := parseUintLoop_digits (c :: cs) hd 0
      rw [hu]
      generalize strconv.parseUintLoop 0 (c :: cs) = r at hl
      obtain ⟨un, e⟩ := r
      cases e with
      | none => simp only []; split_ifs <;> simp
      | some k =>
        cases k with
        | ErrSyntax => exact absurd rfl hl
        | ErrRange => simp only []; split_ifs <;> simp

/-- The last lines of `ParseTCPAddr` accept every decimal port. -/
theorem formatTCPParts_decimal (tryAddr host port path : Str) (hp : decimal port = true) :
    formatTCPParts tryAddr (host, port, path) =
      .ok ("tcp://".toList ++ net.JoinHostPort host port ++ path) := by
  unfold formatTCPParts
  have := atoi_decimal port hp
  rw [if_neg]
  intro h
  exact this ((atoi_zero_err_iff port).mp h)

/-! ### The separator `"://"` and the suffix `"]:"` -/

theorem contains_sep_of_no_slash (s : Str) (h : '/' ∉ s) :
    strings.Contains s "://".toList = false := by
  have key : strings.Index s [':', '/', '/'] = none := by
    induction s with
    | nil => simp [strings.Index]
    | cons x xs ih =>
      have hxs : '/' ∉ xs := fun e => h (by simp [e])
      have hp : [':', '/', '/'].isPrefixOf (x :: xs) = false := by
        cases xs with
        | nil => simp [List.isPrefixOf]
        | cons y ys =>
          have hy : ¬ '/' = y := fun e => h (by simp [← e])
          simp [List.isPrefixOf, hy]
      simp [strings.Index, hp, ih hxs]
  show (strings.Index s [':', '/', '/']).isSome = false
  rw [key]; rfl

/-- In front of `path` stands a text `X` without a slash that does not end in a
colon: a separator `"://"` of `X ++ path` lies in `path`. -/
theorem contains_sep_append (X path : Str) (h : '/' ∉ X) (hl : X.getLast? ≠ some ':') :
    strings.Contains (X ++ path) "://".toList = strings.Contains path "://".toList := by
  have key : strings.Index (X ++ path) [':', '/', '/'] = none ↔
      strings.Index path [':', '/', '/'] = none := by
    induction X with
    | nil => simp
    | cons x xs ih =>
      have hxs : '/' ∉ xs := fun e => h (by simp [e])
      have hp : [':', '/', '/'].isPrefixOf (x :: (xs ++ path)) = false := by
        cases xs with
        | nil =>
          have hx : ¬ ':' = x := by
            intro e; apply hl; simp [← e]
          simp [List.isPrefixOf, hx]
        | cons y ys =>
          have hy : ¬ '/' = y := fun e => h (by simp [← e])
          simp [List.isPrefixOf, hy]
      have hl2 : xs.getLast? ≠ some ':' := by
        cases xs with
        | nil => simp
        | cons y ys => simpa [List.getLast?_cons_cons] using hl
      have := ih hxs hl2
      rw [List.cons_append, strings.Index, hp]
      simp only [Bool.false_eq_true, if_false, Option.map_eq_none']
      exact this
  show (strings.Index (X ++ path) [':', '/', '/']).isSome =
    (strings.Index path [':', '/', '/']).isSome
  cases h1 : strings.Index (X ++ path) [':', '/', '/'] with
  | none => rw [key.mp h1]
  | some i =>
    cases h2 : strings.Index path [':', '/', '/'] with
    | none => rw [key.mpr h2] at h1; exact absurd h1 (by simp)
    | some j => rfl

theorem trimPrefix_tcp (x : Str) : strings.TrimPrefix ("tcp://".toList ++ x) "tcp://".toList = x := by
  show strings.TrimPrefix ('t' :: 'c' :: 'p' :: ':' :: '/' :: '/' :: x) ['t', 'c', 'p', ':', '/', '/'] = x
  simp [strings.TrimPrefix, strings.HasPrefix]

theorem trimPrefix_of_not_contains (x : Str) (h : strings.Contains x "://".toList = false) :
    strings.TrimPrefix x "tcp://".toList = x := by
  unfold strings.TrimPrefix
  split_ifs with hp
  · exfalso
    simp only [strings.HasPrefix, List.isPrefixOf_iff_prefix] at hp
    obtain ⟨t, ht⟩ := hp
    rw [← ht] at h
    have : strings.Contains ("tcp://".toList ++ t) "://".toList = true := by
      show strings.Contains ('t' :: 'c' :: 'p' :: ':' :: '/' :: '/' :: t) [':', '/', '/'] = true
      simp [strings.Contains, strings.Index, List.isPrefixOf]
    rw [this] at h
    exact absurd h (by simp)
  · rfl

theorem hasSuffix_of_not_mem (s : Str) (h : ']' ∉ s) : strings.HasSuffix s "]:".toList = false := by
  cases hs : strings.HasSuffix s "]:".toList with
  | false => rfl
  | true =>
    exfalso
    simp only [strings.HasSuffix, List.isSuffixOf_iff_suffix] at hs
    obtain ⟨t, ht⟩ := hs
    apply h
    rw [← ht]
    simp

theorem hasSuffix_append (X path : Str) (h : ']' ∉ X) :
    strings.HasSuffix (X ++ path) "]:".toList = strings.HasSuffix path "]:".toList := by
  show [']', ':'].isSuffixOf (X ++ path) = [']', ':'].isSuffixOf path
  have hr : ']' ∉ X.reverse := by simpa using h
  simp only [List.isSuffixOf, List.reverse_append, List.reverse_cons, List.reverse_nil,
    List.nil_append, List.singleton_append]
  generalize X.reverse = Y at hr
  generalize path.reverse = P
  cases P with
  | nil =>
    cases Y with
    | nil => rfl
    | cons a Y2 =>
      cases Y2 with
      | nil => simp [List.isPrefixOf]
      | cons b Y3 =>
        have hb : ¬ ']' = b := fun e => hr (by simp [← e])
        simp [List.isPrefixOf, hb]
  | cons a P2 =>
    cases P2 with
    | nil =>
      cases Y with
      | nil => rfl
      | cons b Y3 =>
        have hb : ¬ ']' = b := fun e => hr (by simp [← e])
        simp [List.isPrefixOf, hb]
    | cons b P3 => simp [List.isPrefixOf]

/-! ### `ParseTCPAddr` on an address of known shape -/

theorem tcpAddr_cons (host port : Str) :
    tcpAddr host port = "tcp://".toList ++ (host ++ ':' :: port) := by
  simp [tcpAddr]

theorem default_split (dh dp : Str) (hdh : plainHost dh = true) (hdp : decimal dp = true) :
    net.SplitHostPort (strings.TrimPrefix (tcpAddr dh dp) "tcp://".toList) = .ok (dh, dp) := by
  rw [tcpAddr_cons, trimPrefix_tcp]
  exact splitHostPort_plain dh dp
    (plainHost_not_mem dh hdh ':' (by simp)) (plainHost_not_mem dh hdh '[' (by simp))
    (plainHost_not_mem dh hdh ']' (by simp))
    (decimal_not_mem dp hdp ':' (by decide)) (decimal_not_mem dp hdp '[' (by decide))
    (decimal_not_mem dp hdp ']' (by decide))

/-- The middle of `ParseTCPAddr` when the address, after the `"]:"` fix, is a host
text `H` followed by a path: the parts are those of `H` as `url.Parse` and
`SplitHostPort` read it, with the defaults filled in. -/
theorem resolveTCPParts_core (tryAddr addr dh dp H H2 path q host port : Str)
    (htrim : strings.TrimPrefix tryAddr "tcp://".toList = addr)
    (hne : addr ≠ []) (hsep : strings.Contains addr "://".toList = false)
    (hdh : plainHost dh = true) (hdp : decimal dp = true)
    (hfix : (if strings.HasSuffix addr "]:".toList then addr ++ dp else addr) = H ++ path)
    (hH : ∀ c ∈ H, hostByte c = true)
    (hp : ∀ c ∈ path, ¬ (c.toNat < 0x20 ∨ c.toNat = 0x7f) ∧ c ≠ '?' ∧ c ≠ '#')
    (hp0 : path = [] ∨ ∃ p1, path = '/' :: p1)
    (hhost : url.parseHost H = .ok H2)
    (hpath : url.unescape .encodePath path = .ok q)
    (hsplit : splitHostPortRetry H2 dp = .ok (host, port)) :
    resolveTCPParts tryAddr (tcpAddr dh dp) =
      .ok (if host = [] then dh else host, if port = [] then dp else port, q) := by
  unfold resolveTCPParts
  simp only [htrim, hsep, hne, Bool.false_eq_true, or_self, if_false,
    default_split dh dp hdh hdp, hfix, url_parse_tcp H H2 path q hH hp hp0 hhost hpath, hsplit]

theorem parseTCPAddr_core (tryAddr addr dh dp H H2 path q host port : Str)
    (htrim : strings.TrimPrefix tryAddr "tcp://".toList = addr)
    (hne : addr ≠ []) (hsep : strings.Contains addr "://".toList = false)
    (hdh : plainHost dh = true) (hdp : decimal dp = true)
    (hfix : (if strings.HasSuffix addr "]:".toList then addr ++ dp else addr) = H ++ path)
    (hH : ∀ c ∈ H, hostByte c = true)
    (hp : ∀ c ∈ path, ¬ (c.toNat < 0x20 ∨ c.toNat = 0x7f) ∧ c ≠ '?' ∧ c ≠ '#')
    (hp0 : path = [] ∨ ∃ p1, path = '/' :: p1)
    (hhost : url.parseHost H = .ok H2)
    (hpath : url.unescape .encodePath path = .ok q)
    (hsplit : splitHostPortRetry H2 dp = .ok (host, port))
    (hport : decimal (if port = [] then dp else port) = true) :
    ParseTCPAddr tryAddr (tcpAddr dh dp) =
      .ok ("tcp://".toList ++
        net.JoinHostPort (if host = [] then dh else host) (if port = [] then dp else port) ++ q) := by
  have h1 : tryAddr ≠ [] := by
    intro e; rw [e] at htrim; exact hne (by rw [← htrim]; rfl)
  have h2 : tryAddr ≠ "tcp://".toList := by
    intro e; rw [e] at htrim; exact hne (by rw [← htrim]; rfl)
  unfold ParseTCPAddr
  rw [if_neg (by rintro (e | e); exact h1 e; exact h2 e),
    resolveTCPParts_core tryAddr addr dh dp H H2 path q host port htrim hne hsep hdh hdp hfix hH
      hp hp0 hhost hpath hsplit]
  exact formatTCPParts_decimal _ _ _ _ hport

/-- The shape `h:p` followed by a path: `h` a plain host (possibly empty), `p` decimal
digits (possibly none), `path` empty or starting with a slash and not ending in
`"]:"`, the whole without `"://"`.  Stated for the address after `TrimPrefix`. -/
theorem parseTCPAddr_host_port_path (tryAddr dh dp h p path q : Str)
    (htrim : strings.TrimPrefix tryAddr "tcp://".toList = h ++ ':' :: (p ++ path))
    (hdh : plainHost dh = true) (hdp : decimal dp = true)
    (hh : plainHost h = true) (hpd : ∀ c ∈ p, '0' ≤ c ∧ c ≤ '9')
    (hp : ∀ c ∈ path, ¬ (c.toNat < 0x20 ∨ c.toNat = 0x7f) ∧ c ≠ '?' ∧ c ≠ '#')
    (hp0 : path = [] ∨ ∃ p1, path = '/' :: p1)
    (hsep : strings.Contains (h ++ ':' :: (p ++ path)) "://".toList = false)
    (hpsuf : strings.HasSuffix path "]:".toList = false)
    (hpath : url.unescape .encodePath path = .ok q) :
    ParseTCPAddr tryAddr (tcpAddr dh dp) =
      .ok (tcpAddr (if h = [] then dh else h) (if p = [] then dp else p) ++ q) := by
  have hc : ':' ∉ h := plainHost_not_mem h hh ':' (by simp)
  have hb1 : '[' ∉ h := plainHost_not_mem h hh '[' (by simp)
  have hb2 : ']' ∉ h := plainHost_not_mem h hh ']' (by simp)
  have pc : ':' ∉ p := fun hm => absurd (hpd _ hm) (by decide)
  have pb1 : '[' ∉ p := fun hm => absurd (hpd _ hm) (by decide)
  have pb2 : ']' ∉ p := fun hm => absurd (hpd _ hm) (by decide)
  have hhead : (h ++ ':' :: p).head? ≠ some '[' := by
    cases h with
    | nil => simp
    | cons x xs =>
      simp only [List.cons_append, List.head?_cons, ne_eq, Option.some.injEq]
      intro e; exact hb1 (by simp [e])
  have hassoc : h ++ ':' :: (p ++ path) = (h ++ ':' :: p) ++ path := by simp
  have hXb : ']' ∉ h ++ ':' :: p := by simp [hb2, pb2]
  have hsuf : strings.HasSuffix (h ++ ':' :: (p ++ path)) "]:".toList = false := by
    rw [hassoc, hasSuffix_append _ _ hXb, hpsuf]
  have hH : ∀ c ∈ h ++ ':' :: p, hostByte c = true := by
    intro c hcm
    simp only [List.mem_append, List.mem_cons] at hcm
    rcases hcm with hcm | hcm | hcm
    · exact plainHost_hostByte h hh c hcm
    · rw [hcm]; decide
    · exact digit_hostByte c (hpd c hcm)
  have hsplit : splitHostPortRetry (h ++ ':' :: p) dp = .ok (h, p) := by
    unfold splitHostPortRetry
    rw [splitHostPort_plain h p hc hb1 hb2 pc pb1 pb2]
  have hport : decimal (if p = [] then dp else p) = true := by
    split_ifs with hpe
    · exact hdp
    · simp only [decimal, ne_eq, hpe, not_false_eq_true, decide_True, Bool.true_and,
        List.all_eq_true, Bool.and_eq_true, decide_eq_true_eq]
      exact hpd
  have hhost' : plainHost (if h = [] then dh else h) = true := by
    split_ifs <;> assumption
  have := parseTCPAddr_core tryAddr (h ++ ':' :: (p ++ path)) dh dp (h ++ ':' :: p)
    (h ++ ':' :: p) path q h p htrim (by simp) hsep hdh hdp
    (by rw [hsuf]; simp) hH hp hp0
    (parseHost_plain_port h p (plainHost_hostByte h hh) hhead hpd) hpath hsplit hport
  rw [this, joinHostPort_no_colon _ _ (plainHost_not_mem _ hhost' ':' (by simp)), tcpAddr_cons]

/-- The shape of a plain non-empty host with nothing after it. -/
theorem parseTCPAddr_host_only (tryAddr dh dp h : Str)
    (htrim : strings.TrimPrefix tryAddr "tcp://".toList = h)
    (hdh : plainHost dh = true) (hdp : decimal dp = true)
    (hh : plainHost h = true) (hne : h ≠ []) :
    ParseTCPAddr tryAddr (tcpAddr dh dp) = .ok (tcpAddr h dp) := by
  have hc : ':' ∉ h := plainHost_not_mem h hh ':' (by simp)
  have hb1 : '[' ∉ h := plainHost_not_mem h hh '[' (by simp)
  have hb2 : ']' ∉ h := plainHost_not_mem h hh ']' (by simp)
  have hsl : '/' ∉ h := plainHost_not_mem h hh '/' (Or.inl (by decide))
  have pc : ':' ∉ dp := decimal_not_mem dp hdp ':' (by decide)
  have pb1 : '[' ∉ dp := decimal_not_mem dp hdp '[' (by decide)
  have pb2 : ']' ∉ dp := decimal_not_mem dp hdp ']' (by decide)
  have hhead : h.head? ≠ some '[' := by
    cases h with
    | nil => simp
    | cons x xs =>
      simp only [List.head?_cons, ne_eq, Option.some.injEq]
      intro e; exact hb1 (by simp [e])
  have hsplit : splitHostPortRetry h dp = .ok (h, dp) := by
    unfold splitHostPortRetry
    rw [splitHostPort_no_colon h hc, joinHostPort_no_colon h dp hc,
      splitHostPort_plain h dp hc hb1 hb2 pc pb1 pb2]
  have hdpne := decimal_ne_nil dp hdp
  have := parseTCPAddr_core tryAddr h dh dp h h [] [] h dp htrim hne
    (contains_sep_of_no_slash h hsl) hdh hdp
    (by rw [hasSuffix_of_not_mem h hb2]; simp) (plainHost_hostByte h hh) (by simp) (Or.inl rfl)
    (parseHost_plain h (plainHost_hostByte h hh) hc hhead) rfl hsplit
    (by rw [if_neg hdpne]; exact hdp)
  rw [this, if_neg hne, if_neg hdpne, joinHostPort_no_colon h dp hc, tcpAddr_cons]
  simp

/-- C10: `ParseTCPAddr` fills missing components from the default `tcp://dh:dp`.
For a plain non-empty host name `h` and a decimal port `p`: `h` and `h:` give
`tcp://h:dp`, `:p` gives `tcp://dh:p`, and `h:p` gives `tcp://h:p`; the same holds
with `tcp://` written in front of the input. -/
theorem ParseTCPAddr_fills_defaults (dh dp h p : Str)
    (hdh : plainHost dh = true) (hdp : decimal dp = true)
    (hh : plainHost h = true) (hne : h ≠ []) (hp : decimal p = true) :
    (ParseTCPAddr h (tcpAddr dh dp) = .ok (tcpAddr h dp) ∧
     ParseTCPAddr (h ++ ":".toList) (tcpAddr dh dp) = .ok (tcpAddr h dp) ∧
     ParseTCPAddr (":".toList ++ p) (tcpAddr dh dp) = .ok (tcpAddr dh p) ∧
     ParseTCPAddr (h ++ ":".toList ++ p) (tcpAddr dh dp) = .ok (tcpAddr h p)) ∧
    (ParseTCPAddr ("tcp://".toList ++ h) (tcpAddr dh dp) = .ok (tcpAddr h dp) ∧
     ParseTCPAddr ("tcp://".toList ++ (h ++ ":".toList)) (tcpAddr dh dp) = .ok (tcpAddr h dp) ∧
     ParseTCPAddr ("tcp://".toList ++ (":".toList ++ p)) (tcpAddr dh dp) = .ok (tcpAddr dh p) ∧
     ParseTCPAddr ("tcp://".toList ++ (h ++ ":".toList ++ p)) (tcpAddr dh dp) =
       .ok (tcpAddr h p)) := by
  have hsl : '/' ∉ h := plainHost_not_mem h hh '/' (Or.inl (by decide))
  have psl : '/' ∉ p := decimal_not_mem p hp '/' (by decide)
  have hpd := decimal_digit p hp
  have hpne := decimal_ne_nil p hp
  have hnil : plainHost [] = true := rfl
  -- the four addresses, each in the shape the lemmas above take
  have e2 : h ++ ":".toList = h ++ ':' :: ([] ++ []) := by simp
  have e3 : ":".toList ++ p = [] ++ ':' :: (p ++ []) := by simp
  have e4 : h ++ ":".toList ++ p = h ++ ':' :: (p ++ []) := by simp
  have s2 : strings.Contains (h ++ ':' :: ([] ++ [])) "://".toList = false :=
    contains_sep_of_no_slash _ (by simp [hsl])
  have s3 : strings.Contains ([] ++ ':' :: (p ++ [])) "://".toList = false :=
    contains_sep_of_no_slash _ (by simp [psl])
  have s4 : strings.Contains (h ++ ':' :: (p ++ [])) "://".toList = false :=
    contains_sep_of_no_slash _ (by simp [hsl, psl])
  have r1 : ∀ t, strings.TrimPrefix t "tcp://".toList = h →
      ParseTCPAddr t (tcpAddr dh dp) = .ok (tcpAddr h dp) :=
    fun t ht => parseTCPAddr_host_only t dh dp h ht hdh hdp hh hne
  have r2 : ∀ t, strings.TrimPrefix t "tcp://".toList = h ++ ':' :: ([] ++ []) →
      ParseTCPAddr t (tcpAddr dh dp) = .ok (tcpAddr h dp) := by
    intro t ht
    have := parseTCPAddr_host_port_path t dh dp h [] [] [] ht hdh hdp hh (by simp) (by simp)
      (Or.inl rfl) s2 rfl rfl
    simpa [hne] using this
  have r3 : ∀ t, strings.TrimPrefix t "tcp://".toList = [] ++ ':' :: (p ++ []) →
      ParseTCPAddr t (tcpAddr dh dp) = .ok (tcpAddr dh p) := by
    intro t ht
    have := parseTCPAddr_host_port_path t dh dp [] p [] [] ht hdh hdp hnil hpd (by simp)
      (Or.inl rfl) s3 rfl rfl
    simpa [hpne] using this
  have r4 : ∀ t, strings.TrimPrefix t "tcp://".toList = h ++ ':' :: (p ++ []) →
      ParseTCPAddr t (tcpAddr dh dp) = .ok (tcpAddr h p) := by
    intro t ht
    have := parseTCPAddr_host_port_path t dh dp h p [] [] ht hdh hdp hh hpd (by simp)
      (Or.inl rfl) s4 rfl rfl
    simpa [hne, hpne] using this
  refine ⟨⟨?_, ?_, ?_, ?_⟩, ?_, ?_, ?_, ?_⟩
  · exact r1 _ (trimPrefix_of_not_contains h (contains_sep_of_no_slash h hsl))
  · rw [e2]; exact r2 _ (trimPrefix_of_not_contains _ s2)
  · rw [e3]; exact r3 _ (trimPrefix_of_not_contains _ s3)
  · rw [e4]; exact r4 _ (trimPrefix_of_not_contains _ s4)
  · exact r1 _ (trimPrefix_tcp h)
  · rw [e2]; exact r2 _ (trimPrefix_tcp _)
  · rw [e3]; exact r3 _ (trimPrefix_tcp _)
  · rw [e4]; exact r4 _ (trimPrefix_tcp _)

/-- C10 at the default `tcp://localhost:2375`, host `example.com` and port `5555`. -/
theorem ParseTCPAddr_fills_defaults_witness :
    (ParseTCPAddr "example.com".toList (tcpAddr "localhost".toList "2375".toList) =
       .ok (tcpAddr "example.com".toList "2375".toList) ∧
     ParseTCPAddr ("example.com".toList ++ ":".toList) (tcpAddr "localhost".toList "2375".toList) =
       .ok (tcpAddr "example.com".toList "2375".toList) ∧
     ParseTCPAddr (":".toList ++ "5555".toList) (tcpAddr "localhost".toList "2375".toList) =
       .ok (tcpAddr "localhost".toList "5555".toList) ∧
     ParseTCPAddr ("example.com".toList ++ ":".toList ++ "5555".toList)
         (tcpAddr "localhost".toList "2375".toList) =
       .ok (tcpAddr "example.com".toList "5555".toList)) ∧
    tcpAddr "example.com".toList "5555".toList = "tcp://example.com:5555".toList :=
  ⟨(ParseTCPAddr_fills_defaults "localhost".toList "2375".toList "example.com".toList
      "5555".toList (by decide) (by decide) (by decide) (by decide) (by decide)).1, by decide⟩

/-! ### Bracketed IPv6 literals -/

theorem ascii_ishex_hostByte :
    ∀ n < 128, url.ishex (Char.ofNat n) = true ∨ Char.ofNat n = ':' ∨ Char.ofNat n = '.' →
      hostByte (Char.ofNat n) = true ∧ Char.ofNat n ≠ '[' ∧ Char.ofNat n ≠ ']' := by
  decide

theorem ipv6_byte (c : Char) (h : url.ishex c = true ∨ c = ':' ∨ c = '.') :
    hostByte c = true ∧ c ≠ '[' ∧ c ≠ ']' := by
  have hlt : c.toNat < 128 := by
    rcases h with h | h | h
    · simp only [url.ishex, Bool.or_eq_true, Bool.and_eq_true, decide_eq_true_eq,
        char_le_iff] at h
      have : 'f'.toNat = 102 := rfl
      have : '9'.toNat = 57 := rfl
      have : 'F'.toNat = 70 := rfl
      omega
    · rw [h]; decide
    · rw [h]; decide
  have := ascii_ishex_hostByte c.toNat hlt
  rw [char_eq_ofNat_toNat] at this
  exact this h

/-- The shape `[L]:` with nothing after it, for a bracketed `L` of host bytes that holds
a colon and no bracket: the default port is appended. -/
theorem parseTCPAddr_bracket (tryAddr dh dp L : Str)
    (htrim : strings.TrimPrefix tryAddr "tcp://".toList = '[' :: (L ++ [']', ':']))
    (hdh : plainHost dh = true) (hdp : decimal dp = true)
    (hL : ∀ c ∈ L, hostByte c = true ∧ c ≠ '[' ∧ c ≠ ']') (hcol : ':' ∈ L) :
    ParseTCPAddr tryAddr (tcpAddr dh dp) =
      .ok ("tcp://".toList ++ '[' :: (L ++ ']' :: ':' :: dp)) := by
  have hb1 : '[' ∉ L := fun hm => (hL _ hm).2.1 rfl
  have hb2 : ']' ∉ L := fun hm => (hL _ hm).2.2 rfl
  have hsl : '/' ∉ L := hostByte_not_mem L (fun c hc => (hL c hc).1) '/' (by decide)
  have pc : ':' ∉ dp := decimal_not_mem dp hdp ':' (by decide)
  have pb1 : '[' ∉ dp := decimal_not_mem dp hdp '[' (by decide)
  have pb2 : ']' ∉ dp := decimal_not_mem dp hdp ']' (by decide)
  have hpd := decimal_digit dp hdp
  have hdpne := decimal_ne_nil dp hdp
  have hLne : L ≠ [] := by
    intro e; rw [e] at hcol; simp at hcol
  have hsuf : strings.HasSuffix ('[' :: (L ++ [']', ':'])) "]:".toList = true := by
    show [']', ':'].isSuffixOf ('[' :: (L ++ [']', ':'])) = true
    rw [List.isSuffixOf_iff_suffix]
    exact ⟨'[' :: L, by simp⟩
  have hsep : strings.Contains ('[' :: (L ++ [']', ':'])) "://".toList = false :=
    contains_sep_of_no_slash _ (by simp [hsl])
  have hH : ∀ c ∈ '[' :: (L ++ ']' :: ':' :: dp), hostByte c = true := by
    intro c hc
    simp only [List.mem_append, List.mem_cons] at hc
    rcases hc with hc | hc | hc | hc | hc
    · rw [hc]; decide
    · exact (hL c hc).1
    · rw [hc]; decide
    · rw [hc]; decide
    · exact digit_hostByte c (hpd c hc)
  have hsplit : splitHostPortRetry ('[' :: (L ++ ']' :: ':' :: dp)) dp = .ok (L, dp) := by
    unfold splitHostPortRetry
    rw [splitHostPort_bracket L dp hb1 hb2 pc pb1 pb2]
  have := parseTCPAddr_core tryAddr ('[' :: (L ++ [']', ':'])) dh dp
    ('[' :: (L ++ ']' :: ':' :: dp)) ('[' :: (L ++ ']' :: ':' :: dp)) [] [] L dp htrim
    (by simp) hsep hdh hdp (by rw [hsuf]; simp) hH (by simp) (Or.inl rfl)
    (parseHost_bracket L dp (fun c hc => (hL c hc).1) hpd) rfl hsplit
    (by rw [if_neg hdpne]; exact hdp)
  rw [this, if_neg hLne, if_neg hdpne, joinHostPort_colon L dp hcol]
  simp

/-- C9: for a bracketed IPv6 literal `[L]` (hexadecimal digits, colons and dots, with
a colon) and a default `tcp://dh:dp`, both `ParseTCPAddr("tcp://[L]:", D)` and
`ParseTCPAddr("[L]:", D)` succeed and return `tcp://[L]:dp`. -/
theorem ParseTCPAddr_ipv6_empty_port (dh dp L : Str)
    (hdh : plainHost dh = true) (hdp : decimal dp = true) (hL : ipv6Literal L = true) :
    ParseTCPAddr ("tcp://[".toList ++ L ++ "]:".toList) (tcpAddr dh dp) =
      .ok ("tcp://[".toList ++ L ++ "]:".toList ++ dp) ∧
    ParseTCPAddr ("[".toList ++ L ++ "]:".toList) (tcpAddr dh dp) =
      .ok ("tcp://[".toList ++ L ++ "]:".toList ++ dp) := by
  simp only [ipv6Literal, Bool.and_eq_true, List.all_eq_true, Bool.or_eq_true,
    decide_eq_true_eq] at hL
  have hbytes : ∀ c ∈ L, hostByte c = true ∧ c ≠ '[' ∧ c ≠ ']' := by
    intro c hc
    apply ipv6_byte
    rcases hL.1 c hc with (h | h) | h
    · exact Or.inl h
    · exact Or.inr (Or.inl h)
    · exact Or.inr (Or.inr h)
  have hsl : '/' ∉ L := hostByte_not_mem L (fun c hc => (hbytes c hc).1) '/' (by decide)
  have e1 : "tcp://[".toList ++ L ++ "]:".toList = "tcp://".toList ++ '[' :: (L ++ [']', ':']) := by
    simp
  have e2 : "[".toList ++ L ++ "]:".toList = '[' :: (L ++ [']', ':']) := by simp
  have e3 : "tcp://[".toList ++ L ++ "]:".toList ++ dp =
      "tcp://".toList ++ '[' :: (L ++ ']' :: ':' :: dp) := by simp
  rw [e3, e1, e2]
  constructor
  · exact parseTCPAddr_bracket _ dh dp L (trimPrefix_tcp _) hdh hdp hbytes hL.2
  · exact parseTCPAddr_bracket _ dh dp L
      (trimPrefix_of_not_contains _ (contains_sep_of_no_slash _ (by simp [hsl]))) hdh hdp
      hbytes hL.2

/-- C9 at the example of the specification: `tcp://[::1]:` against the default
`tcp://0.0.0.0:2375` is `tcp://[::1]:2375`. -/
theorem ParseTCPAddr_ipv6_empty_port_witness :
    ParseTCPAddr "tcp://[::1]:".toList "tcp://0.0.0.0:2375".toList =
      .ok "tcp://[::1]:2375".toList ∧
    ParseTCPAddr "[::1]:".toList "tcp://0.0.0.0:2375".toList =
      .ok "tcp://[::1]:2375".toList :=
  ParseTCPAddr_ipv6_empty_port "0.0.0.0".toList "2375".toList "::1".toList (by decide)
    (by decide) (by decide)

theorem getLast?_append_digits (X p : Str) (hp : p ≠ []) (hpd : ∀ c ∈ p, '0' ≤ c ∧ c ≤ '9') :
    (X ++ p).getLast? ≠ some ':' := by
  intro h
  rw [List.getLast?_append_of_ne_nil X hp] at h
  have := hpd ':' (List.mem_of_getLast?_eq_some h)
  exact absurd this (by decide)

/-- C8, as the code has it: for `[tcp://]host:port/path` with a plain host, a decimal
port and a path that holds no `?`, `#`, control byte or `"://"` and does not end in
`"]:"`, whenever the path unescapes to `q` the result is `tcp://host:port` followed
by `q`, the path with every `%XX` replaced by its byte; `q` is the path as written
when the path holds no `%`. -/
theorem ParseTCPAddr_path_unescaped (dh dp h p path q : Str)
    (hdh : plainHost dh = true) (hdp : decimal dp = true)
    (hh : plainHost h = true) (hne : h ≠ []) (hp : decimal p = true)
    (hslash : ∃ p1, path = '/' :: p1)
    (hbytes : ∀ c ∈ path, ¬ (c.toNat < 0x20 ∨ c.toNat = 0x7f) ∧ c ≠ '?' ∧ c ≠ '#')
    (hsep : strings.Contains path "://".toList = false)
    (hsuf : strings.HasSuffix path "]:".toList = false)
    (hq : url.unescape .encodePath path = .ok q) :
    ParseTCPAddr (h ++ ":".toList ++ p ++ path) (tcpAddr dh dp) = .ok (tcpAddr h p ++ q) ∧
    ParseTCPAddr ("tcp://".toList ++ (h ++ ":".toList ++ p ++ path)) (tcpAddr dh dp) =
      .ok (tcpAddr h p ++ q) ∧
    ('%' ∉ path → q = path) := by
  have hsl : '/' ∉ h := plainHost_not_mem h hh '/' (Or.inl (by decide))
  have psl : '/' ∉ p := decimal_not_mem p hp '/' (by decide)
  have hpd := decimal_digit p hp
  have hpne := decimal_ne_nil p hp
  have e1 : h ++ ":".toList ++ p ++ path = h ++ ':' :: (p ++ path) := by simp
  have e0 : h ++ ':' :: (p ++ path) = ((h ++ [':']) ++ p) ++ path := by simp
  have hX : '/' ∉ (h ++ [':']) ++ p := by simp [hsl, psl]
  have hsep2 : strings.Contains (h ++ ':' :: (p ++ path)) "://".toList = false := by
    rw [e0, contains_sep_append _ path hX (getLast?_append_digits _ p hpne hpd), hsep]
  have r : ∀ t, strings.TrimPrefix t "tcp://".toList = h ++ ':' :: (p ++ path) →
      ParseTCPAddr t (tcpAddr dh dp) = .ok (tcpAddr h p ++ q) := by
    intro t ht
    have := parseTCPAddr_host_port_path t dh dp h p path q ht hdh hdp hh hpd hbytes
      (Or.inr hslash) hsep2 hsuf hq
    simpa [hne, hpne] using this
  rw [e1]
  refine ⟨r _ (trimPrefix_of_not_contains _ hsep2), r _ (trimPrefix_tcp _), ?_⟩
  intro hpct
  have := unescape_path_id .encodePath (by decide) path hpct
  rw [this] at hq
  injection hq with hq
  exact hq.symm

/-- C8 at `localhost:5555/path` against the default `tcp://localhost:2375`. -/
theorem ParseTCPAddr_path_unescaped_witness :
    ParseTCPAddr ("localhost".toList ++ ":".toList ++ "5555".toList ++ "/path".toList)
        (tcpAddr "localhost".toList "2375".toList) =
      .ok (tcpAddr "localhost".toList "5555".toList ++ "/path".toList) ∧
    tcpAddr "localhost".toList "5555".toList ++ "/path".toList =
      "tcp://localhost:5555/path".toList :=
  ⟨(ParseTCPAddr_path_unescaped "localhost".toList "2375".toList "localhost".toList
      "5555".toList "/path".toList "/path".toList (by decide) (by decide) (by decide)
      (by decide) (by decide) ⟨"path".toList, rfl⟩ (by decide) (by decide) (by decide)
      (by decide)).1, by decide⟩

/-- C8 fails as stated: `h:1/a%20b` is accepted and the result carries the path
`/a b`, with the escape `%20` replaced by a space, not the path as it was written. -/
theorem ParseTCPAddr_path_not_verbatim :
    ParseTCPAddr "h:1/a%20b".toList "tcp://localhost:2375".toList = .ok "tcp://h:1/a b".toList ∧
    ParseTCPAddr "h:1/a%20b".toList "tcp://localhost:2375".toList ≠
      .ok ("tcp://h:1".toList ++ "/a%20b".toList) := by
  decide

/-- C7, as the code has it.  Past the early return, with the resolved host, port and
path in hand, `ParseTCPAddr` refuses the address exactly when `Atoi` of the port
reports a syntax error (the only error that comes with the value 0); with no error
or with a range error (an all-digit port too large for an `int`) it returns
`tcp://` + `JoinHostPort(host, port)` + path.  So every decimal port passes, the
port `0` and a port of any length included. -/
theorem ParseTCPAddr_port_check (tryAddr defaultAddr host port path : Str)
    (h1 : tryAddr ≠ []) (h2 : tryAddr ≠ "tcp://".toList)
    (hres : resolveTCPParts tryAddr defaultAddr = .ok (host, port, path)) :
    ((strconv.Atoi port).2 = some .ErrSyntax →
      ParseTCPAddr tryAddr defaultAddr = .error (.invalidBindAddress tryAddr)) ∧
    ((strconv.Atoi port).2 ≠ some .ErrSyntax →
      ParseTCPAddr tryAddr defaultAddr =
        .ok ("tcp://".toList ++ net.JoinHostPort host port ++ path)) ∧
    (decimal port = true →
      ParseTCPAddr tryAddr defaultAddr =
        .ok ("tcp://".toList ++ net.JoinHostPort host port ++ path)) := by
  have hP : ParseTCPAddr tryAddr defaultAddr = formatTCPParts tryAddr (host, port, path) := by
    unfold ParseTCPAddr
    rw [if_neg (by rintro (e | e); exact h1 e; exact h2 e), hres]
  rw [hP]
  refine ⟨?_, ?_, ?_⟩
  · intro hs
    unfold formatTCPParts
    rw [if_pos ((atoi_zero_err_iff port).mpr hs)]
  · intro hs
    unfold formatTCPParts
    rw [if_neg (fun h => hs ((atoi_zero_err_iff port).mp h))]
  · intro hd
    exact formatTCPParts_decimal _ _ _ _ hd

/-- C7 at the port `0`: `h:0` is accepted. -/
theorem ParseTCPAddr_port_check_witness :
    ParseTCPAddr "h:0".toList "tcp://localhost:2375".toList = .ok "tcp://h:0".toList :=
  (ParseTCPAddr_port_check "h:0".toList "tcp://localhost:2375".toList "h".toList "0".toList []
    (by decide) (by decide) (by decide)).2.2 (by decide)

/-- C7 fails as stated: the all-digit port `99999999999999999999` does not parse with
`Atoi` (range error, value `2^63 - 1`), and `ParseTCPAddr` accepts it. -/
theorem ParseTCPAddr_accepts_out_of_range_port :
    strconv.Atoi "99999999999999999999".toList = (2 ^ 63 - 1, some .ErrRange) ∧
    resolveTCPParts "h:99999999999999999999".toList "tcp://localhost:2375".toList =
      .ok ("h".toList, "99999999999999999999".toList, []) ∧
    ParseTCPAddr "h:99999999999999999999".toList "tcp://localhost:2375".toList =
      .ok "tcp://h:99999999999999999999".toList := by
  decide

/-! ### Reading a successful parse backwards -/

theorem indexByte_some (s : Str) (c : Char) (i : Nat) (h : strings.IndexByte s c = some i) :
    s = s.take i ++ c :: s.drop (i + 1) ∧ c ∉ s.take i := by
  induction s generalizing i with
  | nil => simp [strings.IndexByte] at h
  | cons x xs ih =>
    unfold strings.IndexByte at h
    by_cases hx : x = c
    · rw [if_pos hx] at h
      injection h with h
      subst h
      simp [hx]
    · rw [if_neg hx] at h
      cases hi : strings.IndexByte xs c with
      | none => rw [hi] at h; simp at h
      | some j =>
        rw [hi] at h
        simp only [Option.map_some', Option.some.injEq] at h
        subst h
        have := ih j hi
        refine ⟨?_, ?_⟩
        · simp only [List.take_succ_cons, List.drop_succ_cons, List.cons_append]
          rw [← this.1]
        · simp only [List.take_succ_cons, List.mem_cons, not_or]
          exact ⟨fun e => hx e.symm, this.2⟩

theorem lastIndexByte_none (s : Str) (c : Char) (h : strings.LastIndexByte s c = none) :
    c ∉ s := by
  induction s with
  | nil => simp
  | cons x xs ih =>
    unfold strings.LastIndexByte at h
    cases hi : strings.LastIndexByte xs c with
    | some j => rw [hi] at h; simp at h
    | none =>
      rw [hi] at h
      simp only at h
      by_cases hx : x = c
      · rw [if_pos hx] at h; simp at h
      · simp only [List.mem_cons, not_or]
        exact ⟨fun e => hx e.symm, ih hi⟩

/-- A successful parse of `tcp://a`, for `a` without `#` and `?`: `a` holds no control
byte and splits at its first slash into an authority, whose host is `u.Host`, and a
path that unescapes to `u.Path`. -/
theorem url_Parse_tcp_inv (a : Str) (u : url.URL) (hs : '#' ∉ a) (hq : '?' ∉ a)
    (h : url.Parse ("tcp://".toList ++ a) = .ok u) :
    url.stringContainsCTLByte a = false ∧
    ∃ auth path user, a = auth ++ path ∧ '/' ∉ auth ∧ (path = [] ∨ ∃ p1, path = '/' :: p1) ∧
      url.parseAuthority auth = .ok (user, u.Host) ∧
      url.unescape .encodePath path = .ok u.Path := by
  have hsharp : '#' ∉ "tcp://".toList ++ a := by
    simp only [List.mem_append, not_or]
    exact ⟨by decide, hs⟩
  have hquest : '?' ∉ "//".toList ++ a := by
    simp only [List.mem_append, not_or]
    exact ⟨by decide, hq⟩
  have hctl : url.stringContainsCTLByte ("tcp://".toList ++ a) = url.stringContainsCTLByte a := by
    unfold url.stringContainsCTLByte
    rw [List.any_append]
    have : ("tcp://".toList).any (fun b => decide (b.toNat < 0x20) || decide (b.toNat = 0x7f)) =
        false := by decide
    rw [this, Bool.false_or]
  have hstar : "tcp://".toList ++ a ≠ "*".toList := by
    show 't' :: 'c' :: 'p' :: ':' :: '/' :: '/' :: a ≠ ['*']
    simp
  have hsch : url.getScheme ("tcp://".toList ++ a) = .ok ("tcp".toList, "//".toList ++ a) := rfl
  have hpre1 : strings.HasPrefix ("//".toList ++ a) "/".toList = true := rfl
  have hpre2 : strings.HasPrefix ("//".toList ++ a) "//".toList = true := by
    show strings.HasPrefix ('/' :: '/' :: a) ['/', '/'] = true
    simp [strings.HasPrefix]
  have hlow : strings.ToLowerASCII "tcp".toList = "tcp".toList := by decide
  have hne : "tcp".toList ≠ ([] : Str) := by decide
  have hdrop : ("//".toList ++ a).drop 2 = a := rfl
  unfold url.Parse at h
  rw [cutByte_not_mem _ _ hsharp] at h
  simp only [if_true] at h
  cases hp : url.parse ("tcp://".toList ++ a) with
  | error e => rw [hp] at h; simp at h
  | ok u2 =>
    rw [hp] at h
    simp only [Except.ok.injEq] at h
    subst h
    unfold url.parse at hp
    rw [hctl] at hp
    by_cases hc : url.stringContainsCTLByte a = true
    · rw [if_pos hc] at hp; simp at hp
    · rw [if_neg hc, if_neg hstar, hsch] at hp
      simp only at hp
      rw [cutByte_not_mem _ _ hquest] at hp
      simp only at hp
      rw [hpre1, hpre2, hlow, hdrop] at hp
      simp only [Bool.not_true, Bool.false_eq_true, false_and, if_false, ne_eq, hne,
        not_false_eq_true, true_or, and_self, if_true] at hp
      refine ⟨by simpa using hc, ?_⟩
      have hsplit : ∃ auth path, a = auth ++ path ∧ '/' ∉ auth ∧
          (path = [] ∨ ∃ p1, path = '/' :: p1) ∧
          (match strings.IndexByte a '/' with
            | some i => (a.take i, a.drop i)
            | none => (a, [])) = (auth, path) := by
        cases hi : strings.IndexByte a '/' with
        | none =>
          refine ⟨a, [], by simp, ?_, Or.inl rfl, rfl⟩
          intro hm
          have := indexByte_isSome a '/'
          rw [hi] at this
          simp [hm] at this
        | some i =>
          have := indexByte_some a '/' i hi
          refine ⟨a.take i, a.drop i, by simp, this.2, Or.inr ⟨a.drop (i + 1), ?_⟩, rfl⟩
          have e := this.1
          have hlen : i ≤ a.length := by
            by_contra hcon
            have h1 : a.take i = a := List.take_of_length_le (by omega)
            have h2 : a.drop (i + 1) = [] := List.drop_of_length_le (by omega)
            rw [h1, h2] at e
            have := congrArg List.length e
            simp at this
          conv_lhs => rw [e]
          rw [List.drop_append_of_le_length (by simp [hlen])]
          simp [List.drop_take, hlen]
      obtain ⟨auth, path, ha, hauth, hpath, hm⟩ := hsplit
      rw [hm] at hp
      simp only at hp
      cases hA : url.parseAuthority auth with
      | error e => rw [hA] at hp; simp at hp
      | ok uh =>
        obtain ⟨user, host⟩ := uh
        rw [hA] at hp
        simp only at hp
        cases hP : url.unescape .encodePath path with
        | error e => rw [hP] at hp; simp at hp
        | ok q =>
          rw [hP] at hp
          simp only [Except.ok.injEq] at hp
          subst hp
          exact ⟨auth, path, user, ha, hauth, hpath, hA, hP⟩

theorem unescape_host_inv (s t : Str) (hpc : '%' ∉ s)
    (h : url.unescape .encodeHost s = .ok t) : t = s ∧ ∀ c ∈ s, hostByte c = true := by
  induction s generalizing t with
  | nil =>
    simp only [url.unescape, Except.ok.injEq] at h
    exact ⟨h.symm, by simp⟩
  | cons c cs ih =>
    have h1 : c ≠ '%' := fun e => hpc (by simp [e])
    have hcs : '%' ∉ cs := fun e => hpc (by simp [e])
    unfold url.unescape at h
    rw [if_neg h1] at h
    by_cases hplus : c = '+'
    · rw [if_pos hplus] at h
      cases hr : url.unescape .encodeHost cs with
      | error e => rw [hr] at h; simp at h
      | ok t2 =>
        rw [hr] at h
        simp only [Except.ok.injEq] at h
        have := ih t2 hcs hr
        refine ⟨by rw [← h, this.1], ?_⟩
        intro d hd
        rcases List.mem_cons.mp hd with e | e
        · rw [e, hplus]; decide
        · exact this.2 d e
    · rw [if_neg hplus] at h
      by_cases hesc : (url.encoding.encodeHost = .encodeHost ∨ url.encoding.encodeHost = .encodeZone) ∧
          c.toNat < 0x80 ∧ url.shouldEscapeHost c = true
      · rw [if_pos hesc] at h; simp at h
      · rw [if_neg hesc] at h
        cases hr : url.unescape .encodeHost cs with
        | error e => rw [hr] at h; simp at h
        | ok t2 =>
          rw [hr] at h
          simp only [Except.ok.injEq] at h
          have := ih t2 hcs hr
          refine ⟨by rw [← h, this.1], ?_⟩
          intro d hd
          rcases List.mem_cons.mp hd with e | e
          · rw [e]
            simp only [true_or, true_and, not_and, Bool.not_eq_true] at hesc
            simp only [hostByte, ne_eq, h1, not_false_eq_true, decide_True, Bool.true_and,
              Bool.not_eq_true', Bool.and_eq_false_imp, decide_eq_true_eq]
            exact hesc
          · exact this.2 d e

/-- A host without `%` that `parseHost` accepts is returned as it is and holds host
bytes only. -/
theorem parseHost_inv (H host : Str) (hpc : '%' ∉ H) (h : url.parseHost H = .ok host) :
    host = H ∧ ∀ c ∈ H, hostByte c = true := by
  unfold url.parseHost at h
  split_ifs at h with hpre
  · cases hl : strings.LastIndexByte H ']' with
    | none => rw [hl] at h; simp at h
    | some i =>
      rw [hl] at h
      simp only at h
      split_ifs at h with hv
      have hz : strings.Index (H.take i) "%25".toList = none := by
        rw [show "%25".toList = '%' :: "25".toList from rfl]
        exact index_eq_none_of_not_mem _ _ '%' (fun hm => hpc (List.mem_of_mem_take hm))
      rw [hz] at h
      exact unescape_host_inv H host hpc h
  · cases hl : strings.LastIndexByte H ':' with
    | none =>
      rw [hl] at h
      exact unescape_host_inv H host hpc h
    | some i =>
      rw [hl] at h
      simp only at h
      split_ifs at h with hv
      exact unescape_host_inv H host hpc h

theorem parseAuthority_inv (auth host : Str) (user : Option url.Userinfo)
    (h : url.parseAuthority auth = .ok (user, host)) :
    ∃ pre H, auth = pre ++ H ∧ url.parseHost H = .ok host := by
  unfold url.parseAuthority at h
  cases hl : strings.LastIndexByte auth '@' with
  | none =>
    rw [hl] at h
    simp only at h
    cases hh : url.parseHost auth with
    | error e => rw [hh] at h; simp at h
    | ok h2 =>
      rw [hh] at h
      simp only [Except.ok.injEq, Prod.mk.injEq] at h
      exact ⟨[], auth, by simp, by rw [hh, h.2]⟩
  | some i =>
    rw [hl] at h
    simp only at h
    cases hh : url.parseHost (auth.drop (i + 1)) with
    | error e => rw [hh] at h; simp at h
    | ok h2 =>
      rw [hh] at h
      simp only at h
      refine ⟨auth.take (i + 1), auth.drop (i + 1), by simp, ?_⟩
      have hhost : h2 = host := by
        split_ifs at h
        · cases hu : url.unescape .encodeUserPassword (auth.take i) with
          | error e => rw [hu] at h; simp at h
          | ok x =>
            rw [hu] at h
            simp only [Except.ok.injEq, Prod.mk.injEq] at h
            exact h.2
        · cases hu : url.unescape .encodeUserPassword (strings.CutByte (auth.take i) ':').1 with
          | error e => rw [hu] at h; simp at h
          | ok x =>
            rw [hu] at h
            simp only at h
            cases hu2 : url.unescape .encodeUserPassword (strings.CutByte (auth.take i) ':').2 with
            | error e => rw [hu2] at h; simp at h
            | ok y =>
              rw [hu2] at h
              simp only [Except.ok.injEq, Prod.mk.injEq] at h
              exact h.2
      rw [hh, hhost]

theorem validOptionalPort_inv (p : Str) (h : url.validOptionalPort (':' :: p) = true) :
    ∀ c ∈ p, '0' ≤ c ∧ c ≤ '9' := by
  simpa [url.validOptionalPort] using h

theorem parseHost_port_digits_plain (host port r : Str)
    (hb : (host ++ ':' :: port).head? ≠ some '[') (hc : ':' ∉ port)
    (h : url.parseHost (host ++ ':' :: port) = .ok r) : ∀ c ∈ port, '0' ≤ c ∧ c ≤ '9' := by
  unfold url.parseHost at h
  rw [hasPrefix_bracket_false _ hb, lastIndexByte_append_cons host port ':' hc] at h
  simp only [Bool.false_eq_true, if_false, List.drop_left] at h
  split_ifs at h with hv
  exact validOptionalPort_inv port (by simpa using hv)

theorem parseHost_port_digits_bracket (L port r : Str) (hb : ']' ∉ port)
    (h : url.parseHost ('[' :: (L ++ ']' :: ':' :: port)) = .ok r) :
    ∀ c ∈ port, '0' ≤ c ∧ c ≤ '9' := by
  have p3 : ']' ∉ ':' :: port := by
    simp only [List.mem_cons, not_or]
    exact ⟨by decide, hb⟩
  have e1 : '[' :: (L ++ ']' :: ':' :: port) = ('[' :: L) ++ ']' :: (':' :: port) := by simp
  have hlast : strings.LastIndexByte ('[' :: (L ++ ']' :: ':' :: port)) ']' =
      some (L.length + 1) := by
    rw [e1, lastIndexByte_append_cons _ _ ']' p3]; simp
  have hdrop : ('[' :: (L ++ ']' :: ':' :: port)).drop (L.length + 1 + 1) = ':' :: port := by
    rw [show '[' :: (L ++ ']' :: ':' :: port) = ('[' :: L ++ [']']) ++ ':' :: port by simp]
    exact List.drop_left' (by simp)
  have hpre : strings.HasPrefix ('[' :: (L ++ ']' :: ':' :: port)) "[".toList = true := by
    show strings.HasPrefix ('[' :: (L ++ ']' :: ':' :: port)) ['['] = true
    simp [strings.HasPrefix]
  unfold url.parseHost at h
  rw [hpre, hlast] at h
  simp only [if_true, hdrop] at h
  split_ifs at h with hv
  exact validOptionalPort_inv port (by simpa using hv)

theorem indexByte_split (s : Str) (c : Char) (i : Nat) (h : strings.IndexByte s c = some i) :
    ∃ B C, s = B ++ c :: C ∧ c ∉ B ∧ B.length = i := by
  induction s generalizing i with
  | nil => simp [strings.IndexByte] at h
  | cons x xs ih =>
    unfold strings.IndexByte at h
    by_cases hx : x = c
    · rw [if_pos hx] at h
      injection h with h
      exact ⟨[], xs, by simp [hx], by simp, h⟩
    · rw [if_neg hx] at h
      cases hi : strings.IndexByte xs c with
      | none => rw [hi] at h; simp at h
      | some j =>
        rw [hi] at h
        simp only [Option.map_some', Option.some.injEq] at h
        obtain ⟨B, C, e, hB, hl⟩ := ih j hi
        refine ⟨x :: B, C, by simp [e], ?_, by simp [hl, h]⟩
        simp only [List.mem_cons, not_or]
        exact ⟨fun e => hx e.symm, hB⟩

theorem lastIndexByte_split (s : Str) (c : Char) (i : Nat)
    (h : strings.LastIndexByte s c = some i) :
    ∃ A P, s = A ++ c :: P ∧ c ∉ P ∧ A.length = i := by
  induction s generalizing i with
  | nil => simp [strings.LastIndexByte] at h
  | cons x xs ih =>
    unfold strings.LastIndexByte at h
    cases hi : strings.LastIndexByte xs c with
    | some j =>
      rw [hi] at h
      simp only [Option.some.injEq] at h
      obtain ⟨A, P, e, hP, hl⟩ := ih j hi
      exact ⟨x :: A, P, by simp [e], hP, by simp [hl, h]⟩
    | none =>
      rw [hi] at h
      simp only at h
      by_cases hx : x = c
      · rw [if_pos hx] at h
        injection h with h
        exact ⟨[], xs, by simp [hx], lastIndexByte_none xs c hi, h⟩
      · rw [if_neg hx] at h; simp at h

theorem not_mem_of_indexByte_isSome_false (s : Str) (c : Char)
    (h : ¬ (strings.IndexByte s c).isSome = true) : c ∉ s := by
  rw [indexByte_isSome] at h
  simpa using h

/-- What `SplitHostPort` accepts: `[host]:port` or `host:port`, the host without
brackets (and, unbracketed, without a colon), the port without colon or brackets. -/
theorem splitHostPort_inv (s host port : Str) (h : net.SplitHostPort s = .ok (host, port)) :
    ('[' ∉ host ∧ ']' ∉ host ∧ ':' ∉ port ∧ '[' ∉ port ∧ ']' ∉ port) ∧
    (s = '[' :: (host ++ ']' :: ':' :: port) ∨ (s = host ++ ':' :: port ∧ ':' ∉ host)) := by
  unfold net.SplitHostPort at h
  cases hl : strings.LastIndexByte s ':' with
  | none => rw [hl] at h; simp at h
  | some i =>
    obtain ⟨A, P, hs, hP, hA⟩ := lastIndexByte_split s ':' i hl
    subst hs
    subst hA
    rw [hl] at h
    simp only at h
    have hdropP : (A ++ ':' :: P).drop (A.length + 1) = P := by
      rw [show A ++ ':' :: P = (A ++ [':']) ++ P by simp]
      exact List.drop_left' (by simp)
    by_cases hhd : (A ++ ':' :: P).head? = some '['
    · rw [if_pos hhd] at h
      cases he : strings.IndexByte (A ++ ':' :: P) ']' with
      | none => rw [he] at h; simp at h
      | some e =>
        obtain ⟨B, C, hBC, hB, hBl⟩ := indexByte_split _ ']' e he
        subst hBl
        rw [he] at h
        simp only at h
        split_ifs at h with h1 h2 h3 h4
        simp only [Except.ok.injEq, Prod.mk.injEq] at h
        -- `B ++ "]"` and `A` are prefixes of the same length
        have hAB : B ++ [']'] = A ∧ C = ':' :: P := by
          apply List.append_inj
          · simp only [List.append_assoc, List.singleton_append]; exact hBC.symm
          · simp [h2]
        obtain ⟨hA, hC⟩ := hAB
        subst hA
        subst hC
        have hBne : ∃ B2, B = '[' :: B2 := by
          cases B with
          | nil => simp at hhd
          | cons b B2 =>
            simp only [List.cons_append, List.head?_cons, Option.some.injEq] at hhd
            exact ⟨B2, by rw [hhd]⟩
        obtain ⟨B2, hB2⟩ := hBne
        subst hB2
        have ht : (('[' :: B2 ++ [']'] ++ ':' :: P).take ('[' :: B2).length).drop 1 = B2 := by
          rw [show '[' :: B2 ++ [']'] ++ ':' :: P = ('[' :: B2) ++ (']' :: ':' :: P) by simp,
            List.take_left' rfl]
          rfl
        rw [ht, hdropP] at h
        obtain ⟨hh, hp⟩ := h
        subst hh
        subst hp
        have n1 := not_mem_of_indexByte_isSome_false _ _ h3
        have n2 := not_mem_of_indexByte_isSome_false _ _ h4
        have hd1 : ('[' :: B2 ++ [']'] ++ ':' :: P).drop 1 = B2 ++ ']' :: ':' :: P := by
          simp
        have hd2 : ('[' :: B2 ++ [']'] ++ ':' :: P).drop (('[' :: B2).length + 1) =
            ':' :: P := by
          exact List.drop_left' (by simp)
        rw [hd1] at n1
        rw [hd2] at n2
        simp only [List.mem_append, List.mem_cons, not_or] at n1 n2 hB
        refine ⟨⟨n1.1, hB.2, hP, n1.2.2.2, n2.2⟩, Or.inl (by simp)⟩
    · rw [if_neg hhd] at h
      simp only [List.take_left', List.drop_zero] at h
      split_ifs at h with h1 h3 h4
      simp only [Except.ok.injEq, Prod.mk.injEq] at h
      rw [hdropP] at h
      obtain ⟨hh, hp⟩ := h
      subst hh
      subst hp
      have n0 := not_mem_of_indexByte_isSome_false _ _ h1
      have n1 := not_mem_of_indexByte_isSome_false _ _ h3
      have n2 := not_mem_of_indexByte_isSome_false _ _ h4
      simp only [List.mem_append, List.mem_cons, not_or] at n1 n2
      exact ⟨⟨n1.1, n2.1, hP, n1.2.2, n2.2.2⟩, Or.inr ⟨rfl, n0⟩⟩

theorem index_sep_cons (x : Char) (xs : Str) :
    strings.Index (x :: xs) [':', '/', '/'] = none ↔
      ([':', '/', '/'].isPrefixOf (x :: xs) = false ∧ strings.Index xs [':', '/', '/'] = none) := by
  rw [strings.Index]
  by_cases hp : [':', '/', '/'].isPrefixOf (x :: xs) = true
  · simp [hp]
  · simp [hp]

theorem contains_sep_iff (s : Str) :
    strings.Contains s "://".toList = false ↔ strings.Index s [':', '/', '/'] = none := by
  show (strings.Index s [':', '/', '/']).isSome = false ↔ _
  cases strings.Index s [':', '/', '/'] <;> simp

theorem contains_sep_append_right (a b : Str)
    (h : strings.Contains (a ++ b) "://".toList = false) :
    strings.Contains b "://".toList = false := by
  rw [contains_sep_iff] at h ⊢
  induction a with
  | nil => simpa using h
  | cons x xs ih =>
    rw [List.cons_append, index_sep_cons] at h
    exact ih h.2

theorem contains_sep_append_digits (s d : Str) (h : strings.Contains s "://".toList = false)
    (hd : '/' ∉ d) : strings.Contains (s ++ d) "://".toList = false := by
  rw [contains_sep_iff] at h ⊢
  induction s with
  | nil =>
    have := contains_sep_of_no_slash d hd
    rw [contains_sep_iff] at this
    simpa using this
  | cons x xs ih =>
    rw [index_sep_cons] at h
    rw [List.cons_append, index_sep_cons]
    refine ⟨?_, ih h.2⟩
    have h1 := h.1
    cases xs with
    | nil =>
      cases d with
      | nil => simpa using h1
      | cons y ys =>
        have hy : ¬ '/' = y := fun e => hd (by simp [← e])
        simp [List.isPrefixOf, hy]
    | cons y ys =>
      cases ys with
      | nil =>
        cases d with
        | nil => simpa using h1
        | cons z zs =>
          have hz : ¬ '/' = z := fun e => hd (by simp [← e])
          simp [List.isPrefixOf, hz]
      | cons z zs =>
        simpa [List.isPrefixOf] using h1

theorem hasSuffix_of_getLast (s : Str) (h : s.getLast? ≠ some ':') :
    strings.HasSuffix s "]:".toList = false := by
  cases hs : strings.HasSuffix s "]:".toList with
  | false => rfl
  | true =>
    exfalso
    simp only [strings.HasSuffix, List.isSuffixOf_iff_suffix] at hs
    obtain ⟨t, ht⟩ := hs
    apply h
    rw [← ht]
    simp

theorem hasSuffix_append_left (a path : Str) (h : strings.HasSuffix path "]:".toList = true) :
    strings.HasSuffix (a ++ path) "]:".toList = true := by
  simp only [strings.HasSuffix, List.isSuffixOf_iff_suffix] at h ⊢
  obtain ⟨t, ht⟩ := h
  exact ⟨a ++ t, by rw [← ht]; simp⟩

theorem hasSuffix_append_last (X path : Str) (hl : X.getLast? ≠ some ']')
    (hl2 : X.getLast? ≠ some ':') :
    strings.HasSuffix (X ++ path) "]:".toList = strings.HasSuffix path "]:".toList := by
  show [']', ':'].isSuffixOf (X ++ path) = [']', ':'].isSuffixOf path
  have hr : X.reverse.head? ≠ some ']' := by simpa using hl
  have hr2 : X.reverse.head? ≠ some ':' := by simpa using hl2
  simp only [List.isSuffixOf, List.reverse_append, List.reverse_cons, List.reverse_nil,
    List.nil_append, List.singleton_append]
  generalize X.reverse = Y at hr hr2
  generalize path.reverse = P
  cases P with
  | nil =>
    cases Y with
    | nil => rfl
    | cons a Y2 =>
      have ha : ¬ ':' = a := by
        intro e; apply hr2; simp [← e]
      cases Y2 with
      | nil => simp [List.isPrefixOf]
      | cons b Y3 => simp [List.isPrefixOf, ha]
  | cons a P2 =>
    cases P2 with
    | nil =>
      cases Y with
      | nil => rfl
      | cons b Y3 =>
        have hb : ¬ ']' = b := by
          intro e; apply hr; simp [← e]
        simp [List.isPrefixOf, hb]
    | cons b P3 => simp [List.isPrefixOf]

theorem mem_of_mem_trimPrefix (s pre : Str) (c : Char)
    (h : c ∈ strings.TrimPrefix s pre) : c ∈ s := by
  unfold strings.TrimPrefix at h
  split_ifs at h
  · exact List.mem_of_mem_drop h
  · exact h

theorem append_cons_unique (A P A2 P2 : Str) (c : Char) (h : A ++ c :: P = A2 ++ c :: P2)
    (hP : c ∉ P) (hP2 : c ∉ P2) : A = A2 ∧ P = P2 := by
  have h1 := lastIndexByte_append_cons A P c hP
  have h2 := lastIndexByte_append_cons A2 P2 c hP2
  rw [h, h2] at h1
  simp only [Option.some.injEq] at h1
  have := List.append_inj h h1.symm
  exact ⟨this.1, by simpa using this.2⟩

/-- What lines 161 to 165 of `ParseTCPAddr` return for a host text `H` that
`url.Parse` has accepted: a host of host bytes without brackets and a port of
decimal digits (possibly none). -/
theorem splitHostPortRetry_inv (H dp host port : Str) (hH : ∀ c ∈ H, hostByte c = true)
    (hPH : url.parseHost H = .ok H) (hdp : decimal dp = true)
    (h : splitHostPortRetry H dp = .ok (host, port)) :
    '[' ∉ host ∧ ']' ∉ host ∧ (∀ c ∈ host, hostByte c = true) ∧
      (∀ c ∈ port, '0' ≤ c ∧ c ≤ '9') := by
  unfold splitHostPortRetry at h
  cases h1 : net.SplitHostPort H with
  | ok hp =>
    rw [h1] at h
    simp only [Except.ok.injEq] at h
    subst h
    obtain ⟨⟨a1, a2, a3, a4, a5⟩, hshape⟩ := splitHostPort_inv H host port h1
    rcases hshape with e | ⟨e, hc⟩
    · subst e
      refine ⟨a1, a2, fun c hc => hH c (by simp [hc]), ?_⟩
      exact parseHost_port_digits_bracket host port _ a5 hPH
    · subst e
      refine ⟨a1, a2, fun c hc => hH c (by simp [hc]), ?_⟩
      have hhead : (host ++ ':' :: port).head? ≠ some '[' := by
        cases host with
        | nil => simp
        | cons x xs =>
          simp only [List.cons_append, List.head?_cons, ne_eq, Option.some.injEq]
          intro e; exact a1 (by simp [e])
      exact parseHost_port_digits_plain host port _ hhead a3 hPH
  | error e =>
    rw [h1] at h
    simp only at h
    obtain ⟨⟨a1, a2, a3, a4, a5⟩, hshape⟩ := splitHostPort_inv _ host port h
    have pc : ':' ∉ dp := decimal_not_mem dp hdp ':' (by decide)
    -- the joined text ends in `:dp`, with the host text or its bracketed form in front
    have hJ : ∃ Y, net.JoinHostPort H dp = Y ++ ':' :: dp ∧ ∀ c ∈ Y, hostByte c = true := by
      by_cases hcol : ':' ∈ H
      · refine ⟨'[' :: (H ++ [']']), by rw [joinHostPort_colon H dp hcol]; simp, ?_⟩
        intro c hc
        simp only [List.mem_cons, List.mem_append, List.not_mem_nil, or_false] at hc
        rcases hc with hc | hc | hc
        · rw [hc]; decide
        · exact hH c hc
        · rw [hc]; decide
      · exact ⟨H, joinHostPort_no_colon H dp hcol, hH⟩
    obtain ⟨Y, hY, hYb⟩ := hJ
    have hX : ∃ X, net.JoinHostPort H dp = X ++ ':' :: port ∧ ∀ c ∈ host, c ∈ X := by
      rcases hshape with e | ⟨e, _⟩
      · exact ⟨'[' :: (host ++ [']']), by rw [e]; simp, fun c hc => by simp [hc]⟩
      · exact ⟨host, e, fun c hc => hc⟩
    obtain ⟨X, hX, hXm⟩ := hX
    rw [hY] at hX
    have := append_cons_unique Y dp X port ':' hX pc a3
    refine ⟨a1, a2, fun c hc => hYb c (by rw [this.1]; exact hXm c hc), ?_⟩
    rw [← this.2]
    exact decimal_digit dp hdp

/-- The text `JoinHostPort(host, port)` for a host of host bytes without brackets
and a decimal port: it is accepted as a URL host and splits back into the two. -/
theorem joinHostPort_facts (host port : Str) (hb1 : '[' ∉ host) (hb2 : ']' ∉ host)
    (hhB : ∀ c ∈ host, hostByte c = true) (hp : decimal port = true) :
    (∀ c ∈ net.JoinHostPort host port, hostByte c = true) ∧
    (∀ d, (net.JoinHostPort host port).getLast? = some d → '0' ≤ d ∧ d ≤ '9') ∧
    net.JoinHostPort host port ≠ [] ∧
    url.parseHost (net.JoinHostPort host port) = .ok (net.JoinHostPort host port) ∧
    net.SplitHostPort (net.JoinHostPort host port) = .ok (host, port) := by
  have hpd := decimal_digit port hp
  have hpne := decimal_ne_nil port hp
  have pc : ':' ∉ port := decimal_not_mem port hp ':' (by decide)
  have pb1 : '[' ∉ port := decimal_not_mem port hp '[' (by decide)
  have pb2 : ']' ∉ port := decimal_not_mem port hp ']' (by decide)
  have hlast : ∀ (X : Str) (d : Char), (X ++ port).getLast? = some d → '0' ≤ d ∧ d ≤ '9' := by
    intro X d hd
    rw [List.getLast?_append_of_ne_nil X hpne] at hd
    exact hpd d (List.mem_of_getLast?_eq_some hd)
  by_cases hcol : ':' ∈ host
  · rw [joinHostPort_colon host port hcol]
    refine ⟨?_, ?_, by simp, parseHost_bracket host port hhB hpd,
      splitHostPort_bracket host port hb1 hb2 pc pb1 pb2⟩
    · intro c hc
      simp only [List.mem_append, List.mem_cons] at hc
      rcases hc with hc | hc | hc | hc | hc
      · rw [hc]; decide
      · exact hhB c hc
      · rw [hc]; decide
      · rw [hc]; decide
      · exact digit_hostByte c (hpd c hc)
    · intro d hd
      apply hlast ('[' :: (host ++ [']', ':'])) d
      rw [← hd]; simp
  · rw [joinHostPort_no_colon host port hcol]
    have hhead : (host ++ ':' :: port).head? ≠ some '[' := by
      cases host with
      | nil => simp
      | cons x xs =>
        simp only [List.cons_append, List.head?_cons, ne_eq, Option.some.injEq]
        intro e; exact hb1 (by simp [e])
    refine ⟨?_, ?_, by simp, parseHost_plain_port host port hhB hhead hpd,
      splitHostPort_plain host port hcol hb1 hb2 pc pb1 pb2⟩
    · intro c hc
      simp only [List.mem_append, List.mem_cons] at hc
      rcases hc with hc | hc | hc
      · exact hhB c hc
      · rw [hc]; decide
      · exact digit_hostByte c (hpd c hc)
    · intro d hd
      apply hlast (host ++ [':']) d
      rw [← hd]; simp

/-- What the middle of `ParseTCPAddr` returns for an address without `%`, `?` and `#`:
a host of host bytes without brackets (empty only when the default host is), a
decimal port, and a path taken from the address as it is written. -/
theorem resolveTCPParts_inv (tryAddr dh dp host2 port2 path : Str)
    (hdh : plainHost dh = true) (hdp : decimal dp = true)
    (hq : '?' ∉ tryAddr) (hs : '#' ∉ tryAddr) (hpc : '%' ∉ tryAddr)
    (hres : resolveTCPParts tryAddr (tcpAddr dh dp) = .ok (host2, port2, path)) :
    ('[' ∉ host2 ∧ ']' ∉ host2 ∧ (∀ c ∈ host2, hostByte c = true) ∧ (host2 = [] → dh = []) ∧
      decimal port2 = true) ∧
    ((path = [] ∨ ∃ p1, path = '/' :: p1) ∧
      (∀ c ∈ path, ¬ (c.toNat < 0x20 ∨ c.toNat = 0x7f) ∧ c ≠ '?' ∧ c ≠ '#') ∧ '%' ∉ path ∧
      strings.Contains path "://".toList = false ∧
      strings.HasSuffix path "]:".toList = false) := by
  have hpd := decimal_digit dp hdp
  have hdpne := decimal_ne_nil dp hdp
  unfold resolveTCPParts at hres
  generalize haddr : strings.TrimPrefix tryAddr "tcp://".toList = addr at hres
  have hmem : ∀ c ∈ addr, c ∈ tryAddr := by
    intro c hc; rw [← haddr] at hc; exact mem_of_mem_trimPrefix _ _ c hc
  simp only at hres
  by_cases hbad : strings.Contains addr "://".toList = true ∨ addr = []
  · rw [if_pos hbad] at hres; simp at hres
  rw [if_neg hbad, default_split dh dp hdh hdp] at hres
  simp only at hres
  have hsep : strings.Contains addr "://".toList = false := by
    cases hc : strings.Contains addr "://".toList with
    | false => rfl
    | true => exact absurd (Or.inl hc) hbad
  generalize haddr2 : (if strings.HasSuffix addr "]:".toList = true then addr ++ dp else addr) =
    addr2 at hres
  have hmem2 : ∀ c ∈ addr2, c ∈ tryAddr ∨ c ∈ dp := by
    intro c hc
    rw [← haddr2] at hc
    split_ifs at hc
    · rcases List.mem_append.mp hc with h1 | h1
      · exact Or.inl (hmem c h1)
      · exact Or.inr h1
    · exact Or.inl (hmem c hc)
  have hno : ∀ d : Char, d ∉ tryAddr → ¬ ('0' ≤ d ∧ d ≤ '9') → d ∉ addr2 := by
    intro d h1 h2 hm
    rcases hmem2 d hm with h3 | h3
    · exact h1 h3
    · exact h2 (hpd d h3)
  cases hu : url.Parse ("tcp://".toList ++ addr2) with
  | error e => rw [hu] at hres; simp at hres
  | ok u =>
    rw [hu] at hres
    simp only at hres
    cases hsp : splitHostPortRetry u.Host dp with
    | error e => rw [hsp] at hres; simp at hres
    | ok hp =>
      obtain ⟨host, port⟩ := hp
      rw [hsp] at hres
      simp only [Except.ok.injEq, Prod.mk.injEq] at hres
      obtain ⟨hhost2, hport2, hpath2⟩ := hres
      obtain ⟨hctl, auth, pth, user, e, hauth, hshape, hA, hP⟩ :=
        url_Parse_tcp_inv addr2 u (hno '#' hs (by decide)) (hno '?' hq (by decide)) hu
      have hpct2 : '%' ∉ addr2 := hno '%' hpc (by decide)
      have hpctp : '%' ∉ pth := fun hm => hpct2 (by rw [e]; simp [hm])
      have hpe : u.Path = pth := by
        have := unescape_path_id .encodePath (by decide) pth hpctp
        rw [this] at hP
        injection hP with hP
        exact hP.symm
      obtain ⟨pre, H, e2, hPH⟩ := parseAuthority_inv auth u.Host user hA
      have hpctH : '%' ∉ H := fun hm => hpct2 (by rw [e, e2]; simp [hm])
      obtain ⟨hHe, hHb⟩ := parseHost_inv H u.Host hpctH hPH
      rw [hHe] at hsp hPH
      obtain ⟨b1, b2, b3, b4⟩ := splitHostPortRetry_inv H dp host port hHb hPH hdp hsp
      have hctl2 : ∀ c ∈ addr2, ¬ (c.toNat < 0x20 ∨ c.toNat = 0x7f) := by
        intro c hc
        unfold url.stringContainsCTLByte at hctl
        rw [List.any_eq_false] at hctl
        have := hctl c hc
        simpa using this
      refine ⟨⟨?_, ?_, ?_, ?_, ?_⟩, ?_, ?_, ?_, ?_, ?_⟩
      · rw [← hhost2]
        split_ifs
        · exact plainHost_not_mem dh hdh '[' (by simp)
        · exact b1
      · rw [← hhost2]
        split_ifs
        · exact plainHost_not_mem dh hdh ']' (by simp)
        · exact b2
      · rw [← hhost2]
        split_ifs
        · exact plainHost_hostByte dh hdh
        · exact b3
      · intro hnil
        rw [← hhost2] at hnil
        split_ifs at hnil with h0
        · exact hnil
        · exact absurd hnil h0
      · rw [← hport2]
        split_ifs with h0
        · exact hdp
        · simp only [decimal, ne_eq, h0, not_false_eq_true, decide_True, Bool.true_and,
            List.all_eq_true, Bool.and_eq_true, decide_eq_true_eq]
          exact b4
      · rw [← hpath2, hpe]; exact hshape
      · rw [← hpath2, hpe]
        intro c hc
        have hc2 : c ∈ addr2 := by rw [e]; simp [hc]
        refine ⟨hctl2 c hc2, ?_, ?_⟩
        · intro ec; rw [ec] at hc2; exact hno '?' hq (by decide) hc2
        · intro ec; rw [ec] at hc2; exact hno '#' hs (by decide) hc2
      · rw [← hpath2, hpe]; exact hpctp
      · rw [← hpath2, hpe]
        apply contains_sep_append_right auth
        rw [← e, ← haddr2]
        split_ifs
        · exact contains_sep_append_digits addr dp hsep (decimal_not_mem dp hdp '/' (by decide))
        · exact hsep
      · rw [← hpath2, hpe]
        by_cases hsuf : strings.HasSuffix addr "]:".toList = true
        · rw [if_pos hsuf] at haddr2
          by_cases hpn : pth = []
          · rw [hpn]; rfl
          · apply hasSuffix_of_getLast
            intro hl
            have h1 : (auth ++ pth).getLast? = some ':' := by
              rw [List.getLast?_append_of_ne_nil auth hpn]; exact hl
            rw [← e, ← haddr2, List.getLast?_append_of_ne_nil addr hdpne] at h1
            exact absurd (hpd ':' (List.mem_of_getLast?_eq_some h1)) (by decide)
        · rw [if_neg hsuf] at haddr2
          cases hps : strings.HasSuffix pth "]:".toList with
          | false => rfl
          | true =>
            exfalso
            apply hsuf
            rw [haddr2, e]
            exact hasSuffix_append_left auth pth hps

/-- C2, as the code has it: `ParseTCPAddr` is idempotent on the addresses that hold
none of `%`, `?` and `#`.  For such a `tryAddr` and a default `tcp://dh:dp` (plain
host, decimal port), if `ParseTCPAddr(tryAddr, D)` succeeds with `r`, then
`ParseTCPAddr(r, D)` succeeds and returns exactly `r`. -/
theorem ParseTCPAddr_idempotent (tryAddr dh dp r : Str)
    (hdh : plainHost dh = true) (hdp : decimal dp = true)
    (hq : '?' ∉ tryAddr) (hs : '#' ∉ tryAddr) (hpc : '%' ∉ tryAddr)
    (h : ParseTCPAddr tryAddr (tcpAddr dh dp) = .ok r) :
    ParseTCPAddr r (tcpAddr dh dp) = .ok r := by
  have hdpne := decimal_ne_nil dp hdp
  unfold ParseTCPAddr at h
  by_cases h0 : tryAddr = [] ∨ tryAddr = "tcp://".toList
  · -- the default is returned as it is, and is a fixed point
    rw [if_pos h0] at h
    simp only [Except.ok.injEq] at h
    subst h
    have hsl : '/' ∉ dh := plainHost_not_mem dh hdh '/' (Or.inl (by decide))
    have psl : '/' ∉ dp := decimal_not_mem dp hdp '/' (by decide)
    have := parseTCPAddr_host_port_path (tcpAddr dh dp) dh dp dh dp [] []
      (by rw [tcpAddr_cons, trimPrefix_tcp]; simp) hdh hdp hdh (decimal_digit dp hdp)
      (by simp) (Or.inl rfl) (contains_sep_of_no_slash _ (by simp [hsl, psl])) rfl rfl
    simpa using this
  · rw [if_neg h0] at h
    cases hres : resolveTCPParts tryAddr (tcpAddr dh dp) with
    | error e => rw [hres] at h; simp at h
    | ok parts =>
      obtain ⟨host, port, path⟩ := parts
      rw [hres] at h
      simp only at h
      obtain ⟨⟨b1, b2, b3, b4, b5⟩, c1, c2, c3, c4, c5⟩ :=
        resolveTCPParts_inv tryAddr dh dp host port path hdh hdp hq hs hpc hres
      rw [formatTCPParts_decimal tryAddr host port path b5] at h
      simp only [Except.ok.injEq] at h
      obtain ⟨j1, j2, j3, j4, j5⟩ := joinHostPort_facts host port b1 b2 b3 b5
      have hportne := decimal_ne_nil port b5
      have hJsl : '/' ∉ net.JoinHostPort host port :=
        hostByte_not_mem _ j1 '/' (by decide)
      have hJl1 : (net.JoinHostPort host port).getLast? ≠ some ':' :=
        fun hl => absurd (j2 ':' hl) (by decide)
      have hJl2 : (net.JoinHostPort host port).getLast? ≠ some ']' :=
        fun hl => absurd (j2 ']' hl) (by decide)
      have hr : r = "tcp://".toList ++ (net.JoinHostPort host port ++ path) := by
        rw [← h]; simp
      have hsplit : splitHostPortRetry (net.JoinHostPort host port) dp = .ok (host, port) := by
        unfold splitHostPortRetry
        rw [j5]
      have hfix : (if strings.HasSuffix (net.JoinHostPort host port ++ path) "]:".toList = true
          then net.JoinHostPort host port ++ path ++ dp
          else net.JoinHostPort host port ++ path) = net.JoinHostPort host port ++ path := by
        rw [hasSuffix_append_last _ path hJl2 hJl1, c5]
        simp
      have := parseTCPAddr_core r (net.JoinHostPort host port ++ path) dh dp
        (net.JoinHostPort host port) (net.JoinHostPort host port) path path host port
        (by rw [hr, trimPrefix_tcp]) (by simp [j3])
        (by rw [contains_sep_append _ path hJsl hJl1]; exact c4) hdh hdp hfix j1 c2 c1 j4
        (unescape_path_id .encodePath (by decide) path c3) hsplit
        (by rw [if_neg hportne]; exact b5)
      rw [this, if_neg hportne, hr]
      by_cases hh : host = []
      · rw [if_pos hh, b4 hh, hh]
        simp
      · rw [if_neg hh]
        simp

/-- C2 at `localhost:5555/path` against the default `tcp://localhost:2375`: the result
`tcp://localhost:5555/path` parses to itself. -/
theorem ParseTCPAddr_idempotent_witness :
    ParseTCPAddr "tcp://localhost:5555/path".toList (tcpAddr "localhost".toList "2375".toList) =
      .ok "tcp://localhost:5555/path".toList :=
  ParseTCPAddr_idempotent "localhost:5555/path".toList "localhost".toList "2375".toList
    "tcp://localhost:5555/path".toList (by decide) (by decide) (by decide) (by decide)
    (by decide) (by decide)

/-- C2 fails as stated.  `h:1/%3Fx` is accepted with the result `tcp://h:1/?x` (the
escape `%3F` is replaced by `?`), and parsing that result again gives `tcp://h:1/`;
`h:1/x]:?q` is accepted with the result `tcp://h:1/x]:`, and parsing that again gives
`tcp://h:1/x]:2375`. -/
theorem ParseTCPAddr_not_idempotent :
    (ParseTCPAddr "h:1/%3Fx".toList "tcp://localhost:2375".toList = .ok "tcp://h:1/?x".toList ∧
     ParseTCPAddr "tcp://h:1/?x".toList "tcp://localhost:2375".toList =
       .ok "tcp://h:1/".toList) ∧
    (ParseTCPAddr "h:1/x]:?q".toList "tcp://localhost:2375".toList =
       .ok "tcp://h:1/x]:".toList ∧
     ParseTCPAddr "tcp://h:1/x]:".toList "tcp://localhost:2375".toList =
       .ok "tcp://h:1/x]:2375".toList) := by
  decide

/-! ### The dispatch of `parseDaemonHost` -/

/-- An address with a first `"://"` at index `m` is split there. -/
theorem splitN2_of_index (addr : Str) (m : Nat)
    (hi : strings.Index addr "://".toList = some m) :
    strings.SplitN2 addr "://".toList = [addr.take m, addr.drop (m + 3)] := by
  unfold strings.SplitN2
  rw [hi]
  rfl

/-- C11: for every address that contains `"://"` and whose text before the first
`"://"` is none of `tcp`, `unix`, `npipe`, `fd`, `parseDaemonHost` fails with the
error "Invalid bind address format" carrying the address as it was given; the empty
address is rejected with the same error. -/
theorem parseDaemonHost_unknown_scheme (DefaultHTTPHost addr : Str) (m : Nat)
    (hi : strings.Index addr "://".toList = some m)
    (hs : addr.take m ∉ ["tcp".toList, "unix".toList, "npipe".toList, "fd".toList]) :
    parseDaemonHost DefaultHTTPHost addr = .error (.invalidBindAddress addr) ∧
    parseDaemonHost DefaultHTTPHost [] = .error (.invalidBindAddress []) := by
  simp only [List.mem_cons, List.mem_singleton, List.not_mem_nil, or_false, not_or] at hs
  obtain ⟨h1, h2, h3, h4⟩ := hs
  constructor
  · unfold parseDaemonHost
    rw [splitN2_of_index addr m hi]
    simp only [if_neg h1, if_neg h2, if_neg h3, if_neg h4]
  · rfl

/-- C11 at `http://x`. -/
theorem parseDaemonHost_unknown_scheme_witness :
    parseDaemonHost "localhost".toList "http://x".toList =
      .error (.invalidBindAddress "http://x".toList) ∧
    parseDaemonHost "localhost".toList [] = .error (.invalidBindAddress []) :=
  parseDaemonHost_unknown_scheme "localhost".toList "http://x".toList 4 (by decide) (by decide)

/-- C20: for every address whose text before the first `"://"` is exactly `fd`,
`parseDaemonHost` succeeds and returns the address as it was given, whatever
follows the separator. -/
theorem parseDaemonHost_fd_verbatim (DefaultHTTPHost addr : Str) (m : Nat)
    (hi : strings.Index addr "://".toList = some m) (hs : addr.take m = "fd".toList) :
    parseDaemonHost DefaultHTTPHost addr = .ok addr := by
  unfold parseDaemonHost
  rw [splitN2_of_index addr m hi, hs]
  simp only
  rw [if_neg (by decide), if_neg (by decide), if_neg (by decide)]
  simp

/-- C20 at `fd://not a number`: no selector is checked. -/
theorem parseDaemonHost_fd_verbatim_witness :
    parseDaemonHost "localhost".toList "fd://not a number".toList =
      .ok "fd://not a number".toList :=
  parseDaemonHost_fd_verbatim "localhost".toList "fd://not a number".toList 2 (by decide)
    (by decide)

/-! ### The early returns of `ParseTCPAddr` -/

/-- C15: for every default address `D`, `ParseTCPAddr("", D)` and
`ParseTCPAddr("tcp://", D)` succeed and return `D` as it is. -/
theorem ParseTCPAddr_empty_returns_default (D : Str) :
    ParseTCPAddr [] D = .ok D ∧ ParseTCPAddr "tcp://".toList D = .ok D := by
  constructor
  · unfold ParseTCPAddr
    rw [if_pos (Or.inl rfl)]
  · unfold ParseTCPAddr
    rw [if_pos (Or.inr rfl)]

/-- C17: for every `tryAddr` other than `""` and `"tcp://"` and every default `D`, if
`tryAddr` with one leading `tcp://` removed still contains `"://"`, `ParseTCPAddr`
fails with the error "Invalid proto, expected tcp" carrying `tryAddr`, and the
string returned with it is empty. -/
theorem ParseTCPAddr_stray_separator (tryAddr D : Str)
    (h1 : tryAddr ≠ []) (h2 : tryAddr ≠ "tcp://".toList)
    (hc : strings.Contains (strings.TrimPrefix tryAddr "tcp://".toList) "://".toList = true) :
    ParseTCPAddr tryAddr D = .error (.invalidProto "tcp".toList tryAddr) ∧
    returnedString (ParseTCPAddr tryAddr D) = [] := by
  have h : ParseTCPAddr tryAddr D = .error (.invalidProto "tcp".toList tryAddr) := by
    unfold ParseTCPAddr
    rw [if_neg (by rintro (e | e); exact h1 e; exact h2 e)]
    unfold resolveTCPParts
    simp only [hc, true_or, if_true]
  rw [h]
  exact ⟨rfl, rfl⟩

/-- C17 at `tcp://unix:///run/docker.sock`, with a default that is not even an
address. -/
theorem ParseTCPAddr_stray_separator_witness :
    ParseTCPAddr "tcp://unix:///run/docker.sock".toList "not-a-default".toList =
      .error (.invalidProto "tcp".toList "tcp://unix:///run/docker.sock".toList) ∧
    returnedString
      (ParseTCPAddr "tcp://unix:///run/docker.sock".toList "not-a-default".toList) = [] :=
  ParseTCPAddr_stray_separator "tcp://unix:///run/docker.sock".toList "not-a-default".toList
    (by decide) (by decide) (by decide)

/-! ### The wildcard selector and the empty inventory -/

/-- C19: for a non-empty inventory `L` and the selector `""` or `"*"`, `listenFD`
returns `L` itself and calls `Close` on no listener; for the empty inventory it
fails with the error "no sockets found via socket activation", whatever the
selector. -/
theorem listenFD_wildcard (sup : Supervisor) (addr : Str) (tlsConfig : Bool)
    (L : List (Option Listener))
    (hact : (if tlsConfig then sup.TLSListeners else sup.Listeners) = .ok L) :
    (L ≠ [] → (addr = [] ∨ addr = "*".toList) →
      listenFD sup addr tlsConfig = (.listeners L, [])) ∧
    (L = [] → listenFD sup addr tlsConfig = (.failed .noSocketsFound, [])) := by
  constructor
  · intro hL hw
    have hlen : L.length ≠ 0 := fun h => hL (List.length_eq_zero.mp h)
    unfold listenFD
    rw [hact]
    simp only [hlen, if_false, if_pos hw]
  · intro hL
    unfold listenFD
    rw [hact, hL]
    simp

/-- C19 on five slots, one of them nil, with the selector `"*"`. -/
theorem listenFD_wildcard_witness :
    listenFD (quietSupervisor [some 10, none, some 12, some 13, some 14]) "*".toList true =
      (.listeners [some 10, none, some 12, some 13, some 14], []) ∧
    listenFD (quietSupervisor []) "7".toList true = (.failed .noSocketsFound, []) :=
  ⟨(listenFD_wildcard (quietSupervisor [some 10, none, some 12, some 13, some 14]) "*".toList
      true [some 10, none, some 12, some 13, some 14] rfl).1 (by decide) (Or.inr rfl),
   by decide⟩

/-! ### `ParseHost` and `ValidateHost` -/

/-- C12: for every value of `defaultToUnixXDG`, every `val` that is empty after
`TrimSpace` and every environment, `ParseHost(true, defaultToUnixXDG, val)` returns
`DefaultTLSHost` and no error: the result of `homedir.GetRuntimeDir` is not read, so a
failing lookup changes nothing. -/
theorem ParseHost_tls_default (env : HostsEnv) (defaultToUnixXDG : Bool) (val : Str)
    (h : strings.TrimSpace val = []) :
    ParseHost env true defaultToUnixXDG val = (DefaultTLSHost env.DefaultHTTPHost, none) := by
  unfold ParseHost
  simp only [h, if_true]

/-- C12 with both flags set, a blank `val` and a runtime-directory lookup that fails. -/
theorem ParseHost_tls_default_witness :
    ParseHost
      { DefaultHTTPHost := "localhost".toList, DefaultHost := "unix:///var/run/docker.sock".toList,
        GetRuntimeDir := .error "no runtime directory".toList, Join := fun a b => a ++ b }
      true true " \t ".toList = ("tcp://localhost:2376".toList, none) :=
  ParseHost_tls_default _ true " \t ".toList (by decide)

/-- C13: when the trimmed `val` is non-empty and `parseDaemonHost` rejects it with the
error `e`, `ParseHost` (for all flag values) and `ValidateHost` return the original
`val`, untrimmed, together with `e`.  Moreover `ValidateHost` always returns `val`
as it was given, and it fails exactly when the trimmed `val` is non-empty and
`parseDaemonHost` rejects it. -/
theorem ParseHost_returns_input_on_error (env : HostsEnv) (val : Str) :
    (∀ e, strings.TrimSpace val ≠ [] →
      parseDaemonHost env.DefaultHTTPHost (strings.TrimSpace val) = .error e →
      (∀ defaultToTLS defaultToUnixXDG,
        ParseHost env defaultToTLS defaultToUnixXDG val = (val, some (.parse e))) ∧
      ValidateHost env val = (val, some (.parse e))) ∧
    (ValidateHost env val).1 = val ∧
    ((ValidateHost env val).2 ≠ none ↔
      (strings.TrimSpace val ≠ [] ∧
        ∃ e, parseDaemonHost env.DefaultHTTPHost (strings.TrimSpace val) = .error e)) := by
  refine ⟨?_, ?_, ?_⟩
  · intro e hne hfail
    constructor
    · intro defaultToTLS defaultToUnixXDG
      unfold ParseHost
      simp only [if_neg hne, hfail]
    · unfold ValidateHost
      simp only [if_pos hne, hfail]
  · unfold ValidateHost
    by_cases hne : strings.TrimSpace val ≠ []
    · simp only [if_pos hne]
      cases parseDaemonHost env.DefaultHTTPHost (strings.TrimSpace val) <;> rfl
    · simp only [if_neg hne]
  · unfold ValidateHost
    by_cases hne : strings.TrimSpace val ≠ []
    · simp only [if_pos hne]
      cases hp : parseDaemonHost env.DefaultHTTPHost (strings.TrimSpace val) with
      | error e => simp [hne]
      | ok r => simp
    · simp [hne]

/-- C13 at `" http://x "`: the blanks around the address are returned with it, and the
error carries the trimmed address. -/
theorem ParseHost_returns_input_on_error_witness :
    ParseHost
      { DefaultHTTPHost := "localhost".toList, DefaultHost := "unix:///var/run/docker.sock".toList,
        GetRuntimeDir := .error "no runtime directory".toList, Join := fun a b => a ++ b }
      false true " http://x ".toList =
      (" http://x ".toList, some (.parse (.invalidBindAddress "http://x".toList))) :=
  ((ParseHost_returns_input_on_error
      { DefaultHTTPHost := "localhost".toList, DefaultHost := "unix:///var/run/docker.sock".toList,
        GetRuntimeDir := .error "no runtime directory".toList, Join := fun a b => a ++ b }
      " http://x ".toList).1 (.invalidBindAddress "http://x".toList) (by decide)
      (by decide)).1 false true

/-! ### `parseSimpleProtoAddr` against its reference definition -/

theorem isPrefixOf?_eq_drop (pre addr : Str) :
    pre.isPrefixOf? addr =
      if pre.isPrefixOf addr then some (addr.drop pre.length) else none := by
  induction pre generalizing addr with
  | nil => simp [List.isPrefixOf?]
  | cons x xs ih =>
    cases addr with
    | nil => simp [List.isPrefixOf?]
    | cons y ys =>
      by_cases hxy : x = y
      · subst hxy
        simp [List.isPrefixOf?, List.isPrefixOf, ih ys]
      · simp [List.isPrefixOf?, List.isPrefixOf, hxy]

theorem trimPrefix_eq_rest (proto addr : Str) :
    strings.TrimPrefix addr (proto ++ "://".toList) = simpleProtoRest proto addr := by
  unfold strings.TrimPrefix strings.HasPrefix simpleProtoRest
  rw [isPrefixOf?_eq_drop]
  split_ifs <;> rfl

theorem contains_iff_sublist_run (s sub : Str) : strings.Contains s sub = true ↔ sub <:+: s := by
  unfold strings.Contains
  induction s with
  | nil =>
    cases sub with
    | nil => simp [strings.Index]
    | cons a as => simp [strings.Index]
  | cons c cs ih =>
    rw [List.infix_cons_iff, ← ih, strings.Index]
    by_cases hp : sub.isPrefixOf (c :: cs) = true
    · rw [if_pos hp]
      simp [List.isPrefixOf_iff_prefix.mp hp]
    · rw [if_neg hp]
      have hnp : ¬ sub <+: c :: cs := fun h => hp (List.isPrefixOf_iff_prefix.mpr h)
      cases strings.Index cs sub <;> simp [hnp]

/-- C16: `parseSimpleProtoAddr` equals its reference definition.  With `rest` the
address without one leading `proto://`, the call fails exactly when `rest` contains
`"://"`, and otherwise returns `proto://rest` for a non-empty `rest` and
`proto://defaultAddr` for an empty one. -/
theorem parseSimpleProtoAddr_eq_spec (proto addr defaultAddr : Str) :
    parseSimpleProtoAddr proto addr defaultAddr =
      parseSimpleProtoAddrSpec proto addr defaultAddr ∧
    ((∃ e, parseSimpleProtoAddr proto addr defaultAddr = .error e) ↔
      "://".toList <:+: simpleProtoRest proto addr) := by
  have heq : parseSimpleProtoAddr proto addr defaultAddr =
      parseSimpleProtoAddrSpec proto addr defaultAddr := by
    unfold parseSimpleProtoAddr parseSimpleProtoAddrSpec
    simp only [trimPrefix_eq_rest]
    by_cases hc : "://".toList <:+: simpleProtoRest proto addr
    · rw [if_pos ((contains_iff_sublist_run _ _).mpr hc), if_pos hc]
    · have hc2 : ¬ strings.Contains (simpleProtoRest proto addr) "://".toList = true :=
        fun h => hc ((contains_iff_sublist_run _ _).mp h)
      rw [if_neg hc2, if_neg hc]
      split_ifs <;> rfl
  refine ⟨heq, ?_⟩
  rw [heq]
  unfold parseSimpleProtoAddrSpec
  by_cases hc : "://".toList <:+: simpleProtoRest proto addr
  · rw [if_pos hc]
    exact ⟨fun _ => hc, fun _ => ⟨_, rfl⟩⟩
  · rw [if_neg hc]
    constructor
    · rintro ⟨e, he⟩
      split_ifs at he
    · intro h
      exact absurd h hc

/-! ### The form of a successful `parseDaemonHost` -/

theorem index_some_split (s sep : Str) (m : Nat) (h : strings.Index s sep = some m) :
    s = s.take m ++ sep ++ s.drop (m + sep.length) := by
  induction s generalizing m with
  | nil =>
    unfold strings.Index at h
    split_ifs at h with he
    simp only [Option.some.injEq] at h
    subst h
    simp [List.isEmpty_iff.mp he]
  | cons c cs ih =>
    rw [strings.Index] at h
    by_cases hp : sep.isPrefixOf (c :: cs) = true
    · rw [if_pos hp] at h
      simp only [Option.some.injEq] at h
      subst h
      obtain ⟨t, ht⟩ := List.isPrefixOf_iff_prefix.mp hp
      rw [← ht]
      simp
    · rw [if_neg hp] at h
      cases hi : strings.Index cs sep with
      | none => rw [hi] at h; simp at h
      | some j =>
        rw [hi] at h
        simp only [Option.map_some', Option.some.injEq] at h
        subst h
        have := ih j hi
        simp only [List.take_succ_cons, List.cons_append]
        rw [show j + 1 + sep.length = (j + sep.length) + 1 by omega, List.drop_succ_cons]
        rw [← this]

theorem joinHostPort_ne_nil (host port : Str) : net.JoinHostPort host port ≠ [] := by
  unfold net.JoinHostPort
  split_ifs <;> simp

/-- A successful `ParseTCPAddr` against `DefaultTCPHost` returns `tcp://` followed by a
non-empty text. -/
theorem ParseTCPAddr_result_form (DefaultHTTPHost a r : Str)
    (h : ParseTCPAddr a (DefaultTCPHost DefaultHTTPHost) = .ok r) :
    ∃ payload, r = "tcp".toList ++ "://".toList ++ payload ∧ payload ≠ [] := by
  unfold ParseTCPAddr at h
  split_ifs at h with h0
  · simp only [Except.ok.injEq] at h
    refine ⟨DefaultHTTPHost ++ ":".toList ++ DefaultHTTPPort, ?_, by simp⟩
    rw [← h]
    simp [DefaultTCPHost]
  · cases hres : resolveTCPParts a (DefaultTCPHost DefaultHTTPHost) with
    | error e => rw [hres] at h; simp at h
    | ok parts =>
      rw [hres] at h
      simp only at h
      unfold formatTCPParts at h
      simp only at h
      split_ifs at h
      simp only [Except.ok.injEq] at h
      refine ⟨net.JoinHostPort parts.1 parts.2.1 ++ parts.2.2, ?_, ?_⟩
      · rw [← h]; simp
      · simp [joinHostPort_ne_nil]

/-- A successful `parseSimpleProtoAddr` with a non-empty default returns `proto://`
followed by a non-empty text. -/
theorem parseSimpleProtoAddr_result_form (proto a D r : Str) (hD : D ≠ [])
    (h : parseSimpleProtoAddr proto a D = .ok r) :
    ∃ payload, r = proto ++ "://".toList ++ payload ∧ payload ≠ [] := by
  unfold parseSimpleProtoAddr at h
  simp only at h
  split_ifs at h with h1 h2
  · simp only [Except.ok.injEq] at h
    exact ⟨D, h.symm, hD⟩
  · simp only [Except.ok.injEq] at h
    exact ⟨_, h.symm, h2⟩

/-- C14: every successful result of `parseDaemonHost` is fully qualified.  If
`parseDaemonHost(addr)` returns `r` without error, then `r` is `proto + "://" +
payload` with `proto` one of `tcp`, `unix`, `npipe`, `fd`, equal to the scheme the
address was dispatched on (`tcp` for a bare host), and for `tcp`, `unix` and `npipe`
the payload is non-empty. -/
theorem parseDaemonHost_fully_qualified (DefaultHTTPHost addr r : Str)
    (h : parseDaemonHost DefaultHTTPHost addr = .ok r) :
    ∃ proto payload, r = proto ++ "://".toList ++ payload ∧
      proto ∈ ["tcp".toList, "unix".toList, "npipe".toList, "fd".toList] ∧
      proto = dispatchedScheme addr ∧ (proto ≠ "fd".toList → payload ≠ []) := by
  unfold parseDaemonHost at h
  unfold dispatchedScheme
  cases hi : strings.Index addr "://".toList with
  | none =>
    have hs : strings.SplitN2 addr "://".toList = [addr] := by
      unfold strings.SplitN2; rw [hi]
    rw [hs] at h ⊢
    simp only at h ⊢
    by_cases hne : addr ≠ []
    · rw [if_pos hne] at h ⊢
      simp only [if_true] at h
      obtain ⟨payload, hr, hp⟩ := ParseTCPAddr_result_form DefaultHTTPHost addr r h
      exact ⟨"tcp".toList, payload, hr, by simp, rfl, fun _ => hp⟩
    · rw [if_neg hne] at h
      simp at h
  | some m =>
    rw [splitN2_of_index addr m hi] at h ⊢
    simp only at h ⊢
    by_cases h1 : addr.take m = "tcp".toList
    · rw [if_pos h1] at h
      obtain ⟨payload, hr, hp⟩ := ParseTCPAddr_result_form DefaultHTTPHost _ r h
      exact ⟨"tcp".toList, payload, hr, by simp, h1.symm, fun _ => hp⟩
    · rw [if_neg h1] at h
      by_cases h2 : addr.take m = "unix".toList
      · rw [if_pos h2] at h
        obtain ⟨payload, hr, hp⟩ :=
          parseSimpleProtoAddr_result_form _ _ _ r (by decide) h
        exact ⟨"unix".toList, payload, hr, by simp, h2.symm, fun _ => hp⟩
      · rw [if_neg h2] at h
        by_cases h3 : addr.take m = "npipe".toList
        · rw [if_pos h3] at h
          obtain ⟨payload, hr, hp⟩ :=
            parseSimpleProtoAddr_result_form _ _ _ r (by decide) h
          exact ⟨"npipe".toList, payload, hr, by simp, h3.symm, fun _ => hp⟩
        · rw [if_neg h3] at h
          by_cases h4 : addr.take m = "fd".toList
          · rw [if_pos h4] at h
            simp only [Except.ok.injEq] at h
            refine ⟨"fd".toList, addr.drop (m + 3), ?_, by simp, h4.symm, fun hc => absurd rfl hc⟩
            rw [← h, ← h4]
            exact index_some_split addr "://".toList m hi
          · rw [if_neg h4] at h
            simp at h

/-- C14 at the bare host `localhost:`: the result is `tcp://localhost:2375`, of the
scheme `tcp` the bare host was dispatched on. -/
theorem parseDaemonHost_fully_qualified_witness :
    (∃ proto payload, "tcp://localhost:2375".toList = proto ++ "://".toList ++ payload ∧
      proto ∈ ["tcp".toList, "unix".toList, "npipe".toList, "fd".toList] ∧
      proto = dispatchedScheme "localhost:".toList ∧ (proto ≠ "fd".toList → payload ≠ [])) ∧
    dispatchedScheme "localhost:".toList = "tcp".toList :=
  ⟨parseDaemonHost_fully_qualified "localhost".toList "localhost:".toList
    "tcp://localhost:2375".toList (by decide), by decide⟩

/-! ### The listener factory -/

/-- A list of listeners returned by `listenFD` is never empty. -/
theorem listenFD_listeners_ne_nil (sup : Supervisor) (addr : Str) (tlsConfig : Bool)
    (ls : List (Option Listener)) (closed : List Listener)
    (h : listenFD sup addr tlsConfig = (.listeners ls, closed)) : ls ≠ [] := by
  revert h
  unfold listenFD
  cases hact : (if tlsConfig = true then sup.TLSListeners else sup.Listeners) with
  | error e => simp
  | ok L =>
    simp only
    by_cases hlen : L.length = 0
    · simp [hlen]
    rw [if_neg hlen]
    by_cases hw : addr = [] ∨ addr = "*".toList
    · rw [if_pos hw]
      intro h
      simp only [Prod.mk.injEq, ListenOutcome.listeners.injEq] at h
      rw [← h.1]
      exact fun e => hlen (by rw [e]; rfl)
    rw [if_neg hw]
    by_cases hp : (strconv.Atoi addr).2.isSome = true
    · simp [hp]
    rw [if_neg hp]
    by_cases hfew : (L.length : Int) < wrap64 (wrap64 ((strconv.Atoi addr).1 - 3) + 1)
    · simp [hfew]
    rw [if_neg hfew]
    cases goIndex L (wrap64 ((strconv.Atoi addr).1 - 3)) with
    | none => simp
    | some slot =>
      cases slot with
      | none => simp
      | some sel =>
        simp only
        cases closeOthers sup.Close (wrap64 ((strconv.Atoi addr).1 - 3)) 0 L with
        | mk e cl =>
          cases e with
          | some err => simp
          | none =>
            simp only
            intro h
            simp only [Prod.mk.injEq, ListenOutcome.listeners.injEq] at h
            rw [← h.1]
            simp

/-- The part of C18 that the code keeps: a call of `Init` ends in the panic of
`listenFD` (only for the protocol `fd`), in an error, or in a non-empty list of
listeners, never in an empty list without an error; and for every protocol other
than `fd`, `tcp` and `unix` it returns the error "invalid protocol format". -/
theorem Init_error_or_nonempty (env : Collaborators) (proto addr socketGroup : Str)
    (tlsConfig : Bool) :
    (((Init env proto addr socketGroup tlsConfig).1 = .indexOutOfRange ∧
        proto = "fd".toList ∧
        (listenFD env.supervisor addr tlsConfig).1 = .indexOutOfRange) ∨
      (∃ e, (Init env proto addr socketGroup tlsConfig).1 = .failed e) ∨
      (∃ ls, (Init env proto addr socketGroup tlsConfig).1 = .listeners ls ∧ ls ≠ [])) ∧
    (proto ∉ ["fd".toList, "tcp".toList, "unix".toList] →
      Init env proto addr socketGroup tlsConfig = (.failed (.invalidProtocol proto), [])) := by
  constructor
  · unfold Init
    simp only [List.nil_append]
    by_cases h1 : proto = "fd".toList
    · rw [if_pos h1]
      cases hl : listenFD env.supervisor addr tlsConfig with
      | mk out closed =>
        cases out with
        | listeners fds =>
          exact Or.inr (Or.inr ⟨fds, rfl,
            listenFD_listeners_ne_nil env.supervisor addr tlsConfig fds closed hl⟩)
        | failed e => exact Or.inr (Or.inl ⟨_, rfl⟩)
        | indexOutOfRange => exact Or.inl ⟨rfl, h1, rfl⟩
    · rw [if_neg h1]
      by_cases h2 : proto = "tcp".toList
      · rw [if_pos h2]
        cases env.NewTCPSocket addr tlsConfig with
        | error e => exact Or.inr (Or.inl ⟨_, rfl⟩)
        | ok l => exact Or.inr (Or.inr ⟨[l], rfl, by simp⟩)
      · rw [if_neg h2]
        by_cases h3 : proto = "unix".toList
        · rw [if_pos h3]
          cases resolveGID env socketGroup with
          | error e => exact Or.inr (Or.inl ⟨_, rfl⟩)
          | ok gid =>
            simp only
            cases env.NewUnixSocket addr gid with
            | error e => exact Or.inr (Or.inl ⟨_, rfl⟩)
            | ok l => exact Or.inr (Or.inr ⟨[l], rfl, by simp⟩)
        · rw [if_neg h3]
          exact Or.inr (Or.inl ⟨_, rfl⟩)
  · intro hp
    simp only [List.mem_cons, List.mem_singleton, List.not_mem_nil, or_false, not_or] at hp
    unfold Init
    simp only [if_neg hp.1, if_neg hp.2.1, if_neg hp.2.2]

/-- C18: with the protocol `fd`, the selector `"2"` and an inventory of five
listeners, `Init` ends in the index-out-of-range panic of `listenFD`: it returns
neither an error nor a list. -/
theorem Init_fd_negative_offset_panics :
    Init (quietCollaborators [some 10, some 11, some 12, some 13, some 14]) "fd".toList
      "2".toList [] false = (.indexOutOfRange, []) := by
  decide
